import Mathlib

/-!
Verification development for the Teeworlds map codec in tml/tml.py
(repository GreYFoX/TeeworldsMapLib).

The code under src/tml/tml.py is embedded shallowly: Python functions become
Lean functions, machine integers become Int with explicit wraparound where the
code wraps, fallible operations return Except.  The companion modules items.py
and constants.py are not part of src/; everything taken from them is modelled
from the specification document and carries a doc comment starting with
Modelled from the spec.
-/

namespace Tml

/-- Failure modes of the embedded codec.  Each constructor corresponds to one
way the Python code can raise: overflow is the OverflowError raised by int32,
invalidSignature and wrongVersion are the two TypeError raises in
Header init (the failure class the design document calls FormatError),
structError is struct.error from pack and unpack (wrong byte count or a value
outside the packable range), indexError is a Python list IndexError,
refError is an out-of-range cross reference (the ReferenceError of the design
document), zlibError is a zlib decompression failure, nameError is a use of
the uninitialized last offset variable, seekError is a seek to a negative
position, attrError is a lookup of an unknown item class. -/
inductive Err where
  | overflow
  | invalidSignature
  | wrongVersion
  | structError
  | indexError
  | refError
  | zlibError
  | nameError
  | seekError
  | attrError
deriving DecidableEq, Repr

/-- Shallow embedding of int32 (tml.py lines 21 to 30).  The Python function
raises OverflowError for x above 0xFFFFFFFF, maps the range above 0x7FFFFFFF
to the negative side of two complement, and returns every other input
unchanged. -/
def int32 (x : Int) : Except Err Int :=
  if x > 0xFFFFFFFF then
    .error .overflow
  else if x > 0x7FFFFFFF then
    let y : Int := 0x100000000 - x
    if y < 2147483648 then .ok (-y) else .ok (-2147483648)
  else
    .ok x

/-- Little endian encoding of one signed 32 bit integer, as produced by
struct.pack with format i: the value is reduced modulo two to the 32 and
split into four bytes. -/
def encIntLE (x : Int) : List Nat :=
  [(x % 4294967296).toNat % 256,
   (x % 4294967296).toNat / 256 % 256,
   (x % 4294967296).toNat / 65536 % 256,
   (x % 4294967296).toNat / 16777216 % 256]

/-- Little endian decoding of one signed 32 bit integer from four bytes, as
done by struct.unpack with format i: recombine the bytes and interpret the
top bit as the sign. -/
def decIntLE (b0 b1 b2 b3 : Nat) : Int :=
  if b0 + 256 * b1 + 65536 * b2 + 16777216 * b3 < 2147483648 then
    ((b0 + 256 * b1 + 65536 * b2 + 16777216 * b3 : Nat) : Int)
  else
    ((b0 + 256 * b1 + 65536 * b2 + 16777216 * b3 : Nat) : Int) - 4294967296

/-- Decode a byte list into 32 bit integers four bytes at a time; a trailing
chunk shorter than four bytes is dropped. -/
def decInts : List Nat → List Int
  | b0 :: b1 :: b2 :: b3 :: rest => decIntLE b0 b1 b2 b3 :: decInts rest
  | _ => []

/-- Encode a list of 32 bit integers into bytes, little endian. -/
def encInts (xs : List Int) : List Nat :=
  (xs.map encIntLE).flatten

/-- Shallow embedding of struct.pack with format i: values outside the signed
32 bit range raise struct.error. -/
def packI32 (v : Int) : Except Err (List Nat) :=
  if v < -2147483648 ∨ 2147483647 < v then .error .structError
  else .ok (encIntLE v)

/-- A value fits the signed 32 bit range. -/
def intOk (x : Int) : Bool :=
  decide (-2147483648 ≤ x) && decide (x ≤ 2147483647)

theorem intOk_iff {x : Int} : intOk x = true ↔ -2147483648 ≤ x ∧ x ≤ 2147483647 := by
  simp [intOk]

theorem packI32_of_intOk {v : Int} (h : intOk v = true) :
    packI32 v = .ok (encIntLE v) := by
  rw [intOk_iff] at h
  unfold packI32
  rw [if_neg (by omega)]

theorem int32_of_intOk {v : Int} (h : intOk v = true) : int32 v = .ok v := by
  rw [intOk_iff] at h
  unfold int32
  rw [if_neg (by omega), if_neg (by omega)]

theorem encIntLE_length (x : Int) : (encIntLE x).length = 4 := rfl

theorem encInts_length (xs : List Int) : (encInts xs).length = 4 * xs.length := by
  induction xs with
  | nil => rfl
  | cons x rest ih =>
    have h : encInts (x :: rest) = encIntLE x ++ encInts rest := by simp [encInts]
    rw [h, List.length_append, encIntLE_length, ih, List.length_cons]
    ring

theorem decIntLE_encIntLE {x : Int} (h1 : -2147483648 ≤ x) (h2 : x ≤ 2147483647) :
    decInts (encIntLE x) = [x] := by
  have hmod : x % 4294967296 = if 0 ≤ x then x else x + 4294967296 := by
    split <;> omega
  simp only [encIntLE, decInts, decIntLE]
  congr 1
  split at hmod <;> (rw [hmod]; split <;> push_cast <;> omega)

theorem decInts_append_of_length {a : List Nat} (b : List Nat)
    (h : a.length = 4) : decInts (a ++ b) = decInts a ++ decInts b := by
  match a, h with
  | [b0, b1, b2, b3], _ => simp [decInts]

theorem decInts_encInts {xs : List Int} (h : ∀ x ∈ xs, intOk x = true) :
    decInts (encInts xs) = xs := by
  induction xs with
  | nil => rfl
  | cons x rest ih =>
    have hx := intOk_iff.mp (h x (by simp))
    have : encInts (x :: rest) = encIntLE x ++ encInts rest := by
      simp [encInts]
    rw [this, decInts_append_of_length _ (encIntLE_length x),
      decIntLE_encIntLE hx.1 hx.2, ih (fun y hy => h y (by simp [hy]))]
    rfl

theorem decInts_length (bs : List Nat) : (decInts bs).length = bs.length / 4 := by
  induction bs using decInts.induct with
  | case1 b0 b1 b2 b3 rest ih => simp [decInts, ih]; omega
  | case2 bs h => cases bs with
    | nil => simp [decInts]
    | cons a t => cases t with
      | nil => simp [decInts]
      | cons a2 t2 => cases t2 with
        | nil => simp [decInts]
        | cons a3 t3 =>
          cases t3 with
          | nil => simp [decInts]
          | cons a4 t4 => exact absurd rfl (h a a2 a3 a4 t4)

@[simp] theorem ok_bind {A B : Type} (a : A) (f : A → Except Err B) :
    (Except.ok a : Except Err A) >>= f = f a := rfl

@[simp] theorem error_bind {A B : Type} (e : Err) (f : A → Except Err B) :
    (Except.error e : Except Err A) >>= f = .error e := rfl

/-- Pack a list of integers as struct.pack with format i would, failing on the
first out-of-range value. -/
def packInts : List Int → Except Err (List Nat)
  | [] => .ok []
  | v :: rest => do
    let b ← packI32 v
    let r ← packInts rest
    .ok (b ++ r)

theorem packInts_of_all {xs : List Int} (h : ∀ x ∈ xs, intOk x = true) :
    packInts xs = .ok (encInts xs) := by
  induction xs with
  | nil => rfl
  | cons x rest ih =>
    simp only [packInts, packI32_of_intOk (h x (by simp)),
      ih (fun y hy => h y (by simp [hy]))]
    rfl

/-- C3: the integer packing function maps 0xFFFFFFFF to -1 and 0x80000000 to
-2147483648, and raises OverflowError for every input strictly greater than
0xFFFFFFFF. -/
theorem c3_int32_packing :
    int32 0xFFFFFFFF = .ok (-1) ∧
    int32 0x80000000 = .ok (-2147483648) ∧
    ∀ x : Int, 0xFFFFFFFF < x → int32 x = .error .overflow := by
  refine ⟨rfl, rfl, fun x hx => ?_⟩
  unfold int32
  rw [if_pos (by omega)]

/-- Witness for C3: the overflow branch fires at the concrete input 2 to
the 32. -/
theorem c3_witness : int32 4294967296 = .error .overflow :=
  c3_int32_packing.2.2 4294967296 (by norm_num)

/-- C9 counterexample: the claim says every value below -2147483648 raises
OverflowError, but int32 applied to -2147483649 returns it unchanged and
raises nothing. -/
theorem c9_counterexample :
    int32 (-2147483649) = .ok (-2147483649) ∧
    ∀ e : Err, int32 (-2147483649) ≠ .error e := by
  exact ⟨rfl, fun e h => by simp [int32] at h⟩

/-- C9 amended: int32 raises OverflowError only for inputs above 0xFFFFFFFF;
every input below -2147483648 is returned unchanged, and the hard failure for
such values comes only from the subsequent struct.pack call in save, as
struct.error rather than OverflowError. -/
theorem c9_amended (x : Int) (h : x < -2147483648) :
    int32 x = .ok x ∧ packI32 x = .error .structError := by
  constructor
  · unfold int32
    rw [if_neg (by omega), if_neg (by omega)]
  · unfold packI32
    rw [if_pos (Or.inl h)]

/-- Witness for C9 amended, at the concrete input -2147483649. -/
theorem c9_witness :
    int32 (-2147483649 : Int) = .ok (-2147483649) ∧
    packI32 (-2147483649 : Int) = .error .structError :=
  c9_amended (-2147483649) (by norm_num)

/-- Normalized form of a Python index: negative indices count from the end. -/
def pyIdxNorm (len : Nat) (i : Int) : Int :=
  if i < 0 then (len : Int) + i else i

/-- Python list indexing xs i: a negative index counts from the end, and an
index outside the list raises IndexError. -/
def pyGet {α : Type} (xs : List α) (i : Int) : Except Err α :=
  if h : 0 ≤ pyIdxNorm xs.length i ∧ pyIdxNorm xs.length i < xs.length then
    .ok (xs.get ⟨(pyIdxNorm xs.length i).toNat, by omega⟩)
  else
    .error .indexError

/-- Normalize one Python slice bound for a list of length len: negative bounds
count from the end and everything is clamped into the list. -/
def pyBound (len : Nat) (i : Int) : Nat :=
  if i < 0 then ((len : Int) + i).toNat else min i.toNat len

/-- Python list slicing xs a b with the default step: never raises, clamps
both bounds, and returns the empty list when the range is empty. -/
def pySlice {α : Type} (xs : List α) (a b : Int) : List α :=
  (xs.take (pyBound xs.length b)).drop (pyBound xs.length a)

theorem pySlice_all (xs : List Nat) : pySlice xs 0 xs.length = xs := by
  unfold pySlice pyBound
  rw [if_neg (by omega), if_neg (by omega)]
  simp

theorem pyGet_nonneg {α : Type} (xs : List α) (i : Nat) (h : i < xs.length) :
    pyGet xs i = .ok (xs.get ⟨i, h⟩) := by
  have hn : pyIdxNorm xs.length i = i := by
    unfold pyIdxNorm
    rw [if_neg (by omega)]
  simp only [pyGet, hn]
  rw [dif_pos (by constructor <;> omega)]
  simp

/-- Python slice of an exact middle segment: with the left part length as the
lower bound and the segment end as the upper bound, the segment is returned. -/
theorem pySlice_middle {α : Type} (A B C : List α) :
    pySlice (A ++ B ++ C) A.length (A.length + B.length) = B := by
  unfold pySlice pyBound
  rw [if_neg (by omega), if_neg (by omega)]
  have hlen : (A ++ B ++ C).length = A.length + B.length + C.length := by
    simp
    omega
  have h1 : min ((A.length : Int) + B.length).toNat (A ++ B ++ C).length
      = A.length + B.length := by omega
  have h2 : min ((A.length : Int)).toNat (A ++ B ++ C).length = A.length := by
    omega
  rw [h1, h2]
  rw [@List.take_left' _ (A ++ B) C _ (by simp), List.drop_left]

/-- Shallow embedding of the offset-to-size loop in load (tml.py lines 195 to
199, and the same pattern at lines 186 to 191): walk the offsets, emit a size
for every positive offset measured against the previous offset, update the
previous offset unconditionally and thus reset it to zero at a zero entry. -/
def sizesFrom (last : Int) : List Int → List Int
  | [] => []
  | o :: rest => if 0 < o then (o - last) :: sizesFrom o rest else sizesFrom o rest

/-- Size derivation as the claim words it: each size is measured against the
last offset that was itself not skipped, so a skipped zero entry leaves the
reference point unchanged. -/
def claimedSizes (last : Int) : List Int → List Int
  | [] => []
  | o :: rest => if 0 < o then (o - last) :: claimedSizes o rest else claimedSizes last rest

/-- Positive offsets of an offset table, in order. -/
def posOffsets (offs : List Int) : List Int :=
  offs.filter (fun x => decide (0 < x))

theorem sizesFrom_nonneg_aux (offs : List Int) :
    ∀ last : Int, 0 ≤ last →
      (∀ x ∈ offs, 0 ≤ x) →
      List.Chain' (· ≤ ·) (posOffsets offs) →
      (∀ p, (posOffsets offs).head? = some p → last ≤ p) →
      ∀ s ∈ sizesFrom last offs, 0 ≤ s := by
  induction offs with
  | nil => intro last _ _ _ _ s hs; simp [sizesFrom] at hs
  | cons o rest ih =>
    intro last hlast hmem hchain hhd s hs
    by_cases ho : 0 < o
    · have hpos : posOffsets (o :: rest) = o :: posOffsets rest := by
        simp [posOffsets, List.filter, ho]
      rw [hpos] at hchain hhd
      rw [List.chain'_cons'] at hchain
      have hlo : last ≤ o := hhd o rfl
      rw [sizesFrom, if_pos ho] at hs
      rcases List.mem_cons.mp hs with h1 | h2
      · omega
      · exact ih o (by omega) (fun x hx => hmem x (by simp [hx]))
          hchain.2 (fun p hp => hchain.1 p hp) s h2
    · have hpos : posOffsets (o :: rest) = posOffsets rest := by
        simp [posOffsets, List.filter, ho]
      rw [hpos] at hchain hhd
      rw [sizesFrom, if_neg ho] at hs
      have ho0 : 0 ≤ o := hmem o (by simp)
      refine ih o ho0 (fun x hx => hmem x (by simp [hx])) hchain ?_ s hs
      intro p hp
      have : p ∈ posOffsets rest := List.mem_of_mem_head? hp
      have : 0 < p := by
        have := List.of_mem_filter this
        simpa using this
      omega

/-- C5 counterexample: on the offset table 0, 4, 0, 6 with blob size 10, the
code derives sizes 4, 6, 4, while measuring against the last non-skipped
offset as the claim words it would derive 4, 2, 4.  The code measures each
size against the immediately preceding offset, which a skipped zero entry
resets to zero. -/
theorem c5_counterexample :
    sizesFrom 0 [0, 4, 0, 6, 10] = [4, 6, 4] ∧
    claimedSizes 0 [0, 4, 0, 6, 10] = [4, 2, 4] ∧
    sizesFrom 0 [0, 4, 0, 6, 10] ≠ claimedSizes 0 [0, 4, 0, 6, 10] := by
  refine ⟨rfl, rfl, by decide⟩

/-- C5 amended: a zero offset is skipped (it emits no size) and resets the
reference offset to zero; each emitted size is measured against the
immediately preceding offset, not against the last non-skipped one; as a
consequence, zero offsets interleaved into a nondecreasing table of
nonnegative offsets never produce negative sizes. -/
theorem c5_amended :
    (∀ (l : Int) (rest : List Int), sizesFrom l (0 :: rest) = sizesFrom 0 rest) ∧
    (∀ (l p : Int) (rest : List Int), 0 < p →
      sizesFrom l (p :: rest) = (p - l) :: sizesFrom p rest) ∧
    (∀ offs : List Int, (∀ x ∈ offs, 0 ≤ x) →
      List.Chain' (· ≤ ·) (posOffsets offs) →
      ∀ s ∈ sizesFrom 0 offs, 0 ≤ s) := by
  refine ⟨fun l rest => by simp [sizesFrom], fun l p rest hp => by simp [sizesFrom, hp], ?_⟩
  intro offs hmem hchain
  refine sizesFrom_nonneg_aux offs 0 le_rfl hmem hchain ?_
  intro p hp
  have hmemp : p ∈ posOffsets offs := List.mem_of_mem_head? hp
  have h1 := List.of_mem_filter hmemp
  have h2 : (0 : Int) < p := by simpa using h1
  exact h2.le

/-- Witness for C5 amended: the three parts evaluated at concrete inputs,
including a table with consecutive zero offsets. -/
theorem c5_witness :
    sizesFrom 7 (0 :: [3]) = sizesFrom 0 [3] ∧
    sizesFrom 2 (5 :: [9]) = (3 : Int) :: sizesFrom 5 [9] ∧
    ∀ s ∈ sizesFrom 0 [0, 0, 5, 9], 0 ≤ s := by
  refine ⟨c5_amended.1 7 [3], ?_,
    c5_amended.2.2 [0, 0, 5, 9] (by decide) (by norm_num [posOffsets, List.chain'_cons])⟩
  have h := c5_amended.2.1 2 5 [9] (by norm_num)
  simpa using h

/-- Modelled from the spec: one envelope control point, a 6 integer record
time, curve type and four values (items.py Envpoint is not in src). -/
structure Envpoint where
  time : Int
  curvetype : Int
  values : List Int
deriving DecidableEq, Repr

/-- Modelled from the spec: an image descriptor with dimensions, an
external flag and, for embedded images, the raw pixel block kept as an
opaque byte blob (items.py Image is not in src). -/
structure Image where
  width : Int
  height : Int
  external : Int
  imagedata : Option (List Nat)
deriving DecidableEq, Repr

/-- Modelled from the spec: an envelope descriptor with channel count, a
point range into the global envpoint sequence, a synced flag, and a name
kept in its packed integer form (items.py Envelope is not in src). -/
structure Envelope where
  channels : Int
  start_point : Int
  num_points : Int
  synced : Int
  name : List Int
deriving DecidableEq, Repr

/-- Modelled from the spec: a tile layer with dimensions, game flag, color,
an image reference by index, and the tile grid kept as an opaque byte blob
(items.py TileLayer is not in src). -/
structure TileLayer where
  width : Int
  height : Int
  game : Int
  color : Int
  image : Int
  tiles : List Nat
deriving DecidableEq, Repr

/-- Modelled from the spec: a quad layer with an image reference by index and
its quad records kept as a flat integer sequence (items.py QuadLayer is not
in src). -/
structure QuadLayer where
  image : Int
  quads : List Int
deriving DecidableEq, Repr

/-- A layer is either a tile layer or a quad layer. -/
inductive Layer where
  | tile : TileLayer → Layer
  | quad : QuadLayer → Layer
deriving DecidableEq, Repr

/-- Modelled from the spec: the layer type discriminant indexing
LAYER_TYPES (constants.py is not in src); 0 selects tile, 1 selects quad. -/
def Layer.type : Layer → Int
  | .tile _ => 0
  | .quad _ => 1

/-- Modelled from the spec: the distinguished game layer is a tile layer
whose game flag is set (items.py is not in src). -/
def Layer.is_gamelayer : Layer → Bool
  | .tile t => t.game != 0
  | .quad _ => false

/-- Modelled from the spec: a group descriptor with offsets, parallax
factors, clipping rectangle, its layer range start_layer and num_layers into
the global flat layer sequence, and the owned layer list (items.py Group is
not in src). -/
structure Group where
  offset_x : Int
  offset_y : Int
  parallax_x : Int
  parallax_y : Int
  start_layer : Int
  num_layers : Int
  use_clipping : Int
  clip_x : Int
  clip_y : Int
  clip_w : Int
  clip_h : Int
  layers : List Layer
deriving DecidableEq, Repr

/-- The root aggregate of tml.py Teemap, restricted to the object graph the
codec round-trips: images, envelopes, groups with their owned layers, and
the single global envpoint sequence. -/
structure Teemap where
  images : List Image
  envelopes : List Envelope
  groups : List Group
  envpoints : List Envpoint
deriving DecidableEq, Repr

/-- Shallow embedding of the layers property (tml.py lines 133 to 139): the
flat layer list collected from the groups in order. -/
def Teemap.layers (t : Teemap) : List Layer :=
  (t.groups.map Group.layers).flatten

/-- Scan of a layer list for the first game layer, mirroring the loop in the
gamelayer property: return the first hit, implicitly None when there is
none. -/
def findGamelayer : List Layer → Option Layer
  | [] => none
  | l :: rest => if l.is_gamelayer then some l else findGamelayer rest

/-- Shallow embedding of the gamelayer property (tml.py lines 141 to 146). -/
def Teemap.gamelayer (t : Teemap) : Option Layer :=
  findGamelayer t.layers

theorem findGamelayer_none (ls : List Layer)
    (h : ∀ l ∈ ls, l.is_gamelayer = false) : findGamelayer ls = none := by
  induction ls with
  | nil => rfl
  | cons l rest ih =>
    rw [findGamelayer, if_neg (by simp [h l (by simp)])]
    exact ih (fun x hx => h x (by simp [hx]))

theorem findGamelayer_first (ls : List Layer) (l : Layer)
    (h : findGamelayer ls = some l) :
    ∃ k, ∃ hk : k < ls.length, ls.get ⟨k, hk⟩ = l ∧ l.is_gamelayer = true ∧
      ∀ j, ∀ hj : j < ls.length, j < k → (ls.get ⟨j, hj⟩).is_gamelayer = false := by
  induction ls with
  | nil => simp [findGamelayer] at h
  | cons a rest ih =>
    by_cases ha : a.is_gamelayer
    · rw [findGamelayer, if_pos ha] at h
      refine ⟨0, by simp, by simpa using h, by rw [← Option.some_inj.mp h]; exact ha, ?_⟩
      intro j hj hj0
      omega
    · rw [findGamelayer, if_neg ha] at h
      obtain ⟨k, hk, hget, hgame, hbefore⟩ := ih h
      refine ⟨k + 1, by simpa using Nat.succ_lt_succ hk, by simpa using hget, hgame, ?_⟩
      intro j hj hjk
      cases j with
      | zero => simpa using ha
      | succ j0 =>
        have hj0 : j0 < rest.length := by simp at hj; omega
        have := hbefore j0 hj0 (by omega)
        simpa using this

/-- The scan finds a hit whenever the list holds a layer with the game
flag: the accessor cannot come back empty in that case. -/
theorem findGamelayer_some (ls : List Layer) :
    ∀ l ∈ ls, l.is_gamelayer = true → ∃ l2, findGamelayer ls = some l2 := by
  induction ls with
  | nil =>
    intro l hl
    cases hl
  | cons a rest ih =>
    intro l hl hg
    by_cases ha : a.is_gamelayer = true
    · exact ⟨a, by rw [findGamelayer, if_pos ha]⟩
    · rcases List.mem_cons.mp hl with rfl | h2
      · exact absurd hg ha
      · obtain ⟨l2, hl2⟩ := ih l h2 hg
        exact ⟨l2, by rw [findGamelayer, if_neg ha, hl2]⟩

/-- C10: the gamelayer accessor never raises; it returns none when no layer
of the derived flat layer list has the game flag, it returns some layer
whenever at least one game layer exists, and whatever it returns is the
first game layer in the flattened group-order traversal. -/
theorem c10_gamelayer (t : Teemap) :
    ((∀ l ∈ t.layers, l.is_gamelayer = false) → t.gamelayer = none) ∧
    ((∃ l ∈ t.layers, l.is_gamelayer = true) →
      ∃ l : Layer, t.gamelayer = some l) ∧
    (∀ l : Layer, t.gamelayer = some l →
      ∃ k, ∃ hk : k < t.layers.length, t.layers.get ⟨k, hk⟩ = l ∧
        l.is_gamelayer = true ∧
        ∀ j, ∀ hj : j < t.layers.length, j < k →
          (t.layers.get ⟨j, hj⟩).is_gamelayer = false) := by
  refine ⟨fun h => findGamelayer_none t.layers h, ?_,
    fun l h => findGamelayer_first t.layers l h⟩
  rintro ⟨l, hl, hg⟩
  exact findGamelayer_some t.layers l hl hg

/-- A two-group map without any game layer, for the C10 witness. -/
def mapNoGame : Teemap :=
  { images := [], envelopes := [],
    groups :=
      [{ offset_x := 0, offset_y := 0, parallax_x := 100, parallax_y := 100,
         start_layer := 0, num_layers := 1, use_clipping := 0, clip_x := 0,
         clip_y := 0, clip_w := 0, clip_h := 0,
         layers := [.quad { image := -1, quads := [] }] },
       { offset_x := 0, offset_y := 0, parallax_x := 100, parallax_y := 100,
         start_layer := 1, num_layers := 1, use_clipping := 0, clip_x := 0,
         clip_y := 0, clip_w := 0, clip_h := 0,
         layers := [.tile { width := 2, height := 2, game := 0, color := 0,
                            image := -1, tiles := [0, 0, 0, 0] }] }],
    envpoints := [] }

/-- A two-group map whose second group holds a game layer, for the positive
half of the C10 witness. -/
def mapWithGame : Teemap :=
  { images := [], envelopes := [],
    groups :=
      [{ offset_x := 0, offset_y := 0, parallax_x := 100, parallax_y := 100,
         start_layer := 0, num_layers := 1, use_clipping := 0, clip_x := 0,
         clip_y := 0, clip_w := 0, clip_h := 0,
         layers := [.quad { image := -1, quads := [] }] },
       { offset_x := 0, offset_y := 0, parallax_x := 100, parallax_y := 100,
         start_layer := 1, num_layers := 1, use_clipping := 0, clip_x := 0,
         clip_y := 0, clip_w := 0, clip_h := 0,
         layers := [.tile { width := 2, height := 2, game := 1, color := 0,
                            image := -1, tiles := [0, 0, 0, 0] }] }],
    envpoints := [] }

/-- Witness for C10: on a concrete map without game layers the accessor
returns none, and on a concrete map holding a game layer it returns some
layer. -/
theorem c10_witness :
    mapNoGame.gamelayer = none ∧
    ∃ l : Layer, mapWithGame.gamelayer = some l :=
  ⟨(c10_gamelayer mapNoGame).1 (by decide),
   (c10_gamelayer mapWithGame).2.1 (by decide)⟩

/-- The layer list a group receives during load (tml.py lines 237 to 241):
the Python slice of the flat layer list from start_layer to start_layer plus
num_layers. -/
def assignedLayers (g : Group) (ls : List Layer) : List Layer :=
  pySlice ls g.start_layer (g.start_layer + g.num_layers)

/-- Shallow embedding of the layer assignment loop of load: every group gets
the slice of the flat layer list described by its own range. -/
def assignLayers (gs : List Group) (ls : List Layer) : List Group :=
  gs.map (fun g => { g with layers := assignedLayers g ls })

/-- A group whose layer range 0 to 5 exceeds a one-element flat layer list,
for the C6 counterexample. -/
def overGroup : Group :=
  { offset_x := 0, offset_y := 0, parallax_x := 100, parallax_y := 100,
    start_layer := 0, num_layers := 5, use_clipping := 0, clip_x := 0,
    clip_y := 0, clip_w := 0, clip_h := 0, layers := [] }

/-- The one-element flat layer list used in the C6 counterexample. -/
def oneLayerList : List Layer :=
  [.quad { image := -1, quads := [] }]

/-- C6 counterexample: with a group whose range 0 to 5 exceeds the flat layer
list of length 1, the assignment step raises nothing; the slice silently
truncates and the group receives a single layer instead of five. -/
theorem c6_counterexample :
    (oneLayerList.length : Int) < overGroup.start_layer + overGroup.num_layers ∧
    assignLayers [overGroup] oneLayerList =
      [{ overGroup with layers := oneLayerList }] ∧
    (assignedLayers overGroup oneLayerList).length = 1 := by
  refine ⟨by decide, by decide, by decide⟩

/-- C6 amended: the assignment step never raises; each group receives the
clamped Python slice of the flat layer list, whose length obeys the exact
clamping formula, equals num_layers when the range fits, and is strictly
smaller than num_layers whenever a nonempty range exceeds the flat layer
list length. -/
theorem c6_amended (g : Group) (ls : List Layer)
    (ha : 0 ≤ g.start_layer) (hb : 0 ≤ g.num_layers) :
    assignLayers [g] ls = [{ g with layers := assignedLayers g ls }] ∧
    (assignedLayers g ls).length =
      min (g.start_layer + g.num_layers).toNat ls.length -
        min g.start_layer.toNat ls.length ∧
    ((g.start_layer + g.num_layers : Int) ≤ ls.length →
      (assignedLayers g ls).length = g.num_layers.toNat) ∧
    ((ls.length : Int) < g.start_layer + g.num_layers → 0 < g.num_layers →
      (assignedLayers g ls).length < g.num_layers.toNat) := by
  have hlen : (assignedLayers g ls).length =
      min (g.start_layer + g.num_layers).toNat ls.length -
        min g.start_layer.toNat ls.length := by
    unfold assignedLayers pySlice pyBound
    rw [if_neg (by omega), if_neg (by omega)]
    rw [List.length_drop, List.length_take]
    omega
  refine ⟨rfl, hlen, fun hfit => ?_, fun hover hpos => ?_⟩
  · rw [hlen]
    omega
  · rw [hlen]
    omega

/-- Witness for C6 amended: the clamping formula evaluated on a concrete
group and layer list. -/
theorem c6_witness :
    assignLayers [overGroup] oneLayerList =
      [{ overGroup with layers := assignedLayers overGroup oneLayerList }] ∧
    (assignedLayers overGroup oneLayerList).length =
      min (overGroup.start_layer + overGroup.num_layers).toNat
        oneLayerList.length - min overGroup.start_layer.toNat oneLayerList.length := by
  have h := c6_amended overGroup oneLayerList (by decide) (by decide)
  exact ⟨h.1, h.2.1⟩

/-- The six integers of one envpoint record as written by save (tml.py lines
292 to 296): time, curve type, then the four values. -/
def Envpoint.itemInts (p : Envpoint) : List Int :=
  p.time :: p.curvetype :: p.values

/-- The full integer payload of the aggregate envpoint item as written by
save (tml.py lines 289 to 297): the id word 6 shifted left by 16, the byte
size word, then all records. -/
def envpointItemInts (ps : List Envpoint) : List Int :=
  (((6 : Nat) <<< 16 : Nat) : Int) :: ((ps.length : Int) * 6 * 4) ::
    (ps.map Envpoint.itemInts).flatten

/-- Modelled from the spec: the Envpoint constructor applied to a 6 integer
record (items.py is not in src); getD stands in for Python indexing, which
cannot go out of range at the only call site because the slices passed in
always hold six integers. -/
def envpointOfInfo (info6 : List Int) : Envpoint :=
  { time := info6.getD 0 0, curvetype := info6.getD 1 0,
    values := pySlice info6 2 6 }

/-- Shallow embedding of the envpoint splitting loop in load (tml.py lines
224 to 229): skip the two leading integers, cut the rest into 6 integer
records with Python slices, one envpoint per record. -/
def splitEnvpoints (info : List Int) : List Envpoint :=
  (List.range ((info.length - 2) / 6)).map (fun i =>
    envpointOfInfo (pySlice info ((2 + i * 6 : Nat) : Int)
      ((2 + (i * 6 + 6) : Nat) : Int)))

theorem itemInts_length {p : Envpoint} (h : p.values.length = 4) :
    p.itemInts.length = 6 := by
  simp [Envpoint.itemInts, h]

theorem flatten_itemInts_length (xs : List Envpoint)
    (h : ∀ p ∈ xs, p.values.length = 4) :
    ((xs.map Envpoint.itemInts).flatten).length = 6 * xs.length := by
  induction xs with
  | nil => rfl
  | cons p rest ih =>
    simp only [List.map_cons, List.flatten_cons, List.length_append,
      itemInts_length (h p (by simp)), ih (fun q hq => h q (by simp [hq])),
      List.length_cons]
    ring

theorem envpointOfInfo_itemInts {p : Envpoint} (h : p.values.length = 4) :
    envpointOfInfo p.itemInts = p := by
  obtain ⟨t, c, vs⟩ := p
  simp only [Envpoint.itemInts] at *
  have hv : pySlice (t :: c :: vs) 2 6 = vs := by
    unfold pySlice pyBound
    rw [if_neg (by omega), if_neg (by omega)]
    have hlen : (t :: c :: vs).length = 6 := by simp at h ⊢; omega
    rw [hlen]
    norm_num
    rw [List.take_of_length_le (by omega)]
    rfl
  unfold envpointOfInfo
  simp [hv]

theorem envpointItemInts_record (ps : List Envpoint)
    (h : ∀ p ∈ ps, p.values.length = 4) (i : Nat) (hi : i < ps.length) :
    pySlice (envpointItemInts ps) ((2 + i * 6 : Nat) : Int)
      ((2 + (i * 6 + 6) : Nat) : Int) =
      (ps.get ⟨i, hi⟩).itemInts := by
  have hdecomp : ps = ps.take i ++ ps.get ⟨i, hi⟩ :: ps.drop (i + 1) := by
    conv_lhs => rw [← List.take_append_drop i ps]
    congr 1
    rw [List.drop_eq_get_cons hi]
  have hA : ((((6 : Nat) <<< 16 : Nat) : Int) :: ((ps.length : Int) * 6 * 4) ::
      ((ps.take i).map Envpoint.itemInts).flatten).length = 2 + i * 6 := by
    have := flatten_itemInts_length (ps.take i)
      (fun q hq => h q (List.mem_of_mem_take hq))
    simp only [List.length_cons, this, List.length_take]
    omega
  have hmemi : ps.get ⟨i, hi⟩ ∈ ps := List.get_mem ps i hi
  have hB : ((ps.get ⟨i, hi⟩).itemInts).length = 6 :=
    itemInts_length (h _ hmemi)
  have hflat : (ps.map Envpoint.itemInts).flatten =
      ((ps.take i).map Envpoint.itemInts).flatten ++
        ((ps.get ⟨i, hi⟩).itemInts ++
          ((ps.drop (i + 1)).map Envpoint.itemInts).flatten) := by
    calc (ps.map Envpoint.itemInts).flatten
        = (((ps.take i ++ ps.get ⟨i, hi⟩ :: ps.drop (i + 1)).map
            Envpoint.itemInts)).flatten := by rw [← hdecomp]
      _ = _ := by
          rw [List.map_append, List.map_cons, List.flatten_append,
            List.flatten_cons]
  have hsplit : envpointItemInts ps =
      ((((6 : Nat) <<< 16 : Nat) : Int) :: ((ps.length : Int) * 6 * 4) ::
        ((ps.take i).map Envpoint.itemInts).flatten) ++
      (ps.get ⟨i, hi⟩).itemInts ++
      ((ps.drop (i + 1)).map Envpoint.itemInts).flatten := by
    unfold envpointItemInts
    rw [hflat]
    simp [List.append_assoc]
  rw [hsplit]
  have hmid := pySlice_middle
    ((((6 : Nat) <<< 16 : Nat) : Int) :: ((ps.length : Int) * 6 * 4) ::
      ((ps.take i).map Envpoint.itemInts).flatten)
    ((ps.get ⟨i, hi⟩).itemInts)
    (((ps.drop (i + 1)).map Envpoint.itemInts).flatten)
  rw [hA, hB] at hmid
  have e2 : ((2 + i * 6 : Nat) : Int) + ((6 : Nat) : Int) =
      ((2 + (i * 6 + 6) : Nat) : Int) := by push_cast; ring
  rw [e2] at hmid
  exact hmid

theorem splitEnvpoints_envpointItemInts (ps : List Envpoint)
    (h : ∀ p ∈ ps, p.values.length = 4) :
    splitEnvpoints (envpointItemInts ps) = ps := by
  have hlen : (envpointItemInts ps).length = 2 + 6 * ps.length := by
    unfold envpointItemInts
    simp only [List.length_cons, flatten_itemInts_length ps h]
    omega
  unfold splitEnvpoints
  rw [hlen]
  have hn : (2 + 6 * ps.length - 2) / 6 = ps.length := by omega
  rw [hn]
  apply List.ext_get
  · rw [List.length_map, List.length_range]
  intro k h1 h2
  have hk : k < ps.length := h2
  rw [List.get_map]
  have hget : (List.range ps.length).get
      ⟨k, by rw [List.length_range]; exact hk⟩ = k :=
    List.get_range k (by rw [List.length_range]; exact hk)
  rw [hget, envpointItemInts_record ps h k hk,
    envpointOfInfo_itemInts (h _ (List.get_mem ps k hk))]

/-- C7: the two leading integers of the aggregate envpoint payload are the
id word and the byte size word; decoding skips exactly this 2 integer
prefix before cutting 6 integer records, and encoding writes the same
prefix back, so a payload written by save decodes to the same envpoints and
re-serializes to the identical integer sequence, prefix included. -/
theorem c7_envpoint_prefix_roundtrip (ps : List Envpoint)
    (h : ∀ p ∈ ps, p.values.length = 4) :
    splitEnvpoints (envpointItemInts ps) = ps ∧
    envpointItemInts (splitEnvpoints (envpointItemInts ps)) =
      envpointItemInts ps ∧
    (envpointItemInts ps).take 2 =
      [(((6 : Nat) <<< 16 : Nat) : Int), (ps.length : Int) * 6 * 4] := by
  have h1 := splitEnvpoints_envpointItemInts ps h
  exact ⟨h1, by rw [h1], rfl⟩

/-- Witness for C7 at a concrete two-point payload. -/
theorem c7_witness :
    splitEnvpoints (envpointItemInts
      [⟨0, 0, [1, 2, 3, 4]⟩, ⟨500, 1, [5, 6, 7, 8]⟩]) =
      [⟨0, 0, [1, 2, 3, 4]⟩, ⟨500, 1, [5, 6, 7, 8]⟩] :=
  (c7_envpoint_prefix_roundtrip
    [⟨0, 0, [1, 2, 3, 4]⟩, ⟨500, 1, [5, 6, 7, 8]⟩] (by decide)).1

/-- Modelled from the spec: the LAYER_TYPES table of constants.py (not in
src), reduced to the two layer kinds the codec distinguishes. -/
def LAYER_TYPES : List String := ["tile", "quad"]

/-- The LAYER_TYPES name of a layer, as looked up by Header.write and by the
layer decoding path. -/
def Layer.typeName (l : Layer) : String :=
  LAYER_TYPES.getD l.type.toNat ""

/-- Modelled from the spec: the fixed serialized size of a version item, two
id words plus one payload integer (items.py is not in src). -/
def versionItemSize : Int := 12

/-- Modelled from the spec: the fixed serialized size of an image item
(items.py is not in src): id word, size word and four payload integers. -/
def Image.size : Int := 24

/-- Modelled from the spec: the fixed serialized size of an envelope item
(items.py is not in src): id word, size word, four descriptor integers and
eight name integers. -/
def Envelope.size : Int := 56

/-- Modelled from the spec: the fixed serialized size of a group item
(items.py is not in src): id word, size word and eleven payload integers. -/
def Group.size : Int := 52

/-- Modelled from the spec: the fixed serialized size of a tile layer item
(items.py is not in src): id word, size word and seven payload integers. -/
def TileLayer.size : Int := 36

/-- Modelled from the spec: the fixed serialized size of a quad layer item
(items.py is not in src): id word, size word and three payload integers. -/
def QuadLayer.size : Int := 20

/-- The per-layer size term of Header.write (tml.py lines 83 to 88). -/
def layerSize (l : Layer) : Int :=
  if l.typeName = "tile" then TileLayer.size else QuadLayer.size

/-- The eight 32 bit fields of the map file header. -/
structure HeaderFields where
  version : Int
  size : Int
  swaplen : Int
  num_item_types : Int
  num_items : Int
  num_raw_data : Int
  item_size : Int
  data_size : Int
deriving DecidableEq, Repr

/-- Shallow embedding of Header.write (tml.py lines 63 to 115): every field
is recomputed from the current graph and the already compressed data blocks.
The first assignment to item size at line 74, a count of items, is dead code
superseded by the re-assignment at line 94 and is omitted here. -/
def headerWrite (teemap : Teemap) (compressed_data : List (List Nat)) :
    HeaderFields :=
  let data_size : Int := ((compressed_data.map List.length).sum : Nat)
  let layers_size : Int := (teemap.layers.map layerSize).sum
  let version_size : Int := 4 + 8
  let envelopes_size : Int := (teemap.envelopes.length : Int) * Envelope.size
  let groups_size : Int := (teemap.groups.length : Int) * Group.size
  let envpoints_size : Int := (teemap.envpoints.length : Int) * 24 + 8
  let images_size : Int := (teemap.images.length : Int) * Image.size
  let item_size : Int := version_size + groups_size + layers_size +
    envelopes_size + images_size + envpoints_size
  let num_items : Int := ((teemap.envelopes.length + teemap.groups.length +
    teemap.layers.length + teemap.images.length : Nat) : Int) + 2
  let num_item_types : Int := 2 +
    (if teemap.images ≠ [] then 1 else 0) +
    (if teemap.envelopes ≠ [] then 1 else 0) +
    (if teemap.groups ≠ [] then 1 else 0) +
    (if teemap.layers ≠ [] then 1 else 0)
  let num_raw_data : Int := (compressed_data.length : Int)
  let header_size : Int := 36
  let type_size : Int := num_item_types * 12
  let offset_size : Int := (num_items + 2 * num_raw_data) * 4
  let size : Int := header_size + type_size + offset_size + item_size +
    data_size - 16
  let swaplen : Int := size - data_size
  ⟨4, size, swaplen, num_item_types, num_items, num_raw_data, item_size,
    data_size⟩

/-- C2: the header written by save satisfies the documented arithmetic,
size equals 36 plus 12 times the item type count plus 4 times the item count
plus twice the raw data count, plus the item blob size and the data size,
minus 16; swaplen equals size minus the data size; and the fields are
recomputed from the current graph state: the item count is the current
number of envelopes, groups, layers and images plus two, the raw data count
and data size come from the current compressed blocks. -/
theorem c2_header_arithmetic (teemap : Teemap)
    (compressed_data : List (List Nat)) :
    (headerWrite teemap compressed_data).size =
      36 + 12 * (headerWrite teemap compressed_data).num_item_types +
      4 * ((headerWrite teemap compressed_data).num_items +
        2 * (headerWrite teemap compressed_data).num_raw_data) +
      (headerWrite teemap compressed_data).item_size +
      (headerWrite teemap compressed_data).data_size - 16 ∧
    (headerWrite teemap compressed_data).swaplen =
      (headerWrite teemap compressed_data).size -
      (headerWrite teemap compressed_data).data_size ∧
    (headerWrite teemap compressed_data).version = 4 ∧
    (headerWrite teemap compressed_data).num_items =
      ((teemap.envelopes.length + teemap.groups.length +
        teemap.layers.length + teemap.images.length : Nat) : Int) + 2 ∧
    (headerWrite teemap compressed_data).num_raw_data =
      (compressed_data.length : Int) ∧
    (headerWrite teemap compressed_data).data_size =
      (((compressed_data.map List.length).sum : Nat) : Int) := by
  refine ⟨?_, rfl, rfl, rfl, rfl, rfl⟩
  simp only [headerWrite]
  ring

/-- The four signature bytes DATA. -/
def dataSigBytes : List Nat := [68, 65, 84, 65]

/-- The four signature bytes ATAD, the reversed byte order form. -/
def atadSigBytes : List Nat := [65, 84, 65, 68]

/-- Shallow embedding of the file-reading branch of Header init (tml.py
lines 39 to 61): check the four signature bytes against both accepted byte
orders, unpack the eight header integers, reject a version other than 4,
and compute the derived whole-header size.  The result pairs the eight raw
fields with that derived size. -/
def readHeader (file : List Nat) : Except Err (HeaderFields × Int) :=
  if (file.take 4).length ≠ 4 then .error .structError
  else if file.take 4 ≠ dataSigBytes ∧ file.take 4 ≠ atadSigBytes then
    .error .invalidSignature
  else
    match decInts ((file.drop 4).take 32) with
    | [version, size_, swaplen, num_item_types, num_items, num_raw_data,
       item_size, data_size] =>
      if version ≠ 4 then .error .wrongVersion
      else
        .ok (⟨version, size_, swaplen, num_item_types, num_items,
          num_raw_data, item_size, data_size⟩,
          num_item_types * 12 + (num_items + num_raw_data) * 4 +
            num_raw_data * 4 + item_size + 36)
    | _ => .error .structError

/-- C4: reading a header fails with the signature error when the four
signature bytes match neither DATA nor ATAD, and fails with the version
error when the version field decoded from the stream is not 4.  These are
the two TypeError raises of Header init, the failures the design document
groups under FormatError. -/
theorem c4_header_validation :
    (∀ file : List Nat, 4 ≤ file.length →
      file.take 4 ≠ dataSigBytes → file.take 4 ≠ atadSigBytes →
      readHeader file = .error .invalidSignature) ∧
    (∀ (file : List Nat) (v a b c d e f g : Int),
      (file.take 4 = dataSigBytes ∨ file.take 4 = atadSigBytes) →
      decInts ((file.drop 4).take 32) = [v, a, b, c, d, e, f, g] →
      v ≠ 4 →
      readHeader file = .error .wrongVersion) := by
  constructor
  · intro file hlen h1 h2
    unfold readHeader
    rw [if_neg (by rw [List.length_take]; omega), if_pos ⟨h1, h2⟩]
  · intro file v a b c d e f g hsig hdec hv
    have hlen4 : 4 ≤ file.length := by
      rcases hsig with h | h <;>
        · have := congrArg List.length h
          rw [List.length_take] at this
          simp [dataSigBytes, atadSigBytes] at this
          omega
    unfold readHeader
    rw [if_neg (by rw [List.length_take]; omega)]
    rw [if_neg (by
      intro hcon
      rcases hsig with h | h
      · exact hcon.1 h
      · exact hcon.2 h)]
    rw [hdec]
    exact if_pos hv

/-- One step of the save-side type directory loop (tml.py lines 268 to 276):
emit one entry with the running start index when the kind has items, advance
the running count by the number of items. -/
def dirStep (i count : Int) (n : Nat) : List (Int × Int × Int) × Int :=
  if n ≠ 0 then ([(i, count, (n : Int))], count + n) else ([], count)

/-- Shallow embedding of the type directory computation of save (tml.py
lines 254 to 276), with the loop over ITEM_TYPES unrolled.  Modelled from
the spec where constants.py is missing: ITEM_TYPES is version, info, image,
envelope, group, layer, envpoint, so the canonical emission order is
version, image, envelope, group, layer, envpoint; info is skipped
explicitly, version and envpoint always contribute exactly one item. -/
def typeDirectory (T : Teemap) : List (Int × Int × Int) :=
  let s2 := dirStep 2 1 T.images.length
  let s3 := dirStep 3 s2.2 T.envelopes.length
  let s4 := dirStep 4 s3.2 T.groups.length
  let s5 := dirStep 5 s4.2 T.layers.length
  [((0 : Int), (0 : Int), (1 : Int))] ++ s2.1 ++ s3.1 ++ s4.1 ++ s5.1 ++
    [((6 : Int), s5.2, (1 : Int))]

/-- C8: the save-side item type directory holds one entry per item kind that
has at least one item (the version and envpoint aggregate items always
exist; image, envelope, group and layer entries appear exactly when their
lists are nonempty), the entries appear in the fixed canonical kind order,
and every entry carries a freshly computed start index, the number of items
of earlier present kinds, and a freshly computed count taken from the
current graph. -/
theorem c8_type_directory (T : Teemap) :
    ((typeDirectory T).map (fun e => e.1) =
      [0] ++ (if T.images = [] then [] else [2]) ++
        (if T.envelopes = [] then [] else [3]) ++
        (if T.groups = [] then [] else [4]) ++
        (if T.layers = [] then [] else [5]) ++ [6]) ∧
    (∀ t s n : Int, (t, s, n) ∈ typeDirectory T ↔
      (t = 0 ∧ s = 0 ∧ n = 1) ∨
      (t = 2 ∧ T.images ≠ [] ∧ s = 1 ∧ n = (T.images.length : Int)) ∨
      (t = 3 ∧ T.envelopes ≠ [] ∧ s = 1 + (T.images.length : Int) ∧
        n = (T.envelopes.length : Int)) ∨
      (t = 4 ∧ T.groups ≠ [] ∧
        s = 1 + (T.images.length : Int) + (T.envelopes.length : Int) ∧
        n = (T.groups.length : Int)) ∨
      (t = 5 ∧ T.layers ≠ [] ∧
        s = 1 + (T.images.length : Int) + (T.envelopes.length : Int) +
          (T.groups.length : Int) ∧
        n = (T.layers.length : Int)) ∨
      (t = 6 ∧
        s = 1 + (T.images.length : Int) + (T.envelopes.length : Int) +
          (T.groups.length : Int) + (T.layers.length : Int) ∧
        n = 1)) := by
  constructor
  · by_cases h2 : T.images = [] <;> by_cases h3 : T.envelopes = [] <;>
      by_cases h4 : T.groups = [] <;> by_cases h5 : T.layers = [] <;>
      simp [typeDirectory, dirStep, h2, h3, h4, h5, List.length_eq_zero]
  · intro t s n
    by_cases h2 : T.images = [] <;> by_cases h3 : T.envelopes = [] <;>
      by_cases h4 : T.groups = [] <;> by_cases h5 : T.layers = [] <;>
      simp [typeDirectory, dirStep, h2, h3, h4, h5, List.length_eq_zero]

/-- Modelled from the spec: ITEM_TYPES of constants.py (not in src): the
seven item kind names in type id order; envpoint stands last, which the
save-side offset loop relies on when it does not advance past the envpoint
item. -/
def ITEM_TYPES : List String :=
  ["version", "info", "image", "envelope", "group", "layer", "envpoint"]

/-- The packed id word of an item, the ITEM_TYPES index shifted left by 16
or-ed with the local id (the save loop pattern at tml.py lines 300, 308,
320, 325). -/
def mkId (t k : Nat) : Int := (((t <<< 16) ||| k : Nat) : Int)

/-- Modelled from the spec: zlib deflate is an external collaborator; it is
modelled as an injective byte-level wrapper, a marker byte followed by the
payload, so compressed blocks are never empty and decompression inverts
compression exactly.  Only these properties of zlib matter to the codec
bookkeeping. -/
def compress (d : List Nat) : List Nat := 120 :: d

/-- Modelled from the spec: the inverse of compress; a block without the
marker byte fails to decompress. -/
def decompress : List Nat → Except Err (List Nat)
  | 120 :: d => .ok d
  | _ => .error .zlibError

/-- Modelled from the spec: the itemdata of an image with the raw data index
just assigned (items.py is not in src); the first integer is the payload
byte size word. -/
def Image.itemdata (im : Image) (dataIdx : Int) : List Int :=
  [16, im.width, im.height, im.external, dataIdx]

/-- Modelled from the spec: get_data of an image (items.py is not in src):
an embedded image contributes its pixel blob at the next raw data index; an
external image contributes no block and the index -1. -/
def Image.get_data (im : Image) (nextIdx : Nat) : List (List Nat) × Int :=
  match im.imagedata with
  | some blob => ([blob], (nextIdx : Int))
  | none => ([], -1)

/-- Modelled from the spec: the itemdata of an envelope without its name
(items.py is not in src); the size word counts the name integers appended
separately by save. -/
def Envelope.itemdata (e : Envelope) : List Int :=
  [48, e.channels, e.start_point, e.num_points, e.synced]

/-- Modelled from the spec: the packed-integer name of an envelope; the name
is already kept in packed form here. -/
def Envelope.string_to_ints (e : Envelope) : List Int := e.name

/-- Modelled from the spec: the itemdata of a group with the freshly
recomputed start layer (items.py is not in src); the num layers field is
taken from the group descriptor as stored. -/
def Group.itemdata (g : Group) (startLayer : Int) : List Int :=
  [44, g.offset_x, g.offset_y, g.parallax_x, g.parallax_y, startLayer,
   g.num_layers, g.use_clipping, g.clip_x, g.clip_y, g.clip_w, g.clip_h]

/-- Modelled from the spec: the itemdata of a tile layer with the raw data
index just assigned (items.py is not in src); the second integer is the
layer type discriminant. -/
def TileLayer.itemdata (t : TileLayer) (dataIdx : Int) : List Int :=
  [28, 0, t.width, t.height, t.game, t.color, t.image, dataIdx]

/-- Modelled from the spec: the itemdata of a quad layer with the raw data
index just assigned (items.py is not in src). -/
def QuadLayer.itemdata (q : QuadLayer) (dataIdx : Int) : List Int :=
  [12, 1, q.image, dataIdx]

/-- The itemdata of either layer kind at a given raw data index. -/
def Layer.itemdataAt : Layer → Int → List Int
  | .tile t, d => t.itemdata d
  | .quad q, d => q.itemdata d

/-- The packed raw data of a layer (tml.py lines 326 to 333): a tile layer
packs its tiles with format B, one byte each, failing on a value above 255;
a quad layer packs its quad integers with format i. -/
def Layer.packedData : Layer → Except Err (List Nat)
  | .tile t =>
    if t.tiles.all (fun b => decide (b < 256)) then .ok t.tiles
    else .error .structError
  | .quad q => packInts q.quads

/-- The image portion of the save item loop (tml.py lines 298 to 305): per
image the id word and itemdata, with the blobs of get_data appended to the
running data list. -/
def saveImages : Nat → List (List Nat) → List Image →
    List Int × List (List Nat) × List String
  | _, datas, [] => ([], datas, [])
  | id_, datas, im :: rest =>
    let gd := im.get_data datas.length
    let r := saveImages (id_ + 1) (datas ++ gd.1) rest
    (mkId 2 id_ :: im.itemdata gd.2 ++ r.1, r.2.1, "image" :: r.2.2)

/-- The envelope portion of the save item loop (tml.py lines 306 to 313):
per envelope the id word, the itemdata and the packed name integers. -/
def saveEnvelopes : Nat → List Envelope → List Int × List String
  | _, [] => ([], [])
  | id_, e :: rest =>
    let r := saveEnvelopes (id_ + 1) rest
    (mkId 3 id_ :: (e.itemdata ++ e.string_to_ints) ++ r.1,
      "envelope" :: r.2)

/-- The group portion of the save item loop (tml.py lines 314 to 322): per
group the id word and itemdata, with the start layer freshly recomputed
from the running layer count. -/
def saveGroups : Nat → Int → List Group → List Int × List String
  | _, _, [] => ([], [])
  | id_, num_layers, g :: rest =>
    let r := saveGroups (id_ + 1) (num_layers + g.layers.length) rest
    (mkId 4 id_ :: g.itemdata num_layers ++ r.1, "group" :: r.2)

/-- The layer portion of the save item loop (tml.py lines 323 to 333): per
layer the id word and itemdata with the next raw data index, the packed
layer data appended to the running data list, and the type name recorded
for the offset table. -/
def saveLayers : Nat → List (List Nat) → List Layer →
    Except Err (List Int × List (List Nat) × List String)
  | _, datas, [] => .ok ([], datas, [])
  | id_, datas, l :: rest => do
    let pd ← l.packedData
    let r ← saveLayers (id_ + 1) (datas ++ [pd]) rest
    .ok (mkId 5 id_ :: l.itemdataAt (datas.length : Int) ++ r.1, r.2.1,
      (l.typeName ++ "_layer") :: r.2.2)

/-- The item construction loop of save (tml.py lines 278 to 336), the loop
over ITEM_TYPES unrolled in its order: version, info (nothing), image,
envelope, group, layer, and the envpoint aggregate last.  Returns the flat
itemdata integers, the uncompressed data blocks, and the per-item type
names. -/
def saveItems (T : Teemap) :
    Except Err (List Int × List (List Nat) × List String) := do
  let imgs := saveImages 0 [] T.images
  let envs := saveEnvelopes 0 T.envelopes
  let grps := saveGroups 0 0 T.groups
  let lyrs ← saveLayers 0 imgs.2.1 T.layers
  .ok ([0, 4, 1] ++ imgs.1 ++ envs.1 ++ grps.1 ++ lyrs.1 ++
      envpointItemInts T.envpoints,
    lyrs.2.1,
    "version" :: (imgs.2.2 ++ envs.2 ++ grps.2 ++ lyrs.2.2 ++ ["envpoint"]))

/-- The per-item offset advance of the save offset loop (tml.py lines 348
to 357): nothing after the envpoint item, the layer sizes by kind, and the
fixed class size for the rest (modelled from the spec for the class size
lookup, items.py is not in src; only the listed names ever occur). -/
def offsetAdvance (t : String) : Int :=
  if t = "envpoint" then 0
  else if t = "tile_layer" then TileLayer.size
  else if t = "quad_layer" then QuadLayer.size
  else if t = "version" then versionItemSize
  else if t = "image" then Image.size
  else if t = "envelope" then Envelope.size
  else if t = "group" then Group.size
  else 0

/-- The item offset table of save (tml.py lines 346 to 359): the running
offset before each item. -/
def itemOffsetsAux (cur : Int) : List String → List Int
  | [] => []
  | t :: rest => cur :: itemOffsetsAux (cur + offsetAdvance t) rest

/-- The raw data offset table of save (tml.py lines 361 to 365): the running
offset before each compressed block. -/
def dataOffsetsAux (cur : Int) : List (List Nat) → List Int
  | [] => []
  | d :: rest => cur :: dataOffsetsAux (cur + (d.length : Int)) rest

/-- Pack the itemdata integers as save does at line 373: each value through
int32, then through struct.pack with format i. -/
def packItemInts : List Int → Except Err (List Nat)
  | [] => .ok []
  | v :: rest => do
    let w ← int32 v
    let b ← packI32 w
    let r ← packItemInts rest
    .ok (b ++ r)

/-- Shallow embedding of Teemap.save (tml.py lines 246 to 379): build the
items and data blocks, compress the data, write the header computed from
the current graph, the type directory, the item offsets, the data offsets,
the uncompressed sizes, the itemdata and finally the compressed blocks. -/
def saveBytes (T : Teemap) : Except Err (List Nat) := do
  let items ← saveItems T
  let cds := items.2.1.map compress
  let hf := headerWrite T cds
  let headerB ← packInts [4, hf.size, hf.swaplen, hf.num_item_types,
    hf.num_items, hf.num_raw_data, hf.item_size, hf.data_size]
  let dirB ← packInts ((typeDirectory T).flatMap
    (fun e => [e.1, e.2.1, e.2.2]))
  let offB ← packInts (itemOffsetsAux 0 items.2.2)
  let dataOffB ← packInts (dataOffsetsAux 0 cds)
  let uncompB ← packInts (items.2.1.map (fun d => (d.length : Int)))
  let itemB ← packItemInts items.1
  .ok (dataSigBytes ++ headerB ++ dirB ++ offB ++ dataOffB ++ uncompB ++
    itemB ++ cds.flatten)

/-- A decoded on-disk item: the type name the directory gave it and its
whole integer payload including the two leading id and size words.
Modelled from the spec: items.py Item keeps the type name and unpacks the
byte slice into integers, dropping a ragged tail shorter than one integer. -/
structure RawItem where
  itemtype : String
  info : List Int
deriving DecidableEq, Repr

/-- Modelled from the spec: items.Item construction and load (items.py is
not in src): the type id from the directory is looked up in ITEM_TYPES with
Python indexing and the byte slice is unpacked into integers. -/
def itemLoad (t : Int) (chunk : List Nat) : Except Err RawItem := do
  let tn ← pyGet ITEM_TYPES t
  .ok ⟨tn, decInts chunk⟩

/-- Modelled from the spec: the Image constructor from a decoded item
(items.py is not in src): dimensions and external flag from the payload; an
embedded image pulls its blob out of the raw data store by index and
decompresses it, failing with the reference error when the index is out of
range. -/
def imageOf (info : List Int) (cds : List (List Nat)) : Except Err Image := do
  let w ← pyGet info 2
  let h ← pyGet info 3
  let ext ← pyGet info 4
  let dIdx ← pyGet info 5
  if ext = 0 then
    if hx : 0 ≤ dIdx ∧ dIdx < cds.length then do
      let blob ← decompress (cds.get ⟨dIdx.toNat, by omega⟩)
      .ok ⟨w, h, ext, some blob⟩
    else .error .refError
  else
    .ok ⟨w, h, ext, none⟩

/-- Modelled from the spec: the Envelope constructor from a decoded item
(items.py is not in src): the four descriptor integers, then the eight name
integers. -/
def envelopeOf (info : List Int) : Except Err Envelope := do
  let ch ← pyGet info 2
  let sp ← pyGet info 3
  let np ← pyGet info 4
  let sy ← pyGet info 5
  .ok ⟨ch, sp, np, sy, (info.drop 6).take 8⟩

/-- Modelled from the spec: the Group constructor from a decoded item
(items.py is not in src): the eleven descriptor integers; the owned layer
list starts empty and is filled by the assignment step. -/
def groupOf (info : List Int) : Except Err Group := do
  let ox ← pyGet info 2
  let oy ← pyGet info 3
  let px ← pyGet info 4
  let py ← pyGet info 5
  let sl ← pyGet info 6
  let nl ← pyGet info 7
  let uc ← pyGet info 8
  let cx ← pyGet info 9
  let cy ← pyGet info 10
  let cw ← pyGet info 11
  let ch2 ← pyGet info 12
  .ok ⟨ox, oy, px, py, sl, nl, uc, cx, cy, cw, ch2, []⟩

/-- Modelled from the spec: the TileLayer constructor from a decoded item
(items.py is not in src): the descriptor integers, the image reference
checked against the image list when nonnegative, and the tile blob pulled
from the raw data store and decompressed. -/
def tileLayerOf (info : List Int) (cds : List (List Nat))
    (images : List Image) : Except Err TileLayer := do
  let w ← pyGet info 3
  let h ← pyGet info 4
  let game ← pyGet info 5
  let color ← pyGet info 6
  let img ← pyGet info 7
  let dIdx ← pyGet info 8
  if 0 ≤ img ∧ ¬ (img < images.length) then .error .refError
  else
    if hx : 0 ≤ dIdx ∧ dIdx < cds.length then do
      let tiles ← decompress (cds.get ⟨dIdx.toNat, by omega⟩)
      .ok ⟨w, h, game, color, img, tiles⟩
    else .error .refError

/-- Modelled from the spec: the QuadLayer constructor from a decoded item
(items.py is not in src): the image reference checked against the image
list when nonnegative, and the quad blob pulled from the raw data store,
decompressed and unpacked into integers. -/
def quadLayerOf (info : List Int) (cds : List (List Nat))
    (images : List Image) : Except Err QuadLayer := do
  let img ← pyGet info 3
  let dIdx ← pyGet info 4
  if 0 ≤ img ∧ ¬ (img < images.length) then .error .refError
  else
    if hx : 0 ≤ dIdx ∧ dIdx < cds.length then do
      let qbytes ← decompress (cds.get ⟨dIdx.toNat, by omega⟩)
      .ok ⟨img, decInts qbytes⟩
    else .error .refError

/-- The layer branch of the item ordering phase of load (tml.py lines 230
to 235): read the layer type discriminant, look it up in LAYER_TYPES with
Python indexing, and decode through the matching layer class; an unknown
class name would fail the attribute lookup. -/
def layerOf (info : List Int) (cds : List (List Nat))
    (images : List Image) : Except Err Layer := do
  let t ← pyGet info 2
  let tn ← pyGet LAYER_TYPES t
  if tn = "tile" then do
    let tl ← tileLayerOf info cds images
    .ok (.tile tl)
  else if tn = "quad" then do
    let ql ← quadLayerOf info cds images
    .ok (.quad ql)
  else .error .attrError

/-- Shallow embedding of the compressed data slicing loop of load (tml.py
lines 186 to 191): walk the data offsets with the blob size as sentinel,
read one block per positive offset measured against the last offset, which
starts uninitialized (reading it first is the Python NameError); a Python
file read of a negative count returns the rest of the stream. -/
def sliceData (file : List Nat) : Nat → Option Int → List Int →
    Except Err (List (List Nat) × Option Int)
  | _, last, [] => .ok ([], last)
  | pos, last, o :: rest =>
    if 0 < o then
      match last with
      | none => .error .nameError
      | some l => do
        let r ← sliceData file
          (if o - l < 0 then file.length else pos + (o - l).toNat)
          (some o) rest
        .ok ((if o - l < 0 then file.drop pos
          else (file.drop pos).take (o - l).toNat) :: r.1, r.2)
    else
      sliceData file pos (some o) rest

/-- The item size derivation of load with the last offset threaded as the
possibly uninitialized Python variable (tml.py lines 193 to 199); with the
variable already set this is exactly sizesFrom. -/
def sizesFromOpt : Option Int → List Int → Except Err (List Int)
  | _, [] => .ok []
  | none, o :: rest =>
    if 0 < o then .error .nameError else sizesFromOpt (some o) rest
  | some l, o :: rest =>
    if 0 < o then do
      let r ← sizesFromOpt (some o) rest
      .ok ((o - l) :: r)
    else sizesFromOpt (some o) rest

theorem sizesFromOpt_some (l : Int) (offs : List Int) :
    sizesFromOpt (some l) offs = .ok (sizesFrom l offs) := by
  induction offs generalizing l with
  | nil => rfl
  | cons o rest ih =>
    by_cases ho : 0 < o
    · simp only [sizesFromOpt, sizesFrom, ho, if_true, ih o]
      rfl
    · simp [sizesFromOpt, sizesFrom, ho, ih o]

/-- The type directory entries read by load (tml.py lines 167 to 174), three
integers each. -/
def readTriples : List Int → List (Int × Int × Int)
  | a :: b :: c :: rest => (a, b, c) :: readTriples rest
  | _ => []

/-- One directory run of the item reading loop of load (tml.py lines 201 to
208): for each index of the run, fetch that item's size with Python
indexing, read that many bytes (a negative size reads the rest of the
file), and decode the item. -/
def readRun (file : List Nat) (t start : Int) (sizes : List Int) :
    Nat → List Nat → Except Err (List RawItem × Nat)
  | pos, [] => .ok ([], pos)
  | pos, i :: is => do
    let sz ← pyGet sizes (start + (i : Int))
    let item ← itemLoad t (if sz < 0 then file.drop pos
      else (file.drop pos).take sz.toNat)
    let r ← readRun file t start sizes
      (if sz < 0 then file.length else pos + sz.toNat) is
    .ok (item :: r.1, r.2)

/-- The full item reading loop of load: one run per directory entry, reading
sequentially from the item start offset; the final file position is
returned along with the items. -/
def readItems (file : List Nat) (sizes : List Int) :
    Nat → List (Int × Int × Int) → Except Err (List RawItem × Nat)
  | pos, [] => .ok ([], pos)
  | pos, (t, start, num) :: rest => do
    let r ← readRun file t start sizes pos (List.range num.toNat)
    let r2 ← readItems file sizes r.2 rest
    .ok (r.1 ++ r2.1, r2.2)

/-- The items of one type name, in list order (the filtering of the item
ordering phase, tml.py lines 210 to 219). -/
def rawOfType (its : List RawItem) (tn : String) : List RawItem :=
  its.filter (fun it => it.itemtype == tn)

/-- Shallow embedding of Teemap.load (tml.py lines 156 to 244) at the byte
level: read and validate the header, read the type directory and both
offset tables, slice the compressed data blocks, derive the item sizes from
the item offsets with the carried-over last offset, read and decode the
items run by run as the directory dictates, rebuild the per-kind lists in
item order, split the envpoint aggregate, decode the layers, and assign
layers to groups by slicing.  The version and info lists the source also
rebuilds carry no payload and are dropped here. -/
def loadBytes (file : List Nat) : Except Err Teemap := do
  let hd ← readHeader file
  let hf := hd.1
  let headerSize := hd.2
  if hf.num_item_types < 0 then throw .structError
  let typesB := (file.drop 36).take (12 * hf.num_item_types.toNat)
  if typesB.length ≠ 12 * hf.num_item_types.toNat then throw .structError
  let item_types := readTriples (decInts typesB)
  let p1 := 36 + 12 * hf.num_item_types.toNat
  if hf.num_items < 0 then throw .structError
  let offB := (file.drop p1).take (4 * hf.num_items.toNat)
  if offB.length ≠ 4 * hf.num_items.toNat then throw .structError
  let item_offsets := decInts offB
  let p2 := p1 + 4 * hf.num_items.toNat
  if hf.num_raw_data < 0 then throw .structError
  let dofB := (file.drop p2).take (4 * hf.num_raw_data.toNat)
  if dofB.length ≠ 4 * hf.num_raw_data.toNat then throw .structError
  let data_offsets := decInts dofB
  if headerSize < 0 then throw .seekError
  let sd ← sliceData file headerSize.toNat none (data_offsets ++ [hf.data_size])
  let cds := sd.1
  let sizes ← sizesFromOpt sd.2 (item_offsets ++ [hf.item_size])
  if headerSize - hf.item_size < 0 then throw .seekError
  let itemsRead ← readItems file sizes (headerSize - hf.item_size).toNat
    item_types
  let itemlist := itemsRead.1
  let images ← (rawOfType itemlist "image").mapM
    (fun it => imageOf it.info cds)
  let envelopes ← (rawOfType itemlist "envelope").mapM
    (fun it => envelopeOf it.info)
  let groups ← (rawOfType itemlist "group").mapM
    (fun it => groupOf it.info)
  let envpoints := ((rawOfType itemlist "envpoint").map
    (fun it => splitEnvpoints it.info)).flatten
  let layers ← (rawOfType itemlist "layer").mapM
    (fun it => layerOf it.info cds images)
  .ok ⟨images, envelopes, assignLayers groups layers, envpoints⟩

/-- Witness for C4: a file of four zero bytes is rejected for its signature,
and a DATA file with version 5 is rejected for its version. -/
theorem c4_witness :
    readHeader [0, 0, 0, 0] = .error .invalidSignature ∧
    readHeader ([68, 65, 84, 65] ++ encInts [5, 0, 0, 0, 0, 0, 0, 0]) =
      .error .wrongVersion := by
  constructor
  · exact c4_header_validation.1 [0, 0, 0, 0] (by decide) (by decide) (by decide)
  · exact c4_header_validation.2
      ([68, 65, 84, 65] ++ encInts [5, 0, 0, 0, 0, 0, 0, 0])
      5 0 0 0 0 0 0 0 (by decide) (by decide) (by decide)

/-- All integers of a list fit the signed 32 bit range. -/
def intsOk (xs : List Int) : Bool := xs.all intOk

/-- A valid image: fields in range, the external flag agreeing with the
presence of the embedded blob, and the blob bounded. -/
def imageOk (im : Image) : Bool :=
  intOk im.width && intOk im.height && intOk im.external &&
  (match im.imagedata with
   | some blob => decide (im.external = 0) && decide (blob.length ≤ 10000)
   | none => decide (im.external ≠ 0))

/-- A valid envelope: fields in range and the packed name of exactly eight
in-range integers. -/
def envelopeOk (e : Envelope) : Bool :=
  intOk e.channels && intOk e.start_point && intOk e.num_points &&
  intOk e.synced && decide (e.name.length = 8) && intsOk e.name

/-- A valid envpoint: fields in range and exactly four in-range values. -/
def envpointOk (p : Envpoint) : Bool :=
  intOk p.time && intOk p.curvetype && decide (p.values.length = 4) &&
  intsOk p.values

/-- A valid layer given the image count: fields in range, a nonnegative
image reference inside the image list, and bounded byte-clean data. -/
def layerOk (nimg : Nat) : Layer → Bool
  | .tile t =>
    intOk t.width && intOk t.height && intOk t.game && intOk t.color &&
    intOk t.image && decide (0 ≤ t.image → t.image < nimg) &&
    t.tiles.all (fun b => decide (b < 256)) && decide (t.tiles.length ≤ 10000)
  | .quad q =>
    intOk q.image && decide (0 ≤ q.image → q.image < nimg) &&
    intsOk q.quads && decide (q.quads.length ≤ 10000)

/-- A valid group descriptor: fields in range and the stored num layers
agreeing with the owned layer list. -/
def groupOk (g : Group) : Bool :=
  intOk g.offset_x && intOk g.offset_y && intOk g.parallax_x &&
  intOk g.parallax_y && intOk g.start_layer && intOk g.num_layers &&
  intOk g.use_clipping && intOk g.clip_x && intOk g.clip_y &&
  intOk g.clip_w && intOk g.clip_h &&
  decide (g.num_layers = (g.layers.length : Int))

/-- The stored start layer of every group equals its position in the
flattened layer sequence. -/
def startsCanonical : Int → List Group → Bool
  | _, [] => true
  | acc, g :: rest =>
    decide (g.start_layer = acc) &&
      startsCanonical (acc + (g.layers.length : Int)) rest

/-- A valid map: bounded counts, valid members, and canonical group layer
ranges.  This is the class of graphs the round-trip property quantifies
over: programmatically built maps with bounded image, layer and envelope
counts whose descriptors are in the 32 bit range and whose layer ranges are
consistent, which save itself enforces by recomputing them. -/
def validMap (T : Teemap) : Bool :=
  decide (T.images.length ≤ 10000) && decide (T.envelopes.length ≤ 10000) &&
  decide (T.groups.length ≤ 10000) && decide (T.layers.length ≤ 10000) &&
  decide (T.envpoints.length ≤ 10000) &&
  T.images.all imageOk && T.envelopes.all envelopeOk &&
  T.groups.all groupOk && T.envpoints.all envpointOk &&
  T.layers.all (layerOk T.images.length) &&
  startsCanonical 0 T.groups

/-- The embedded blobs of an image list, in order. -/
def imgBlobs (imgs : List Image) : List (List Nat) :=
  imgs.flatMap (fun im => im.imagedata.toList)

/-- The packed data block of a layer, for a valid layer the value inside
Layer.packedData. -/
def layerData : Layer → List Nat
  | .tile t => t.tiles
  | .quad q => encInts q.quads

/-- The data blocks of a layer list, one per layer, in order. -/
def lyrBlobs (ls : List Layer) : List (List Nat) :=
  ls.map layerData

/-- The item integer entries of the image section, one list per image,
starting at local id k with base embedded blobs already emitted. -/
def imgEnts : Nat → Nat → List Image → List (List Int)
  | _, _, [] => []
  | k, base, im :: rest =>
    (mkId 2 k :: im.itemdata (im.get_data base).2) ::
      imgEnts (k + 1) (base + (im.get_data base).1.length) rest

/-- The item integer entries of the envelope section. -/
def envEnts : Nat → List Envelope → List (List Int)
  | _, [] => []
  | k, e :: rest =>
    (mkId 3 k :: (e.itemdata ++ e.string_to_ints)) :: envEnts (k + 1) rest

/-- The item integer entries of the group section, with the running layer
count recomputed as save does. -/
def grpEnts : Nat → Int → List Group → List (List Int)
  | _, _, [] => []
  | k, nl, g :: rest =>
    (mkId 4 k :: g.itemdata nl) ::
      grpEnts (k + 1) (nl + (g.layers.length : Int)) rest

/-- The item integer entries of the layer section, with the running raw
data index. -/
def lyrEnts : Nat → Nat → List Layer → List (List Int)
  | _, _, [] => []
  | k, base, l :: rest =>
    (mkId 5 k :: l.itemdataAt (base : Int)) :: lyrEnts (k + 1) (base + 1) rest

/-- All item integer entries of a map, in blob order. -/
def entsOf (T : Teemap) : List (List Int) :=
  [[0, 4, 1]] ++ imgEnts 0 0 T.images ++ envEnts 0 T.envelopes ++
    grpEnts 0 0 T.groups ++ lyrEnts 0 (imgBlobs T.images).length T.layers ++
    [envpointItemInts T.envpoints]

/-- All uncompressed data blocks of a map, in emission order: image blobs
first, then one block per layer. -/
def datasOf (T : Teemap) : List (List Nat) :=
  imgBlobs T.images ++ lyrBlobs T.layers

/-- The per-item type name list of a map, as save records it for the offset
table. -/
def typeNamesOf (T : Teemap) : List String :=
  "version" :: (List.replicate T.images.length "image" ++
    List.replicate T.envelopes.length "envelope" ++
    List.replicate T.groups.length "group" ++
    T.layers.map (fun l => l.typeName ++ "_layer") ++ ["envpoint"])

theorem saveImages_spec (imgs : List Image) :
    ∀ (k : Nat) (d0 : List (List Nat)),
    saveImages k d0 imgs = ((imgEnts k d0.length imgs).flatten,
      d0 ++ imgBlobs imgs, List.replicate imgs.length "image") := by
  induction imgs with
  | nil => intro k d0; simp [saveImages, imgEnts, imgBlobs]
  | cons im rest ih =>
    intro k d0
    have hgd : (im.get_data d0.length).1 = im.imagedata.toList := by
      unfold Image.get_data
      match im.imagedata with
      | some blob => rfl
      | none => rfl
    simp [saveImages, imgEnts, ih (k + 1) (d0 ++ im.imagedata.toList),
      hgd, imgBlobs, List.append_assoc, List.replicate_succ]

theorem saveEnvelopes_spec (envs : List Envelope) :
    ∀ k : Nat, saveEnvelopes k envs = ((envEnts k envs).flatten,
      List.replicate envs.length "envelope") := by
  induction envs with
  | nil => intro k; simp [saveEnvelopes, envEnts]
  | cons e rest ih =>
    intro k
    simp [saveEnvelopes, envEnts, ih (k + 1), List.replicate_succ]

theorem saveGroups_spec (gs : List Group) :
    ∀ (k : Nat) (nl : Int), saveGroups k nl gs = ((grpEnts k nl gs).flatten,
      List.replicate gs.length "group") := by
  induction gs with
  | nil => intro k nl; simp [saveGroups, grpEnts]
  | cons g rest ih =>
    intro k nl
    simp [saveGroups, grpEnts, ih (k + 1), List.replicate_succ]

theorem layer_packedData_of_ok {nimg : Nat} {l : Layer}
    (h : layerOk nimg l = true) : l.packedData = .ok (layerData l) := by
  cases l with
  | tile t =>
    simp only [layerOk, Bool.and_eq_true] at h
    simp [Layer.packedData, layerData, h.1.2]
  | quad q =>
    simp only [layerOk, Bool.and_eq_true] at h
    have : ∀ x ∈ q.quads, intOk x = true := by
      have := h.1.2
      simp only [intsOk, List.all_eq_true] at this
      exact this
    simp [Layer.packedData, layerData, packInts_of_all this]

theorem saveLayers_spec {nimg : Nat} (ls : List Layer)
    (hok : ∀ l ∈ ls, layerOk nimg l = true) :
    ∀ (k : Nat) (d0 : List (List Nat)),
    saveLayers k d0 ls = .ok ((lyrEnts k d0.length ls).flatten,
      d0 ++ lyrBlobs ls, ls.map (fun l => l.typeName ++ "_layer")) := by
  induction ls with
  | nil => intro k d0; simp [saveLayers, lyrEnts, lyrBlobs]
  | cons l rest ih =>
    intro k d0
    rw [saveLayers, layer_packedData_of_ok (hok l (by simp))]
    simp only [ok_bind]
    rw [ih (fun x hx => hok x (by simp [hx])) (k + 1) (d0 ++ [layerData l])]
    simp only [ok_bind]
    simp [lyrEnts, lyrBlobs, List.append_assoc]

theorem saveItems_spec {T : Teemap} (h : validMap T = true) :
    saveItems T = .ok ((entsOf T).flatten, datasOf T, typeNamesOf T) := by
  have hlyr : ∀ l ∈ T.layers, layerOk T.images.length l = true := by
    simp only [validMap, Bool.and_eq_true, List.all_eq_true] at h
    exact h.1.2
  simp only [saveItems, saveImages_spec, saveEnvelopes_spec, saveGroups_spec,
    saveLayers_spec T.layers hlyr, List.length_nil, List.nil_append, ok_bind]
  simp [entsOf, datasOf, typeNamesOf, List.flatten_append, List.append_assoc]

/-- Cumulative offsets after a starting point: the k-th element is the start
plus the first k+1 sizes.  The last element is the sum of all sizes, which
is exactly the sentinel the load loops append to the offset tables. -/
def cumFrom (c : Int) : List Int → List Int
  | [] => []
  | l :: rest => (c + l) :: cumFrom (c + l) rest

theorem sizesFrom_cumFrom (lens : List Int) :
    ∀ c : Int, (∀ l ∈ lens, 0 < l) → 0 ≤ c →
    sizesFrom c (cumFrom c lens) = lens := by
  induction lens with
  | nil => intro c _ _; rfl
  | cons l rest ih =>
    intro c hpos hc
    have hl : 0 < l := hpos l (by simp)
    rw [cumFrom, sizesFrom, if_pos (by omega)]
    rw [ih (c + l) (fun x hx => hpos x (by simp [hx])) (by omega)]
    congr 1
    omega

theorem cumFrom_bounds (lens : List Int) :
    ∀ c : Int, (∀ l ∈ lens, 0 ≤ l) →
    ∀ x ∈ cumFrom c lens, c ≤ x ∧ x ≤ c + lens.sum := by
  induction lens with
  | nil => intro c _ x hx; simp [cumFrom] at hx
  | cons l rest ih =>
    intro c hpos x hx
    have hl : 0 ≤ l := hpos l (by simp)
    have hsum : 0 ≤ rest.sum := by
      have : ∀ y ∈ rest, 0 ≤ y := fun y hy => hpos y (by simp [hy])
      exact List.sum_nonneg this
    rw [cumFrom] at hx
    rcases List.mem_cons.mp hx with h1 | h2
    · subst h1
      constructor
      · omega
      · simp only [List.sum_cons]
        omega
    · have := ih (c + l) (fun y hy => hpos y (by simp [hy])) x h2
      constructor
      · omega
      · simp only [List.sum_cons]
        omega

theorem itemOffsetsAux_cum (prs : List (String × Int)) :
    ∀ c : Int, (∀ p ∈ prs.dropLast, offsetAdvance p.1 = p.2) →
    itemOffsetsAux c (prs.map Prod.fst) ++ [c + (prs.map Prod.snd).sum] =
      c :: cumFrom c (prs.map Prod.snd) := by
  induction prs with
  | nil => intro c _; simp [itemOffsetsAux, cumFrom]
  | cons p rest ih =>
    intro c hadv
    cases rest with
    | nil =>
      simp [itemOffsetsAux, cumFrom]
    | cons q rest2 =>
      have hp : offsetAdvance p.1 = p.2 := by
        apply hadv
        rw [List.dropLast_cons_of_ne_nil (by simp)]
        simp
      have hih := ih (c + p.2) (fun x hx => by
        apply hadv
        rw [List.dropLast_cons_of_ne_nil (by simp)]
        simp [hx])
      simp only [List.map_cons, List.sum_cons] at hih ⊢
      rw [itemOffsetsAux, hp, List.cons_append, ← add_assoc, hih]
      rfl

theorem dataOffsetsAux_cum (cds : List (List Nat)) :
    ∀ c : Int,
    dataOffsetsAux c cds ++ [c + (cds.map (fun d => (d.length : Int))).sum] =
      c :: cumFrom c (cds.map (fun d => (d.length : Int))) := by
  induction cds with
  | nil => intro c; simp [dataOffsetsAux, cumFrom]
  | cons d rest ih =>
    intro c
    have hih := ih (c + (d.length : Int))
    simp only [List.map_cons, List.sum_cons] at hih ⊢
    rw [dataOffsetsAux, List.cons_append, ← add_assoc, hih]
    rfl

theorem cast_sum_lengths (cds : List (List Nat)) :
    (((cds.map List.length).sum : Nat) : Int) =
      (cds.map (fun d => (d.length : Int))).sum := by
  induction cds with
  | nil => rfl
  | cons d rest ih =>
    simp only [List.map_cons, List.sum_cons, Nat.cast_add, ih]

theorem sliceData_cum (blocks : List (List Nat)) :
    ∀ (c : Int) (pos : Nat) (file rest : List Nat),
    0 ≤ c →
    (∀ d ∈ blocks, 0 < d.length) →
    file.drop pos = blocks.flatten ++ rest →
    sliceData file pos (some c)
        (cumFrom c (blocks.map (fun d => (d.length : Int)))) =
      .ok (blocks, some (c + (blocks.map (fun d => (d.length : Int))).sum)) := by
  induction blocks with
  | nil =>
    intro c pos file rest hc _ _
    simp [cumFrom, sliceData]
  | cons d rest2 ih =>
    intro c pos file rest hc hpos hdrop
    have hd : 0 < d.length := hpos d (by simp)
    simp only [List.map_cons, cumFrom, List.sum_cons]
    rw [sliceData]
    rw [if_pos (show (0 : Int) < c + (d.length : Int) by omega)]
    have hn : c + (d.length : Int) - c = (d.length : Int) := by ring
    rw [hn]
    rw [if_neg (show ¬ ((d.length : Int) < 0) by omega)]
    have htoNat : ((d.length : Int)).toNat = d.length := by omega
    rw [htoNat]
    have hchunk : (file.drop pos).take d.length = d := by
      rw [hdrop, List.flatten_cons, List.append_assoc]
      exact List.take_left d (rest2.flatten ++ rest)
    have hdrop2 : file.drop (pos + d.length) = rest2.flatten ++ rest := by
      have h1 : file.drop (pos + d.length) = (file.drop pos).drop d.length := by
        rw [List.drop_drop, Nat.add_comm]
      rw [h1, hdrop, List.flatten_cons, List.append_assoc]
      exact List.drop_left d (rest2.flatten ++ rest)
    rw [hchunk]
    rw [ih (c + (d.length : Int)) (pos + d.length) file rest (by omega)
      (fun x hx => hpos x (by simp [hx])) hdrop2]
    simp only [ok_bind]
    congr 2
    ring_nf

/-- The byte sizes of a list of integer entries, as the load size derivation
recovers them. -/
def entSizesOf (es : List (List Int)) : List Int :=
  es.map (fun e => ((4 * e.length : Nat) : Int))

theorem readRun_spec (file : List Nat) (allEnts : List (List Int)) (t : Int)
    (tn : String) (k : Nat)
    (htn : pyGet ITEM_TYPES t = .ok tn)
    (hintok : ∀ e ∈ allEnts, ∀ x ∈ e, intOk x = true) :
    ∀ (cnt a pos : Nat) (rest : List Nat),
    k + a + cnt ≤ allEnts.length →
    file.drop pos = ((allEnts.drop (k + a)).map encInts).flatten ++ rest →
    readRun file t (k : Int) (entSizesOf allEnts) pos (List.range' a cnt) =
      .ok ((((allEnts.drop (k + a)).take cnt).map (fun e => RawItem.mk tn e)),
        pos + 4 * ((((allEnts.drop (k + a)).take cnt).map List.length).sum)) := by
  intro cnt
  induction cnt with
  | zero =>
    intro a pos rest _ _
    simp [readRun]
  | succ cnt ih =>
    intro a pos rest hle hdrop
    have hka : k + a < allEnts.length := by omega
    rw [List.range'_succ, readRun]
    have harg : (k : Int) + (a : Int) = ((k + a : Nat) : Int) := by push_cast; ring
    rw [harg]
    have hlen : k + a < (entSizesOf allEnts).length := by
      simpa [entSizesOf] using hka
    rw [pyGet_nonneg (entSizesOf allEnts) (k + a) hlen]
    have hget : (entSizesOf allEnts).get ⟨k + a, hlen⟩ =
        ((4 * (allEnts.get ⟨k + a, hka⟩).length : Nat) : Int) := by
      simp [entSizesOf]
    rw [hget, ok_bind]
    have hdec : allEnts.drop (k + a) =
        allEnts.get ⟨k + a, hka⟩ :: allEnts.drop (k + a + 1) :=
      List.drop_eq_get_cons hka
    rw [hdec] at hdrop ⊢
    rw [List.map_cons, List.flatten_cons, List.append_assoc] at hdrop
    have hsz : ¬ (((4 * (allEnts.get ⟨k + a, hka⟩).length : Nat) : Int) < 0) := by
      omega
    rw [if_neg hsz, if_neg hsz]
    have htn2 : ((4 * (allEnts.get ⟨k + a, hka⟩).length : Nat) : Int).toNat =
        4 * (allEnts.get ⟨k + a, hka⟩).length := by omega
    rw [htn2]
    have hchunk : (file.drop pos).take (4 * (allEnts.get ⟨k + a, hka⟩).length) =
        encInts (allEnts.get ⟨k + a, hka⟩) := by
      rw [hdrop]
      exact List.take_left' (encInts_length _)
    rw [hchunk]
    have hload : itemLoad t (encInts (allEnts.get ⟨k + a, hka⟩)) =
        .ok ⟨tn, allEnts.get ⟨k + a, hka⟩⟩ := by
      rw [itemLoad, htn, ok_bind,
        decInts_encInts (hintok _ (List.get_mem allEnts (k + a) hka))]
    rw [hload, ok_bind]
    have hdrop2 : file.drop (pos + 4 * (allEnts.get ⟨k + a, hka⟩).length) =
        ((allEnts.drop (k + a + 1)).map encInts).flatten ++ rest := by
      have h1 : file.drop (pos + 4 * (allEnts.get ⟨k + a, hka⟩).length) =
          (file.drop pos).drop (4 * (allEnts.get ⟨k + a, hka⟩).length) := by
        rw [List.drop_drop, Nat.add_comm]
      rw [h1, hdrop]
      exact List.drop_left' (encInts_length _)
    have hih := ih (a + 1) (pos + 4 * (allEnts.get ⟨k + a, hka⟩).length) rest
      (by omega) (by rw [show k + (a + 1) = k + a + 1 by omega]; exact hdrop2)
    rw [show k + (a + 1) = k + a + 1 by omega] at hih
    rw [hih, ok_bind]
    rw [List.take_succ_cons, List.map_cons, List.map_cons, List.sum_cons]
    congr 2
    omega

theorem readItems_append (file : List Nat) (sizes : List Int)
    (d1 d2 : List (Int × Int × Int)) :
    ∀ pos, readItems file sizes pos (d1 ++ d2) = (do
      let r1 ← readItems file sizes pos d1
      let r2 ← readItems file sizes r1.2 d2
      Except.ok (r1.1 ++ r2.1, r2.2)) := by
  induction d1 with
  | nil =>
    intro pos
    cases h : readItems file sizes pos d2 with
    | error e => simp [readItems, h]
    | ok r => simp [readItems, h]
  | cons trip rest ih =>
    intro pos
    obtain ⟨t, start, num⟩ := trip
    cases hr : readRun file t start sizes pos (List.range num.toNat) with
    | error e => simp [readItems, hr]
    | ok r =>
      simp only [List.cons_append, readItems, hr, ok_bind, List.append_eq]
      rw [ih r.2]
      cases h2 : readItems file sizes r.2 rest with
      | error e => simp [h2]
      | ok r2 =>
        simp only [h2, ok_bind]
        cases h3 : readItems file sizes r2.2 d2 with
        | error e => rfl
        | ok r3 => simp [List.append_assoc]

theorem readItems_single (file : List Nat) (sizes : List Int) (t s n : Int)
    (pos : Nat) :
    readItems file sizes pos [(t, s, n)] = (do
      let r ← readRun file t s sizes pos (List.range n.toNat)
      Except.ok (r.1, r.2)) := by
  cases hr : readRun file t s sizes pos (List.range n.toNat) with
  | error e => simp [readItems, hr]
  | ok r => simp [readItems, hr]

theorem ents_bytes_length (es : List (List Int)) :
    ((es.map encInts).flatten).length = 4 * (es.map List.length).sum := by
  induction es with
  | nil => rfl
  | cons e rest ih =>
    simp only [List.map_cons, List.flatten_cons, List.length_append,
      encInts_length, List.sum_cons, ih]
    ring

theorem drop_ents_bytes (file : List Nat) (es : List (List Int)) (n : Nat)
    (pos : Nat) (rest : List Nat)
    (h : file.drop pos = (es.map encInts).flatten ++ rest) :
    file.drop (pos + 4 * ((es.take n).map List.length).sum) =
      ((es.drop n).map encInts).flatten ++ rest := by
  have hsplit : (es.map encInts).flatten =
      ((es.take n).map encInts).flatten ++ ((es.drop n).map encInts).flatten := by
    rw [← List.flatten_append, ← List.map_append, List.take_append_drop]
  have h1 : file.drop (pos + 4 * ((es.take n).map List.length).sum) =
      (file.drop pos).drop (4 * ((es.take n).map List.length).sum) := by
    rw [List.drop_drop, Nat.add_comm]
  rw [h1, h, hsplit, List.append_assoc]
  exact List.drop_left' (ents_bytes_length _)

theorem readItems_run (file : List Nat) (allEnts : List (List Int))
    (t s n : Int) (tn : String) (htn : pyGet ITEM_TYPES t = .ok tn)
    (hintok : ∀ e ∈ allEnts, ∀ x ∈ e, intOk x = true)
    (k cnt : Nat) (hs : s = (k : Int)) (hn : n = (cnt : Int))
    (pos : Nat) (rest : List Nat)
    (hcov : k + cnt ≤ allEnts.length)
    (hdrop : file.drop pos = ((allEnts.drop k).map encInts).flatten ++ rest) :
    readItems file (entSizesOf allEnts) pos [(t, s, n)] =
      .ok ((((allEnts.drop k).take cnt).map (fun e => RawItem.mk tn e)),
        pos + 4 * (((allEnts.drop k).take cnt).map List.length).sum) := by
  subst hs hn
  rw [readItems_single]
  have hspec := readRun_spec file allEnts t tn k htn hintok cnt 0 pos rest
    (by omega) (by rw [Nat.add_zero]; exact hdrop)
  rw [show ((cnt : Nat) : Int).toNat = cnt by omega, List.range_eq_range']
  rw [Nat.add_zero] at hspec
  rw [hspec, ok_bind]

theorem readItems_dirStep (file : List Nat) (allEnts : List (List Int))
    (t s : Int) (tn : String) (htn : pyGet ITEM_TYPES t = .ok tn)
    (hintok : ∀ e ∈ allEnts, ∀ x ∈ e, intOk x = true)
    (k n : Nat) (hs : s = (k : Int)) (pos : Nat) (rest : List Nat)
    (hcov : k + n ≤ allEnts.length)
    (hdrop : file.drop pos = ((allEnts.drop k).map encInts).flatten ++ rest) :
    readItems file (entSizesOf allEnts) pos (dirStep t s n).1 =
      .ok ((((allEnts.drop k).take n).map (fun e => RawItem.mk tn e)),
        pos + 4 * (((allEnts.drop k).take n).map List.length).sum) := by
  by_cases hn : n = 0
  · subst hn
    simp [dirStep, readItems]
  · rw [dirStep, if_pos (by omega)]
    exact readItems_run file allEnts t s (n : Int) tn htn hintok k n hs rfl
      pos rest hcov hdrop

theorem mkId_intOk {t k : Nat} (ht : t ≤ 6) (hk : k ≤ 1000000) :
    intOk (mkId t k) = true := by
  rw [intOk_iff]
  unfold mkId
  have he : t <<< 16 = t * 65536 := by
    rw [Nat.shiftLeft_eq]
  have hpow : (2 : Nat) ^ 31 = 2147483648 := by norm_num
  have h1 : (t <<< 16) < 2 ^ 31 := by
    rw [he, hpow]
    omega
  have h2 : k < 2 ^ 31 := by
    rw [hpow]
    omega
  have h3 : ((t <<< 16) ||| k) < 2 ^ 31 := Nat.bitwise_lt h1 h2
  rw [hpow] at h3
  exact ⟨by omega, by omega⟩

theorem imgBlobs_length_le (imgs : List Image) :
    (imgBlobs imgs).length ≤ imgs.length := by
  induction imgs with
  | nil => simp [imgBlobs]
  | cons im rest ih =>
    simp only [imgBlobs, List.flatMap_cons, List.length_append] at ih ⊢
    have : im.imagedata.toList.length ≤ 1 := by
      cases im.imagedata <;> simp
    simp only [List.length_cons]
    omega

theorem imgEnts_length (imgs : List Image) :
    ∀ k b, (imgEnts k b imgs).length = imgs.length := by
  induction imgs with
  | nil => intro k b; rfl
  | cons im rest ih => intro k b; simp [imgEnts, ih]

theorem envEnts_length (envs : List Envelope) :
    ∀ k, (envEnts k envs).length = envs.length := by
  induction envs with
  | nil => intro k; rfl
  | cons e rest ih => intro k; simp [envEnts, ih]

theorem grpEnts_length (gs : List Group) :
    ∀ k nl, (grpEnts k nl gs).length = gs.length := by
  induction gs with
  | nil => intro k nl; rfl
  | cons g rest ih => intro k nl; simp [grpEnts, ih]

theorem lyrEnts_length (ls : List Layer) :
    ∀ k b, (lyrEnts k b ls).length = ls.length := by
  induction ls with
  | nil => intro k b; rfl
  | cons l rest ih => intro k b; simp [lyrEnts, ih]

theorem imgEnts_sizes (imgs : List Image) :
    ∀ k b, entSizesOf (imgEnts k b imgs) = imgs.map (fun _ => (24 : Int)) := by
  induction imgs with
  | nil => intro k b; rfl
  | cons im rest ih =>
    intro k b
    simp only [imgEnts, entSizesOf, List.map_cons] at ih ⊢
    rw [ih]
    rfl

theorem envEnts_sizes (envs : List Envelope)
    (hok : ∀ e ∈ envs, envelopeOk e = true) :
    ∀ k, entSizesOf (envEnts k envs) = envs.map (fun _ => (56 : Int)) := by
  induction envs with
  | nil => intro k; rfl
  | cons e rest ih =>
    intro k
    have hname : e.name.length = 8 := by
      have := hok e (by simp)
      simp only [envelopeOk, Bool.and_eq_true, decide_eq_true_eq] at this
      exact this.1.2
    simp only [envEnts, entSizesOf, List.map_cons] at ih ⊢
    rw [ih (fun x hx => hok x (by simp [hx]))]
    congr 1
    simp [Envelope.itemdata, Envelope.string_to_ints, hname]

theorem grpEnts_sizes (gs : List Group) :
    ∀ k nl, entSizesOf (grpEnts k nl gs) = gs.map (fun _ => (52 : Int)) := by
  induction gs with
  | nil => intro k nl; rfl
  | cons g rest ih =>
    intro k nl
    simp only [grpEnts, entSizesOf, List.map_cons] at ih ⊢
    rw [ih]
    rfl

theorem layerSize_tile (t : TileLayer) : layerSize (.tile t) = 36 := rfl

theorem layerSize_quad (q : QuadLayer) : layerSize (.quad q) = 20 := rfl

theorem lyrEnts_sizes (ls : List Layer) :
    ∀ k b, entSizesOf (lyrEnts k b ls) = ls.map layerSize := by
  induction ls with
  | nil => intro k b; rfl
  | cons l rest ih =>
    intro k b
    simp only [lyrEnts, entSizesOf, List.map_cons] at ih ⊢
    rw [ih]
    congr 1
    cases l with
    | tile t => rfl
    | quad q => rfl

theorem pyGet_c0 {α : Type} (a0 : α) (xs : List α) :
    pyGet (a0 :: xs) 0 = .ok a0 := by
  rw [show (0 : Int) = ((0 : Nat) : Int) by norm_num]
  exact pyGet_nonneg (a0 :: xs) 0
    (by simp only [List.length_cons]; omega)

theorem pyGet_c1 {α : Type} (a0 a1 : α) (xs : List α) :
    pyGet (a0 :: a1 :: xs) 1 = .ok a1 := by
  rw [show (1 : Int) = ((1 : Nat) : Int) by norm_num]
  exact pyGet_nonneg (a0 :: a1 :: xs) 1
    (by simp only [List.length_cons]; omega)

theorem pyGet_c2 {α : Type} (a0 a1 a2 : α) (xs : List α) :
    pyGet (a0 :: a1 :: a2 :: xs) 2 = .ok a2 := by
  rw [show (2 : Int) = ((2 : Nat) : Int) by norm_num]
  exact pyGet_nonneg (a0 :: a1 :: a2 :: xs) 2
    (by simp only [List.length_cons]; omega)

theorem pyGet_c3 {α : Type} (a0 a1 a2 a3 : α) (xs : List α) :
    pyGet (a0 :: a1 :: a2 :: a3 :: xs) 3 = .ok a3 := by
  rw [show (3 : Int) = ((3 : Nat) : Int) by norm_num]
  exact pyGet_nonneg (a0 :: a1 :: a2 :: a3 :: xs) 3
    (by simp only [List.length_cons]; omega)

theorem pyGet_c4 {α : Type} (a0 a1 a2 a3 a4 : α) (xs : List α) :
    pyGet (a0 :: a1 :: a2 :: a3 :: a4 :: xs) 4 = .ok a4 := by
  rw [show (4 : Int) = ((4 : Nat) : Int) by norm_num]
  exact pyGet_nonneg (a0 :: a1 :: a2 :: a3 :: a4 :: xs) 4
    (by simp only [List.length_cons]; omega)

theorem pyGet_c5 {α : Type} (a0 a1 a2 a3 a4 a5 : α) (xs : List α) :
    pyGet (a0 :: a1 :: a2 :: a3 :: a4 :: a5 :: xs) 5 = .ok a5 := by
  rw [show (5 : Int) = ((5 : Nat) : Int) by norm_num]
  exact pyGet_nonneg (a0 :: a1 :: a2 :: a3 :: a4 :: a5 :: xs) 5
    (by simp only [List.length_cons]; omega)

theorem pyGet_c6 {α : Type} (a0 a1 a2 a3 a4 a5 a6 : α) (xs : List α) :
    pyGet (a0 :: a1 :: a2 :: a3 :: a4 :: a5 :: a6 :: xs) 6 = .ok a6 := by
  rw [show (6 : Int) = ((6 : Nat) : Int) by norm_num]
  exact pyGet_nonneg (a0 :: a1 :: a2 :: a3 :: a4 :: a5 :: a6 :: xs) 6
    (by simp only [List.length_cons]; omega)

theorem pyGet_c7 {α : Type} (a0 a1 a2 a3 a4 a5 a6 a7 : α) (xs : List α) :
    pyGet (a0 :: a1 :: a2 :: a3 :: a4 :: a5 :: a6 :: a7 :: xs) 7 = .ok a7 := by
  rw [show (7 : Int) = ((7 : Nat) : Int) by norm_num]
  exact pyGet_nonneg (a0 :: a1 :: a2 :: a3 :: a4 :: a5 :: a6 :: a7 :: xs) 7
    (by simp only [List.length_cons]; omega)

theorem pyGet_c8 {α : Type} (a0 a1 a2 a3 a4 a5 a6 a7 a8 : α) (xs : List α) :
    pyGet (a0 :: a1 :: a2 :: a3 :: a4 :: a5 :: a6 :: a7 :: a8 :: xs) 8 = .ok a8 := by
  rw [show (8 : Int) = ((8 : Nat) : Int) by norm_num]
  exact pyGet_nonneg (a0 :: a1 :: a2 :: a3 :: a4 :: a5 :: a6 :: a7 :: a8 :: xs) 8
    (by simp only [List.length_cons]; omega)

theorem pyGet_c9 {α : Type} (a0 a1 a2 a3 a4 a5 a6 a7 a8 a9 : α) (xs : List α) :
    pyGet (a0 :: a1 :: a2 :: a3 :: a4 :: a5 :: a6 :: a7 :: a8 :: a9 :: xs) 9 = .ok a9 := by
  rw [show (9 : Int) = ((9 : Nat) : Int) by norm_num]
  exact pyGet_nonneg (a0 :: a1 :: a2 :: a3 :: a4 :: a5 :: a6 :: a7 :: a8 :: a9 :: xs) 9
    (by simp only [List.length_cons]; omega)

theorem pyGet_c10 {α : Type} (a0 a1 a2 a3 a4 a5 a6 a7 a8 a9 a10 : α) (xs : List α) :
    pyGet (a0 :: a1 :: a2 :: a3 :: a4 :: a5 :: a6 :: a7 :: a8 :: a9 :: a10 :: xs) 10 = .ok a10 := by
  rw [show (10 : Int) = ((10 : Nat) : Int) by norm_num]
  exact pyGet_nonneg (a0 :: a1 :: a2 :: a3 :: a4 :: a5 :: a6 :: a7 :: a8 :: a9 :: a10 :: xs) 10
    (by simp only [List.length_cons]; omega)

theorem pyGet_c11 {α : Type} (a0 a1 a2 a3 a4 a5 a6 a7 a8 a9 a10 a11 : α) (xs : List α) :
    pyGet (a0 :: a1 :: a2 :: a3 :: a4 :: a5 :: a6 :: a7 :: a8 :: a9 :: a10 :: a11 :: xs) 11 = .ok a11 := by
  rw [show (11 : Int) = ((11 : Nat) : Int) by norm_num]
  exact pyGet_nonneg (a0 :: a1 :: a2 :: a3 :: a4 :: a5 :: a6 :: a7 :: a8 :: a9 :: a10 :: a11 :: xs) 11
    (by simp only [List.length_cons]; omega)

theorem pyGet_c12 {α : Type} (a0 a1 a2 a3 a4 a5 a6 a7 a8 a9 a10 a11 a12 : α) (xs : List α) :
    pyGet (a0 :: a1 :: a2 :: a3 :: a4 :: a5 :: a6 :: a7 :: a8 :: a9 :: a10 :: a11 :: a12 :: xs) 12 = .ok a12 := by
  rw [show (12 : Int) = ((12 : Nat) : Int) by norm_num]
  exact pyGet_nonneg (a0 :: a1 :: a2 :: a3 :: a4 :: a5 :: a6 :: a7 :: a8 :: a9 :: a10 :: a11 :: a12 :: xs) 12
    (by simp only [List.length_cons]; omega)

theorem decompress_compress (d : List Nat) : decompress (compress d) = .ok d := rfl

theorem imageOf_entry (im : Image) (hok : imageOk im = true) (idw : Int)
    (cds : List (List Nat)) (b : Nat)
    (hlt : im.imagedata.isSome = true → b < cds.length)
    (hat : ∀ blob, im.imagedata = some blob →
      cds.get? b = some (compress blob)) :
    imageOf (idw :: im.itemdata (im.get_data b).2) cds = .ok im := by
  obtain ⟨w, h, ext, data⟩ := im
  cases data with
  | none =>
    have hext : ¬ (ext = 0) := by
      simp only [imageOk, Bool.and_eq_true, decide_eq_true_eq] at hok
      exact hok.2
    show imageOf (idw :: [16, w, h, ext, -1]) cds =
      .ok ⟨w, h, ext, none⟩
    unfold imageOf
    rw [pyGet_c2, pyGet_c3, pyGet_c4, pyGet_c5]
    simp only [ok_bind]
    rw [if_neg hext]
  | some blob =>
    have hext : ext = 0 := by
      simp only [imageOk, Bool.and_eq_true, decide_eq_true_eq] at hok
      exact hok.2.1
    have hb : b < cds.length := hlt (by rfl)
    show imageOf (idw :: [16, w, h, ext, (b : Int)]) cds =
      .ok ⟨w, h, ext, some blob⟩
    unfold imageOf
    rw [pyGet_c2, pyGet_c3, pyGet_c4, pyGet_c5]
    simp only [ok_bind]
    rw [if_pos hext]
    rw [dif_pos (by constructor <;> omega)]
    have hget : cds.get ⟨((b : Int)).toNat, by omega⟩ = compress blob := by
      have h1 := hat blob rfl
      have h2 : ((b : Int)).toNat = b := by omega
      rw [List.get?_eq_get (by omega : b < cds.length)] at h1
      simp only [Option.some_inj] at h1
      rw [← h1]
      congr 1
    rw [hget, decompress_compress]
    rfl

theorem envelopeOf_entry (e : Envelope) (hok : envelopeOk e = true)
    (idw : Int) :
    envelopeOf (idw :: (e.itemdata ++ e.string_to_ints)) = .ok e := by
  obtain ⟨ch, sp, np, sy, name⟩ := e
  have hname : name.length = 8 := by
    simp only [envelopeOk, Bool.and_eq_true, decide_eq_true_eq] at hok
    exact hok.1.2
  show envelopeOf (idw :: 48 :: ch :: sp :: np :: sy :: name) =
    .ok ⟨ch, sp, np, sy, name⟩
  unfold envelopeOf
  rw [pyGet_c2, pyGet_c3, pyGet_c4, pyGet_c5]
  simp only [ok_bind]
  rw [show (idw :: 48 :: ch :: sp :: np :: sy :: name).drop 6 = name from rfl]
  rw [List.take_of_length_le (by omega)]

theorem groupOf_entry (g : Group) (idw : Int) (nl : Int) :
    groupOf (idw :: g.itemdata nl) =
      .ok { g with start_layer := nl, layers := [] } := by
  obtain ⟨ox, oy, px, py, sl, nlf, uc, cx, cy, cw, ch2, lys⟩ := g
  show groupOf (idw :: 44 :: ox :: oy :: px :: py :: nl :: nlf :: uc :: cx ::
    cy :: cw :: ch2 :: []) = .ok ⟨ox, oy, px, py, nl, nlf, uc, cx, cy, cw,
      ch2, []⟩
  unfold groupOf
  rw [pyGet_c2, pyGet_c3, pyGet_c4, pyGet_c5, pyGet_c6, pyGet_c7, pyGet_c8,
    pyGet_c9, pyGet_c10, pyGet_c11, pyGet_c12]
  simp only [ok_bind]

theorem layerOf_entry (l : Layer) (nimg : Nat) (hok : layerOk nimg l = true)
    (idw : Int) (cds : List (List Nat)) (images : List Image)
    (hni : images.length = nimg) (b : Nat)
    (hb : b < cds.length) (hat : cds.get? b = some (compress (layerData l))) :
    layerOf (idw :: l.itemdataAt (b : Int)) cds images = .ok l := by
  have hget : cds.get ⟨((b : Int)).toNat, by omega⟩ = compress (layerData l) := by
    rw [List.get?_eq_get (by omega : b < cds.length)] at hat
    simp only [Option.some_inj] at hat
    rw [← hat]
    congr 1
  cases l with
  | tile t =>
    simp only [layerOk, Bool.and_eq_true, decide_eq_true_eq] at hok
    have himg : ¬ (0 ≤ t.image ∧ ¬ (t.image < (images.length : Int))) := by
      push_neg
      intro h0
      rw [hni]
      exact hok.1.1.2 h0
    show layerOf (idw :: 28 :: 0 :: t.width :: t.height :: t.game ::
      t.color :: t.image :: (b : Int) :: []) cds images = .ok (.tile t)
    unfold layerOf
    rw [pyGet_c2]
    simp only [ok_bind]
    rw [show pyGet LAYER_TYPES 0 = .ok "tile" from rfl]
    simp only [ok_bind, if_true]
    unfold tileLayerOf
    rw [pyGet_c3, pyGet_c4, pyGet_c5, pyGet_c6, pyGet_c7, pyGet_c8]
    simp only [ok_bind]
    rw [if_neg himg, dif_pos (by constructor <;> omega), hget,
      decompress_compress]
    rfl
  | quad q =>
    simp only [layerOk, Bool.and_eq_true, decide_eq_true_eq] at hok
    have himg : ¬ (0 ≤ q.image ∧ ¬ (q.image < (images.length : Int))) := by
      push_neg
      intro h0
      rw [hni]
      exact hok.1.1.2 h0
    show layerOf (idw :: 12 :: 1 :: q.image :: (b : Int) :: []) cds images =
      .ok (.quad q)
    unfold layerOf
    rw [pyGet_c2]
    simp only [ok_bind]
    rw [show pyGet LAYER_TYPES 1 = .ok "quad" from rfl]
    simp only [ok_bind, if_true]
    unfold quadLayerOf
    rw [pyGet_c3, pyGet_c4]
    simp only [ok_bind]
    rw [if_neg himg, dif_pos (by constructor <;> omega), hget,
      decompress_compress]
    simp only [ok_bind]
    rw [show layerData (.quad q) = encInts q.quads from rfl,
      decInts_encInts (by
        have h2 := hok.1.2
        simp only [intsOk, List.all_eq_true] at h2
        exact h2)]
    rw [if_neg (by decide)]

theorem RawItem.info_mk (tn : String) (e : List Int) :
    (RawItem.mk tn e).info = e := rfl

theorem get_at_append (pre : List (List Nat)) (x : List Nat)
    (suf : List (List Nat)) : (pre ++ x :: suf).get? pre.length = some x := by
  rw [List.get?_append_right (le_refl _)]
  simp

theorem decodeImages (cds : List (List Nat)) (imgs : List Image) :
    ∀ (k : Nat) (pre post : List (List Nat)),
    (∀ im ∈ imgs, imageOk im = true) →
    cds = pre ++ (imgBlobs imgs).map compress ++ post →
    ((imgEnts k pre.length imgs).map (fun e => RawItem.mk "image" e)).mapM
      (fun it => imageOf it.info cds) = .ok imgs := by
  induction imgs with
  | nil => intro k pre post _ _; rfl
  | cons im rest ih =>
    intro k pre post hok hcds
    rw [imgEnts]
    simp only [List.map_cons, List.mapM_cons, RawItem.info_mk]
    cases him : im.imagedata with
    | none =>
      rw [imageOf_entry im (hok im (List.mem_cons_self _ _)) (mkId 2 k)
        cds pre.length
        (by rw [him]; intro hc; cases hc)
        (by intro blob hb; rw [him] at hb; cases hb)]
      simp only [ok_bind, Image.get_data, him, List.length_nil,
        Nat.add_zero]
      have hcds2 : cds = pre ++ (imgBlobs rest).map compress ++ post := by
        rw [hcds]
        simp only [imgBlobs, List.flatMap_cons, him, Option.toList_none,
          List.nil_append]
      rw [ih (k + 1) pre post (fun x hx => hok x (List.mem_cons_of_mem _ hx))
        hcds2]
      rfl
    | some blob =>
      have hcds2 : cds = pre ++ compress blob ::
          ((imgBlobs rest).map compress ++ post) := by
        rw [hcds]
        simp only [imgBlobs, List.flatMap_cons, him, Option.toList_some,
          List.map_append, List.map_cons, List.map_nil, List.append_assoc,
          List.singleton_append, List.cons_append, List.nil_append]
      rw [imageOf_entry im (hok im (List.mem_cons_self _ _)) (mkId 2 k)
        cds pre.length
        (by intro _; rw [hcds2]; simp only [List.length_append,
          List.length_cons]; omega)
        (by intro b2 hb2
            rw [him] at hb2
            cases hb2
            rw [hcds2]
            exact get_at_append pre (compress blob) _)]
      simp only [ok_bind, Image.get_data, him, List.length_cons,
        List.length_nil, Nat.zero_add]
      have hlen : pre.length + 1 = (pre ++ [compress blob]).length := by
        simp
      have hcds3 : cds = (pre ++ [compress blob]) ++
          (imgBlobs rest).map compress ++ post := by
        rw [hcds2]
        simp [List.append_assoc]
      rw [hlen, ih (k + 1) (pre ++ [compress blob]) post
        (fun x hx => hok x (List.mem_cons_of_mem _ hx)) hcds3]
      rfl

theorem decodeEnvelopes (envs : List Envelope) :
    ∀ (k : Nat), (∀ e ∈ envs, envelopeOk e = true) →
    ((envEnts k envs).map (fun e => RawItem.mk "envelope" e)).mapM
      (fun it => envelopeOf it.info) = .ok envs := by
  induction envs with
  | nil => intro k _; rfl
  | cons e rest ih =>
    intro k hok
    rw [envEnts]
    simp only [List.map_cons, List.mapM_cons, RawItem.info_mk]
    rw [envelopeOf_entry e (hok e (List.mem_cons_self _ _)) (mkId 3 k)]
    simp only [ok_bind]
    rw [ih (k + 1) (fun x hx => hok x (List.mem_cons_of_mem _ hx))]
    rfl

/-- The group list as load reconstructs it before layer assignment: each
group keeps its descriptor but carries the recomputed start layer and an
empty layer list. -/
def decodedGroups : Int → List Group → List Group
  | _, [] => []
  | nl, g :: rest =>
    { g with start_layer := nl, layers := [] } ::
      decodedGroups (nl + (g.layers.length : Int)) rest

theorem decodeGroups (gs : List Group) :
    ∀ (k : Nat) (nl : Int),
    ((grpEnts k nl gs).map (fun e => RawItem.mk "group" e)).mapM
      (fun it => groupOf it.info) = .ok (decodedGroups nl gs) := by
  induction gs with
  | nil => intro k nl; rfl
  | cons g rest ih =>
    intro k nl
    rw [grpEnts, decodedGroups]
    simp only [List.map_cons, List.mapM_cons, RawItem.info_mk]
    rw [groupOf_entry g (mkId 4 k) nl]
    simp only [ok_bind]
    rw [ih (k + 1) (nl + (g.layers.length : Int))]
    rfl

theorem decodeLayers (cds : List (List Nat)) (images : List Image)
    (nimg : Nat) (hni : images.length = nimg) (ls : List Layer) :
    ∀ (k : Nat) (pre post : List (List Nat)),
    (∀ l ∈ ls, layerOk nimg l = true) →
    cds = pre ++ (lyrBlobs ls).map compress ++ post →
    ((lyrEnts k pre.length ls).map (fun e => RawItem.mk "layer" e)).mapM
      (fun it => layerOf it.info cds images) = .ok ls := by
  induction ls with
  | nil => intro k pre post _ _; rfl
  | cons l rest ih =>
    intro k pre post hok hcds
    have hcds2 : cds = pre ++ compress (layerData l) ::
        ((lyrBlobs rest).map compress ++ post) := by
      rw [hcds]
      simp only [lyrBlobs, List.map_cons, List.cons_append,
        List.append_assoc]
    rw [lyrEnts]
    simp only [List.map_cons, List.mapM_cons, RawItem.info_mk]
    rw [layerOf_entry l nimg (hok l (List.mem_cons_self _ _)) (mkId 5 k)
      cds images hni pre.length
      (by rw [hcds2]; simp only [List.length_append, List.length_cons]
          omega)
      (by rw [hcds2]; exact get_at_append pre _ _)]
    simp only [ok_bind]
    have hlen : pre.length + 1 = (pre ++ [compress (layerData l)]).length := by
      simp
    have hcds3 : cds = (pre ++ [compress (layerData l)]) ++
        (lyrBlobs rest).map compress ++ post := by
      rw [hcds2]
      simp [List.append_assoc]
    rw [hlen, ih (k + 1) (pre ++ [compress (layerData l)]) post
      (fun x hx => hok x (List.mem_cons_of_mem _ hx)) hcds3]
    rfl

theorem dirStep_snd (i c : Int) (n : Nat) :
    (dirStep i c n).2 = c + (n : Int) := by
  unfold dirStep
  by_cases h : n ≠ 0
  · rw [if_pos h]
  · rw [if_neg h]
    push_neg at h
    subst h
    simp

theorem sum_take_add (es : List (List Int)) (k n : Nat) :
    ((es.take (k + n)).map List.length).sum =
      ((es.take k).map List.length).sum +
        (((es.drop k).take n).map List.length).sum := by
  rw [List.take_add, List.map_append, List.sum_append]

theorem readItems_chain (file : List Nat) (sizes : List Int)
    (d1 d2 : List (Int × Int × Int)) (pos p1 p2 : Nat)
    (I1 I2 : List RawItem)
    (h1 : readItems file sizes pos d1 = .ok (I1, p1))
    (h2 : readItems file sizes p1 d2 = .ok (I2, p2)) :
    readItems file sizes pos (d1 ++ d2) = .ok (I1 ++ I2, p2) := by
  rw [readItems_append, h1]
  show (do
    let r2 ← readItems file sizes p1 d2
    Except.ok (I1 ++ r2.1, r2.2) : Except Err (List RawItem × Nat)) = _
  rw [h2]
  rfl

/-- The full decoded item list of a saved map, type-tagged as the load-side
filtering sees it: the version token, one item per image, envelope, group
and layer, and the aggregate envpoint item. -/
def rawItemsOf (T : Teemap) : List RawItem :=
  RawItem.mk "version" [0, 4, 1] ::
    ((imgEnts 0 0 T.images).map (fun e => RawItem.mk "image" e) ++
     ((envEnts 0 T.envelopes).map (fun e => RawItem.mk "envelope" e) ++
      ((grpEnts 0 0 T.groups).map (fun e => RawItem.mk "group" e) ++
       ((lyrEnts 0 (imgBlobs T.images).length T.layers).map
          (fun e => RawItem.mk "layer" e) ++
        [RawItem.mk "envpoint" (envpointItemInts T.envpoints)]))))

theorem entsOf_cons (T : Teemap) :
    entsOf T = [0, 4, 1] ::
      (imgEnts 0 0 T.images ++ (envEnts 0 T.envelopes ++
        (grpEnts 0 0 T.groups ++
          (lyrEnts 0 (imgBlobs T.images).length T.layers ++
            [envpointItemInts T.envpoints])))) := by
  simp [entsOf, List.append_assoc]

theorem readItems_all (T : Teemap) (file : List Nat) (pos : Nat)
    (rest : List Nat)
    (hintok : ∀ e ∈ entsOf T, ∀ x ∈ e, intOk x = true)
    (hdrop : file.drop pos = ((entsOf T).map encInts).flatten ++ rest) :
    readItems file (entSizesOf (entsOf T)) pos (typeDirectory T) =
      .ok (rawItemsOf T, pos + 4 * ((entsOf T).map List.length).sum) := by
  have hE := entsOf_cons T
  have hlen : (entsOf T).length = 1 + T.images.length + T.envelopes.length +
      T.groups.length + T.layers.length + 1 := by
    rw [hE]
    simp only [List.length_cons, List.length_append, imgEnts_length,
      envEnts_length, grpEnts_length, lyrEnts_length,
      List.length_singleton, List.length_nil]
    omega
  have hdropAt : ∀ k : Nat,
      file.drop (pos + 4 * (((entsOf T).take k).map List.length).sum) =
        (((entsOf T).drop k).map encInts).flatten ++ rest :=
    fun k => drop_ents_bytes file (entsOf T) k pos rest hdrop
  -- drop identities at the section boundaries
  have hd1 : (entsOf T).drop 1 =
      imgEnts 0 0 T.images ++ (envEnts 0 T.envelopes ++
        (grpEnts 0 0 T.groups ++
          (lyrEnts 0 (imgBlobs T.images).length T.layers ++
            [envpointItemInts T.envpoints]))) := by
    rw [hE]
    rfl
  have hd2 : (entsOf T).drop (1 + T.images.length) =
      envEnts 0 T.envelopes ++ (grpEnts 0 0 T.groups ++
        (lyrEnts 0 (imgBlobs T.images).length T.layers ++
          [envpointItemInts T.envpoints])) := by
    have h := congrArg (List.drop T.images.length) hd1
    rw [List.drop_drop, List.drop_left' (imgEnts_length T.images 0 0)] at h
    exact h
  have hd3 : (entsOf T).drop (1 + T.images.length + T.envelopes.length) =
      grpEnts 0 0 T.groups ++
        (lyrEnts 0 (imgBlobs T.images).length T.layers ++
          [envpointItemInts T.envpoints]) := by
    have h := congrArg (List.drop T.envelopes.length) hd2
    rw [List.drop_drop, List.drop_left' (envEnts_length T.envelopes 0)] at h
    exact h
  have hd4 : (entsOf T).drop (1 + T.images.length + T.envelopes.length +
      T.groups.length) =
      lyrEnts 0 (imgBlobs T.images).length T.layers ++
        [envpointItemInts T.envpoints] := by
    have h := congrArg (List.drop T.groups.length) hd3
    rw [List.drop_drop, List.drop_left' (grpEnts_length T.groups 0 0)] at h
    exact h
  have hd5 : (entsOf T).drop (1 + T.images.length + T.envelopes.length +
      T.groups.length + T.layers.length) =
      [envpointItemInts T.envpoints] := by
    have h := congrArg (List.drop T.layers.length) hd4
    rw [List.drop_drop,
      List.drop_left' (lyrEnts_length T.layers 0 (imgBlobs T.images).length)]
      at h
    exact h
  -- take identities at the section boundaries
  have ht1 : ((entsOf T).drop 0).take 1 = ([[0, 4, 1]] : List (List Int)) := by
    rw [List.drop_zero, hE]
    rfl
  have hk1 : (entsOf T).take 1 = ([[0, 4, 1]] : List (List Int)) := by
    rw [hE]
    rfl
  have ht2 : ((entsOf T).drop 1).take T.images.length =
      imgEnts 0 0 T.images := by
    rw [hd1]
    exact List.take_left' (imgEnts_length T.images 0 0)
  have ht3 : ((entsOf T).drop (1 + T.images.length)).take
      T.envelopes.length = envEnts 0 T.envelopes := by
    rw [hd2]
    exact List.take_left' (envEnts_length T.envelopes 0)
  have ht4 : ((entsOf T).drop (1 + T.images.length + T.envelopes.length)).take
      T.groups.length = grpEnts 0 0 T.groups := by
    rw [hd3]
    exact List.take_left' (grpEnts_length T.groups 0 0)
  have ht5 : ((entsOf T).drop (1 + T.images.length + T.envelopes.length +
      T.groups.length)).take T.layers.length =
      lyrEnts 0 (imgBlobs T.images).length T.layers := by
    rw [hd4]
    exact List.take_left'
      (lyrEnts_length T.layers 0 (imgBlobs T.images).length)
  have ht6 : ((entsOf T).drop (1 + T.images.length + T.envelopes.length +
      T.groups.length + T.layers.length)).take 1 =
      [envpointItemInts T.envpoints] := by
    rw [hd5]
    rfl
  -- the six runs at their canonical positions
  have hr1 : readItems file (entSizesOf (entsOf T)) pos
      [((0 : Int), (0 : Int), (1 : Int))] =
      .ok ([RawItem.mk "version" [0, 4, 1]],
        pos + 4 * (((entsOf T).take 1).map List.length).sum) := by
    have h := readItems_run file (entsOf T) 0 0 1 "version" rfl hintok
      0 1 (by norm_num) (by norm_num) pos rest (by omega)
      (by rw [List.drop_zero]; exact hdrop)
    rw [ht1] at h
    rw [show pos + 4 *
        ((([[0, 4, 1]] : List (List Int))).map List.length).sum =
      pos + 4 * (((entsOf T).take 1).map List.length).sum from by
        rw [hk1]] at h
    exact h
  have hr2 : readItems file (entSizesOf (entsOf T))
      (pos + 4 * (((entsOf T).take 1).map List.length).sum)
      (dirStep 2 1 T.images.length).1 =
      .ok ((imgEnts 0 0 T.images).map (fun e => RawItem.mk "image" e),
        pos + 4 * (((entsOf T).take (1 + T.images.length)).map
          List.length).sum) := by
    have h := readItems_dirStep file (entsOf T) 2 1 "image" rfl hintok
      1 T.images.length (by norm_num)
      (pos + 4 * (((entsOf T).take 1).map List.length).sum) rest
      (by omega) (hdropAt 1)
    rw [ht2] at h
    rw [show pos + 4 * (((entsOf T).take 1).map List.length).sum +
        4 * ((imgEnts 0 0 T.images).map List.length).sum =
      pos + 4 * (((entsOf T).take (1 + T.images.length)).map
        List.length).sum from by
        rw [sum_take_add (entsOf T) 1 T.images.length, ht2]
        ring] at h
    exact h
  have hr3 : readItems file (entSizesOf (entsOf T))
      (pos + 4 * (((entsOf T).take (1 + T.images.length)).map
        List.length).sum)
      (dirStep 3 (dirStep 2 1 T.images.length).2 T.envelopes.length).1 =
      .ok ((envEnts 0 T.envelopes).map (fun e => RawItem.mk "envelope" e),
        pos + 4 * (((entsOf T).take (1 + T.images.length +
          T.envelopes.length)).map List.length).sum) := by
    have h := readItems_dirStep file (entsOf T) 3
      (dirStep 2 1 T.images.length).2 "envelope" rfl hintok
      (1 + T.images.length) T.envelopes.length
      (by rw [dirStep_snd]; push_cast; ring)
      (pos + 4 * (((entsOf T).take (1 + T.images.length)).map
        List.length).sum) rest
      (by omega) (hdropAt (1 + T.images.length))
    rw [ht3] at h
    rw [show pos + 4 * (((entsOf T).take (1 + T.images.length)).map
          List.length).sum +
        4 * ((envEnts 0 T.envelopes).map List.length).sum =
      pos + 4 * (((entsOf T).take (1 + T.images.length +
        T.envelopes.length)).map List.length).sum from by
        rw [sum_take_add (entsOf T) (1 + T.images.length)
          T.envelopes.length, ht3]
        ring] at h
    exact h
  have hr4 : readItems file (entSizesOf (entsOf T))
      (pos + 4 * (((entsOf T).take (1 + T.images.length +
        T.envelopes.length)).map List.length).sum)
      (dirStep 4 (dirStep 3 (dirStep 2 1 T.images.length).2
        T.envelopes.length).2 T.groups.length).1 =
      .ok ((grpEnts 0 0 T.groups).map (fun e => RawItem.mk "group" e),
        pos + 4 * (((entsOf T).take (1 + T.images.length +
          T.envelopes.length + T.groups.length)).map List.length).sum) := by
    have h := readItems_dirStep file (entsOf T) 4
      (dirStep 3 (dirStep 2 1 T.images.length).2 T.envelopes.length).2
      "group" rfl hintok
      (1 + T.images.length + T.envelopes.length) T.groups.length
      (by rw [dirStep_snd, dirStep_snd]; push_cast; ring)
      (pos + 4 * (((entsOf T).take (1 + T.images.length +
        T.envelopes.length)).map List.length).sum) rest
      (by omega) (hdropAt (1 + T.images.length + T.envelopes.length))
    rw [ht4] at h
    rw [show pos + 4 * (((entsOf T).take (1 + T.images.length +
          T.envelopes.length)).map List.length).sum +
        4 * ((grpEnts 0 0 T.groups).map List.length).sum =
      pos + 4 * (((entsOf T).take (1 + T.images.length +
        T.envelopes.length + T.groups.length)).map List.length).sum from by
        rw [sum_take_add (entsOf T)
          (1 + T.images.length + T.envelopes.length) T.groups.length, ht4]
        ring] at h
    exact h
  have hr5 : readItems file (entSizesOf (entsOf T))
      (pos + 4 * (((entsOf T).take (1 + T.images.length +
        T.envelopes.length + T.groups.length)).map List.length).sum)
      (dirStep 5 (dirStep 4 (dirStep 3 (dirStep 2 1 T.images.length).2
        T.envelopes.length).2 T.groups.length).2 T.layers.length).1 =
      .ok ((lyrEnts 0 (imgBlobs T.images).length T.layers).map
          (fun e => RawItem.mk "layer" e),
        pos + 4 * (((entsOf T).take (1 + T.images.length +
          T.envelopes.length + T.groups.length + T.layers.length)).map
            List.length).sum) := by
    have h := readItems_dirStep file (entsOf T) 5
      (dirStep 4 (dirStep 3 (dirStep 2 1 T.images.length).2
        T.envelopes.length).2 T.groups.length).2
      "layer" rfl hintok
      (1 + T.images.length + T.envelopes.length + T.groups.length)
      T.layers.length
      (by rw [dirStep_snd, dirStep_snd, dirStep_snd]; push_cast; ring)
      (pos + 4 * (((entsOf T).take (1 + T.images.length +
        T.envelopes.length + T.groups.length)).map List.length).sum) rest
      (by omega)
      (hdropAt (1 + T.images.length + T.envelopes.length + T.groups.length))
    rw [ht5] at h
    rw [show pos + 4 * (((entsOf T).take (1 + T.images.length +
          T.envelopes.length + T.groups.length)).map List.length).sum +
        4 * ((lyrEnts 0 (imgBlobs T.images).length T.layers).map
          List.length).sum =
      pos + 4 * (((entsOf T).take (1 + T.images.length +
        T.envelopes.length + T.groups.length + T.layers.length)).map
          List.length).sum from by
        rw [sum_take_add (entsOf T)
          (1 + T.images.length + T.envelopes.length + T.groups.length)
          T.layers.length, ht5]
        ring] at h
    exact h
  have hr6 : readItems file (entSizesOf (entsOf T))
      (pos + 4 * (((entsOf T).take (1 + T.images.length +
        T.envelopes.length + T.groups.length + T.layers.length)).map
          List.length).sum)
      [((6 : Int), (dirStep 5 (dirStep 4 (dirStep 3
        (dirStep 2 1 T.images.length).2 T.envelopes.length).2
          T.groups.length).2 T.layers.length).2, (1 : Int))] =
      .ok ([RawItem.mk "envpoint" (envpointItemInts T.envpoints)],
        pos + 4 * (((entsOf T).take (1 + T.images.length +
          T.envelopes.length + T.groups.length + T.layers.length + 1)).map
            List.length).sum) := by
    have h := readItems_run file (entsOf T) 6
      (dirStep 5 (dirStep 4 (dirStep 3 (dirStep 2 1 T.images.length).2
        T.envelopes.length).2 T.groups.length).2 T.layers.length).2
      1 "envpoint" rfl hintok
      (1 + T.images.length + T.envelopes.length + T.groups.length +
        T.layers.length) 1
      (by rw [dirStep_snd, dirStep_snd, dirStep_snd, dirStep_snd]
          push_cast
          ring)
      (by norm_num)
      (pos + 4 * (((entsOf T).take (1 + T.images.length +
        T.envelopes.length + T.groups.length + T.layers.length)).map
          List.length).sum) rest
      (by omega)
      (hdropAt (1 + T.images.length + T.envelopes.length + T.groups.length +
        T.layers.length))
    rw [ht6] at h
    rw [show pos + 4 * (((entsOf T).take (1 + T.images.length +
          T.envelopes.length + T.groups.length + T.layers.length)).map
            List.length).sum +
        4 * (([envpointItemInts T.envpoints]).map List.length).sum =
      pos + 4 * (((entsOf T).take (1 + T.images.length +
        T.envelopes.length + T.groups.length + T.layers.length + 1)).map
          List.length).sum from by
        rw [sum_take_add (entsOf T)
          (1 + T.images.length + T.envelopes.length + T.groups.length +
            T.layers.length) 1, ht6]
        ring] at h
    exact h
  have hfull : (entsOf T).take (1 + T.images.length + T.envelopes.length +
      T.groups.length + T.layers.length + 1) = entsOf T :=
    List.take_of_length_le (by omega)
  have hdir : typeDirectory T =
      [((0 : Int), (0 : Int), (1 : Int))] ++
        ((dirStep 2 1 T.images.length).1 ++
         ((dirStep 3 (dirStep 2 1 T.images.length).2 T.envelopes.length).1 ++
          ((dirStep 4 (dirStep 3 (dirStep 2 1 T.images.length).2
              T.envelopes.length).2 T.groups.length).1 ++
           ((dirStep 5 (dirStep 4 (dirStep 3 (dirStep 2 1 T.images.length).2
               T.envelopes.length).2 T.groups.length).2 T.layers.length).1 ++
            [((6 : Int), (dirStep 5 (dirStep 4 (dirStep 3
              (dirStep 2 1 T.images.length).2 T.envelopes.length).2
                T.groups.length).2 T.layers.length).2, (1 : Int))])))) := by
    simp only [typeDirectory, List.append_assoc]
  rw [hdir,
    readItems_chain _ _ _ _ _ _ _ _ _ hr1
      (readItems_chain _ _ _ _ _ _ _ _ _ hr2
        (readItems_chain _ _ _ _ _ _ _ _ _ hr3
          (readItems_chain _ _ _ _ _ _ _ _ _ hr4
            (readItems_chain _ _ _ _ _ _ _ _ _ hr5 hr6)))),
    hfull]
  simp only [rawItemsOf, List.singleton_append]

theorem RawItem.itemtype_mk (tn : String) (e : List Int) :
    (RawItem.mk tn e).itemtype = tn := rfl

theorem rawOfType_nil (tn : String) : rawOfType [] tn = [] := rfl

theorem rawOfType_append (A B : List RawItem) (tn : String) :
    rawOfType (A ++ B) tn = rawOfType A tn ++ rawOfType B tn :=
  List.filter_append _ _

theorem rawOfType_cons_eq (it : RawItem) (its : List RawItem) (tn : String)
    (h : (it.itemtype == tn) = true) :
    rawOfType (it :: its) tn = it :: rawOfType its tn := by
  simp [rawOfType, List.filter_cons, h]

theorem rawOfType_cons_ne (it : RawItem) (its : List RawItem) (tn : String)
    (h : (it.itemtype == tn) = false) :
    rawOfType (it :: its) tn = rawOfType its tn := by
  simp [rawOfType, List.filter_cons, h]

theorem rawOfType_map_self (tn : String) (es : List (List Int)) :
    rawOfType (es.map (fun e => RawItem.mk tn e)) tn =
      es.map (fun e => RawItem.mk tn e) := by
  induction es with
  | nil => rfl
  | cons e rest ih =>
    rw [List.map_cons, rawOfType_cons_eq _ _ _ (by simp), ih]

theorem rawOfType_map_ne (tn tn2 : String) (h : ¬ tn = tn2)
    (es : List (List Int)) :
    rawOfType (es.map (fun e => RawItem.mk tn e)) tn2 = [] := by
  induction es with
  | nil => rfl
  | cons e rest ih =>
    rw [List.map_cons, rawOfType_cons_ne _ _ _ (by simp [h]), ih]

theorem rawOfType_image (T : Teemap) :
    rawOfType (rawItemsOf T) "image" =
      (imgEnts 0 0 T.images).map (fun e => RawItem.mk "image" e) := by
  rw [rawItemsOf, rawOfType_cons_ne _ _ _ (by decide),
    rawOfType_append, rawOfType_map_self,
    rawOfType_append, rawOfType_map_ne _ _ (by decide),
    rawOfType_append, rawOfType_map_ne _ _ (by decide),
    rawOfType_append, rawOfType_map_ne _ _ (by decide),
    rawOfType_cons_ne _ _ _ (by rw [RawItem.itemtype_mk]; decide),
    rawOfType_nil]
  simp

theorem rawOfType_envelope (T : Teemap) :
    rawOfType (rawItemsOf T) "envelope" =
      (envEnts 0 T.envelopes).map (fun e => RawItem.mk "envelope" e) := by
  rw [rawItemsOf, rawOfType_cons_ne _ _ _ (by decide),
    rawOfType_append, rawOfType_map_ne _ _ (by decide),
    rawOfType_append, rawOfType_map_self,
    rawOfType_append, rawOfType_map_ne _ _ (by decide),
    rawOfType_append, rawOfType_map_ne _ _ (by decide),
    rawOfType_cons_ne _ _ _ (by rw [RawItem.itemtype_mk]; decide),
    rawOfType_nil]
  simp

theorem rawOfType_group (T : Teemap) :
    rawOfType (rawItemsOf T) "group" =
      (grpEnts 0 0 T.groups).map (fun e => RawItem.mk "group" e) := by
  rw [rawItemsOf, rawOfType_cons_ne _ _ _ (by decide),
    rawOfType_append, rawOfType_map_ne _ _ (by decide),
    rawOfType_append, rawOfType_map_ne _ _ (by decide),
    rawOfType_append, rawOfType_map_self,
    rawOfType_append, rawOfType_map_ne _ _ (by decide),
    rawOfType_cons_ne _ _ _ (by rw [RawItem.itemtype_mk]; decide),
    rawOfType_nil]
  simp

theorem rawOfType_layer (T : Teemap) :
    rawOfType (rawItemsOf T) "layer" =
      (lyrEnts 0 (imgBlobs T.images).length T.layers).map
        (fun e => RawItem.mk "layer" e) := by
  rw [rawItemsOf, rawOfType_cons_ne _ _ _ (by decide),
    rawOfType_append, rawOfType_map_ne _ _ (by decide),
    rawOfType_append, rawOfType_map_ne _ _ (by decide),
    rawOfType_append, rawOfType_map_ne _ _ (by decide),
    rawOfType_append, rawOfType_map_self,
    rawOfType_cons_ne _ _ _ (by rw [RawItem.itemtype_mk]; decide),
    rawOfType_nil]
  simp

theorem rawOfType_envpoint (T : Teemap) :
    rawOfType (rawItemsOf T) "envpoint" =
      [RawItem.mk "envpoint" (envpointItemInts T.envpoints)] := by
  rw [rawItemsOf, rawOfType_cons_ne _ _ _ (by decide),
    rawOfType_append, rawOfType_map_ne _ _ (by decide),
    rawOfType_append, rawOfType_map_ne _ _ (by decide),
    rawOfType_append, rawOfType_map_ne _ _ (by decide),
    rawOfType_append, rawOfType_map_ne _ _ (by decide),
    rawOfType_cons_eq _ _ _ (by rw [RawItem.itemtype_mk]; decide),
    rawOfType_nil]
  simp

theorem assign_decoded (gs : List Group) :
    ∀ (pre : List Layer),
    (∀ g ∈ gs, g.num_layers = (g.layers.length : Int)) →
    startsCanonical (pre.length : Int) gs = true →
    assignLayers (decodedGroups (pre.length : Int) gs)
      (pre ++ (gs.map Group.layers).flatten) = gs := by
  induction gs with
  | nil =>
    intro pre _ _
    rfl
  | cons g rest ih =>
    intro pre hnum hcan
    obtain ⟨ox, oy, px, py, sl, nl, uc, cx, cy, cw, ch2, lys⟩ := g
    simp only [startsCanonical, Bool.and_eq_true, decide_eq_true_eq] at hcan
    obtain ⟨hstart, hcan2⟩ := hcan
    have hg : nl = (lys.length : Int) := hnum _ (List.mem_cons_self _ _)
    simp only [assignLayers, decodedGroups, List.map_cons,
      List.flatten_cons]
    rw [← List.append_assoc]
    congr 1
    · show Group.mk ox oy px py (pre.length : Int) nl uc cx cy cw ch2
          (pySlice ((pre ++ lys) ++ (rest.map Group.layers).flatten)
            (pre.length : Int) ((pre.length : Int) + nl)) =
        Group.mk ox oy px py sl nl uc cx cy cw ch2 lys
      rw [hg, hstart]
      rw [pySlice_middle pre lys ((rest.map Group.layers).flatten)]
    · have hlen2 : (((pre ++ lys).length : Nat) : Int) =
          (pre.length : Int) + (lys.length : Int) := by
        simp
      have h := ih (pre ++ lys)
        (fun x hx => hnum x (List.mem_cons_of_mem _ hx))
        (by rw [hlen2]; exact hcan2)
      rw [hlen2] at h
      exact h

theorem intOk_cast_le {n : Nat} (h : n ≤ 2147483647) :
    intOk (n : Int) = true := by
  rw [intOk_iff]
  constructor <;> omega

theorem imgEnts_intOk (imgs : List Image)
    (himgs : ∀ im ∈ imgs, imageOk im = true) :
    ∀ k b : Nat, k + imgs.length ≤ 1000000 → b + imgs.length ≤ 1000000 →
    ∀ e ∈ imgEnts k b imgs, ∀ x ∈ e, intOk x = true := by
  induction imgs with
  | nil =>
    intro k b _ _ e he
    simp [imgEnts] at he
  | cons im rest ih =>
    intro k b hk hb e he x hx
    rw [imgEnts] at he
    rcases List.mem_cons.mp he with h1 | h2
    · subst h1
      have hok := himgs im (List.mem_cons_self _ _)
      simp only [imageOk, Bool.and_eq_true] at hok
      simp only [List.length_cons] at hk hb
      simp only [Image.itemdata, List.mem_cons, List.not_mem_nil,
        or_false] at hx
      rcases hx with rfl | rfl | rfl | rfl | rfl | rfl
      · exact mkId_intOk (by omega) (by omega)
      · decide
      · exact hok.1.1.1
      · exact hok.1.1.2
      · exact hok.1.2
      · cases him : im.imagedata with
        | none => simp [Image.get_data, him]; decide
        | some blob =>
          simp only [Image.get_data, him]
          exact intOk_cast_le (by omega)
    · have hd1 : (im.get_data b).1.length ≤ 1 := by
        cases him : im.imagedata <;> simp [Image.get_data, him]
      simp only [List.length_cons] at hk hb
      exact ih (fun i hi => himgs i (List.mem_cons_of_mem _ hi))
        (k + 1) (b + (im.get_data b).1.length) (by omega) (by omega)
        e h2 x hx

theorem envEnts_intOk (envs : List Envelope)
    (henv : ∀ e ∈ envs, envelopeOk e = true) :
    ∀ k : Nat, k + envs.length ≤ 1000000 →
    ∀ e ∈ envEnts k envs, ∀ x ∈ e, intOk x = true := by
  induction envs with
  | nil =>
    intro k _ e he
    simp [envEnts] at he
  | cons ev rest ih =>
    intro k hk e he x hx
    rw [envEnts] at he
    rcases List.mem_cons.mp he with h1 | h2
    · subst h1
      have hok := henv ev (List.mem_cons_self _ _)
      simp only [envelopeOk, Bool.and_eq_true] at hok
      simp only [List.length_cons] at hk
      simp only [Envelope.itemdata, Envelope.string_to_ints, List.mem_cons,
        List.cons_append, List.nil_append, List.mem_append] at hx
      rcases hx with rfl | rfl | rfl | rfl | rfl | hname
      · exact mkId_intOk (by omega) (by omega)
      · decide
      · exact hok.1.1.1.1.1
      · exact hok.1.1.1.1.2
      · exact hok.1.1.1.2
      · rcases hname with rfl | hname2
        · exact hok.1.1.2
        · have := hok.2
          simp only [intsOk, List.all_eq_true] at this
          exact this x hname2
    · simp only [List.length_cons] at hk
      exact ih (fun i hi => henv i (List.mem_cons_of_mem _ hi))
        (k + 1) (by omega) e h2 x hx

theorem grpEnts_intOk (gs : List Group)
    (hgs : ∀ g ∈ gs, groupOk g = true) :
    ∀ (k : Nat) (nl : Int), k + gs.length ≤ 1000000 →
    0 ≤ nl → nl + (((gs.map Group.layers).flatten.length : Nat) : Int) ≤
      1000000 →
    ∀ e ∈ grpEnts k nl gs, ∀ x ∈ e, intOk x = true := by
  induction gs with
  | nil =>
    intro k nl _ _ _ e he
    simp [grpEnts] at he
  | cons g rest ih =>
    intro k nl hk hnl0 hnl1 e he x hx
    rw [grpEnts] at he
    have hflat : ((g :: rest).map Group.layers).flatten.length =
        g.layers.length + (rest.map Group.layers).flatten.length := by
      simp [List.flatten_cons]
    rcases List.mem_cons.mp he with h1 | h2
    · subst h1
      have hok := hgs g (List.mem_cons_self _ _)
      simp only [groupOk, Bool.and_eq_true] at hok
      simp only [List.length_cons] at hk
      simp only [Group.itemdata, List.mem_cons, List.not_mem_nil,
        or_false] at hx
      rcases hx with rfl | rfl | rfl | rfl | rfl | rfl | rfl | rfl | rfl |
        rfl | rfl | rfl | rfl
      · exact mkId_intOk (by omega) (by omega)
      · decide
      · exact hok.1.1.1.1.1.1.1.1.1.1.1
      · exact hok.1.1.1.1.1.1.1.1.1.1.2
      · exact hok.1.1.1.1.1.1.1.1.1.2
      · exact hok.1.1.1.1.1.1.1.1.2
      · rw [intOk_iff]
        rw [hflat] at hnl1
        push_cast at hnl1
        constructor <;> omega
      · exact hok.1.1.1.1.1.1.2
      · exact hok.1.1.1.1.1.2
      · exact hok.1.1.1.1.2
      · exact hok.1.1.1.2
      · exact hok.1.1.2
      · exact hok.1.2
    · simp only [List.length_cons] at hk
      rw [hflat] at hnl1
      push_cast at hnl1
      exact ih (fun i hi => hgs i (List.mem_cons_of_mem _ hi))
        (k + 1) (nl + (g.layers.length : Int)) (by omega) (by omega)
        (by push_cast; omega) e h2 x hx

theorem lyrEnts_intOk (ls : List Layer) (nimg : Nat)
    (hls : ∀ l ∈ ls, layerOk nimg l = true) :
    ∀ k b : Nat, k + ls.length ≤ 1000000 → b + ls.length ≤ 1000000 →
    ∀ e ∈ lyrEnts k b ls, ∀ x ∈ e, intOk x = true := by
  induction ls with
  | nil =>
    intro k b _ _ e he
    simp [lyrEnts] at he
  | cons l rest ih =>
    intro k b hk hb e he x hx
    rw [lyrEnts] at he
    rcases List.mem_cons.mp he with h1 | h2
    · subst h1
      have hok := hls l (List.mem_cons_self _ _)
      simp only [List.length_cons] at hk hb
      rcases List.mem_cons.mp hx with rfl | hx2
      · exact mkId_intOk (by omega) (by omega)
      · cases l with
        | tile t =>
          simp only [layerOk, Bool.and_eq_true] at hok
          simp only [Layer.itemdataAt, TileLayer.itemdata, List.mem_cons,
            List.not_mem_nil, or_false] at hx2
          rcases hx2 with rfl | rfl | rfl | rfl | rfl | rfl | rfl | rfl
          · decide
          · decide
          · exact hok.1.1.1.1.1.1.1
          · exact hok.1.1.1.1.1.1.2
          · exact hok.1.1.1.1.1.2
          · exact hok.1.1.1.1.2
          · exact hok.1.1.1.2
          · exact intOk_cast_le (by omega)
        | quad q =>
          simp only [layerOk, Bool.and_eq_true] at hok
          simp only [Layer.itemdataAt, QuadLayer.itemdata, List.mem_cons,
            List.not_mem_nil, or_false] at hx2
          rcases hx2 with rfl | rfl | rfl | rfl
          · decide
          · decide
          · exact hok.1.1.1
          · exact intOk_cast_le (by omega)
    · simp only [List.length_cons] at hk hb
      exact ih (fun i hi => hls i (List.mem_cons_of_mem _ hi))
        (k + 1) (b + 1) (by omega) (by omega) e h2 x hx

theorem envpointItemInts_intOk (ps : List Envpoint)
    (hps : ∀ p ∈ ps, envpointOk p = true) (hlen : ps.length ≤ 10000) :
    ∀ x ∈ envpointItemInts ps, intOk x = true := by
  intro x hx
  rw [envpointItemInts] at hx
  rcases List.mem_cons.mp hx with rfl | hx2
  · decide
  · rcases List.mem_cons.mp hx2 with rfl | hx3
    · rw [intOk_iff]
      have : ((ps.length : Nat) : Int) ≤ 10000 := by push_cast; omega
      constructor <;> nlinarith
    · rw [List.mem_flatten] at hx3
      obtain ⟨li, hli, hxli⟩ := hx3
      rw [List.mem_map] at hli
      obtain ⟨p, hp, rfl⟩ := hli
      have hok := hps p hp
      simp only [envpointOk, Bool.and_eq_true] at hok
      rw [Envpoint.itemInts] at hxli
      rcases List.mem_cons.mp hxli with rfl | hx4
      · exact hok.1.1.1
      · rcases List.mem_cons.mp hx4 with rfl | hx5
        · exact hok.1.1.2
        · have := hok.2
          simp only [intsOk, List.all_eq_true] at this
          exact this x hx5

theorem entsOf_intOk (T : Teemap) (h : validMap T = true) :
    ∀ e ∈ entsOf T, ∀ x ∈ e, intOk x = true := by
  simp only [validMap, Bool.and_eq_true, decide_eq_true_eq,
    List.all_eq_true] at h
  intro e he x hx
  rw [entsOf_cons T] at he
  rcases List.mem_cons.mp he with rfl | he1
  · rcases List.mem_cons.mp hx with rfl | hx1
    · decide
    · rcases List.mem_cons.mp hx1 with rfl | hx2
      · decide
      · rcases List.mem_cons.mp hx2 with rfl | hx3
        · decide
        · simp at hx3
  · rcases List.mem_append.mp he1 with h2 | he2
    · exact imgEnts_intOk T.images h.1.1.1.1.1.2 0 0
        (by have := h.1.1.1.1.1.1.1.1.1.1; omega)
        (by have := h.1.1.1.1.1.1.1.1.1.1; omega) e h2 x hx
    · rcases List.mem_append.mp he2 with h3 | he3
      · exact envEnts_intOk T.envelopes h.1.1.1.1.2 0
          (by have := h.1.1.1.1.1.1.1.1.1.2; omega) e h3 x hx
      · rcases List.mem_append.mp he3 with h4 | he4
        · refine grpEnts_intOk T.groups h.1.1.1.2 0 0
            (by have := h.1.1.1.1.1.1.1.1.2; omega) (by omega) ?_ e h4 x hx
          have hTl : ((T.groups.map Group.layers).flatten).length =
              T.layers.length := rfl
          rw [hTl]
          have := h.1.1.1.1.1.1.1.2
          push_cast
          omega
        · rcases List.mem_append.mp he4 with h5 | he5
          · refine lyrEnts_intOk T.layers T.images.length h.1.2 0
              (imgBlobs T.images).length
              (by have := h.1.1.1.1.1.1.1.2; omega) ?_ e h5 x hx
            have h1 := imgBlobs_length_le T.images
            have h2 := h.1.1.1.1.1.1.1.1.1.1
            have h3 := h.1.1.1.1.1.1.1.2
            omega
          · rcases List.mem_cons.mp he5 with rfl | habs
            · exact envpointItemInts_intOk T.envpoints h.1.1.2
                h.1.1.1.1.1.1.2 x hx
            · simp at habs

theorem packItemInts_of_all {xs : List Int}
    (h : ∀ x ∈ xs, intOk x = true) :
    packItemInts xs = .ok (encInts xs) := by
  induction xs with
  | nil => rfl
  | cons x rest ih =>
    rw [packItemInts, int32_of_intOk (h x (List.mem_cons_self _ _))]
    simp only [ok_bind]
    rw [packI32_of_intOk (h x (List.mem_cons_self _ _))]
    simp only [ok_bind]
    rw [ih (fun y hy => h y (List.mem_cons_of_mem _ hy))]
    rfl

theorem encInts_append (a b : List Int) :
    encInts (a ++ b) = encInts a ++ encInts b := by
  simp [encInts]

theorem flatten_map_encInts (es : List (List Int)) :
    (es.map encInts).flatten = encInts es.flatten := by
  induction es with
  | nil => rfl
  | cons e rest ih =>
    simp only [List.map_cons, List.flatten_cons, ih, encInts_append]

theorem readTriples_flatMap (l : List (Int × Int × Int)) :
    readTriples (l.flatMap (fun e => [e.1, e.2.1, e.2.2])) = l := by
  induction l with
  | nil => rfl
  | cons e rest ih =>
    obtain ⟨a, b, c⟩ := e
    simp only [List.flatMap_cons, List.cons_append, List.nil_append]
    rw [readTriples, ih]

theorem compress_length_pos (d : List Nat) : 0 < (compress d).length := by
  simp [compress]

theorem sum_const_int {α : Type} (l : List α) (c : Int) :
    ((l.map (fun _ => c)).sum) = (l.length : Int) * c := by
  induction l with
  | nil => simp
  | cons a rest ih =>
    simp only [List.map_cons, List.sum_cons, ih, List.length_cons]
    push_cast
    ring

theorem itemOffsetsAux_length (l : List String) :
    ∀ c, (itemOffsetsAux c l).length = l.length := by
  induction l with
  | nil => intro c; rfl
  | cons t rest ih => intro c; simp [itemOffsetsAux, ih]

theorem dataOffsetsAux_length (l : List (List Nat)) :
    ∀ c, (dataOffsetsAux c l).length = l.length := by
  induction l with
  | nil => intro c; rfl
  | cons d rest ih => intro c; simp [dataOffsetsAux, ih]

theorem typeNamesOf_length (T : Teemap) :
    (typeNamesOf T).length = (entsOf T).length := by
  rw [entsOf_cons T]
  simp [typeNamesOf, imgEnts_length, envEnts_length, grpEnts_length,
    lyrEnts_length]

theorem dirStep_mem {x : Int × Int × Int} {t c : Int} {n : Nat}
    (h : x ∈ (dirStep t c n).1) : x = (t, c, (n : Int)) := by
  unfold dirStep at h
  by_cases hn : n ≠ 0
  · rw [if_pos hn] at h
    simpa using h
  · rw [if_neg hn] at h
    simp at h

theorem imgEnts_mem_pos (imgs : List Image) :
    ∀ k b e, e ∈ imgEnts k b imgs → 0 < e.length := by
  induction imgs with
  | nil => intro k b e he; simp [imgEnts] at he
  | cons im rest ih =>
    intro k b e he
    rw [imgEnts] at he
    rcases List.mem_cons.mp he with rfl | h2
    · simp
    · exact ih _ _ e h2

theorem envEnts_mem_pos (envs : List Envelope) :
    ∀ k e, e ∈ envEnts k envs → 0 < e.length := by
  induction envs with
  | nil => intro k e he; simp [envEnts] at he
  | cons ev rest ih =>
    intro k e he
    rw [envEnts] at he
    rcases List.mem_cons.mp he with rfl | h2
    · simp
    · exact ih _ e h2

theorem grpEnts_mem_pos (gs : List Group) :
    ∀ k nl e, e ∈ grpEnts k nl gs → 0 < e.length := by
  induction gs with
  | nil => intro k nl e he; simp [grpEnts] at he
  | cons g rest ih =>
    intro k nl e he
    rw [grpEnts] at he
    rcases List.mem_cons.mp he with rfl | h2
    · simp
    · exact ih _ _ e h2

theorem lyrEnts_mem_pos (ls : List Layer) :
    ∀ k b e, e ∈ lyrEnts k b ls → 0 < e.length := by
  induction ls with
  | nil => intro k b e he; simp [lyrEnts] at he
  | cons l rest ih =>
    intro k b e he
    rw [lyrEnts] at he
    rcases List.mem_cons.mp he with rfl | h2
    · cases l <;> simp [Layer.itemdataAt, TileLayer.itemdata,
        QuadLayer.itemdata]
    · exact ih _ _ e h2

theorem entsOf_len_pos (T : Teemap) : ∀ e ∈ entsOf T, 0 < e.length := by
  intro e he
  rw [entsOf_cons T] at he
  rcases List.mem_cons.mp he with rfl | he1
  · simp
  · rcases List.mem_append.mp he1 with h2 | he2
    · exact imgEnts_mem_pos T.images _ _ e h2
    · rcases List.mem_append.mp he2 with h3 | he3
      · exact envEnts_mem_pos T.envelopes _ e h3
      · rcases List.mem_append.mp he3 with h4 | he4
        · exact grpEnts_mem_pos T.groups _ _ e h4
        · rcases List.mem_append.mp he4 with h5 | he5
          · exact lyrEnts_mem_pos T.layers _ _ e h5
          · rcases List.mem_cons.mp he5 with rfl | habs
            · simp [envpointItemInts]
            · simp at habs

theorem entSizesOf_pos (T : Teemap) :
    ∀ s ∈ entSizesOf (entsOf T), 0 < s := by
  intro s hs
  rw [entSizesOf, List.mem_map] at hs
  obtain ⟨e, he, rfl⟩ := hs
  have := entsOf_len_pos T e he
  have h4 : 0 < 4 * e.length := by omega
  exact_mod_cast h4

theorem entSizesOf_cons (e : List Int) (l : List (List Int)) :
    entSizesOf (e :: l) = ((4 * e.length : Nat) : Int) :: entSizesOf l := rfl

theorem entSizesOf_append (a b : List (List Int)) :
    entSizesOf (a ++ b) = entSizesOf a ++ entSizesOf b :=
  List.map_append _ _ _

theorem envpointItemInts_length (ps : List Envpoint)
    (h : ∀ p ∈ ps, p.values.length = 4) :
    (envpointItemInts ps).length = 2 + 6 * ps.length := by
  unfold envpointItemInts
  simp only [List.length_cons, flatten_itemInts_length ps h]
  omega

theorem entSizesOf_entsOf (T : Teemap)
    (henv : ∀ e ∈ T.envelopes, envelopeOk e = true) :
    entSizesOf (entsOf T) = 12 :: (T.images.map (fun _ => (24 : Int)) ++
      (T.envelopes.map (fun _ => (56 : Int)) ++
        (T.groups.map (fun _ => (52 : Int)) ++
          (T.layers.map layerSize ++
            [((4 * (envpointItemInts T.envpoints).length : Nat) : Int)])))) := by
  rw [entsOf_cons T, entSizesOf_cons, entSizesOf_append, entSizesOf_append,
    entSizesOf_append, entSizesOf_append, imgEnts_sizes,
    envEnts_sizes T.envelopes henv, grpEnts_sizes, lyrEnts_sizes]
  norm_num
  rfl

/-- The per-item pairs of type name and true byte size, version first and
the envpoint aggregate last, as the save offset loop walks them. -/
def sizePairs (T : Teemap) : List (String × Int) :=
  ("version", 12) ::
    (T.images.map (fun _ => ("image", (24 : Int))) ++
     T.envelopes.map (fun _ => ("envelope", (56 : Int))) ++
     T.groups.map (fun _ => ("group", (52 : Int))) ++
     T.layers.map (fun l => (l.typeName ++ "_layer", layerSize l)) ++
     [("envpoint", ((4 * (envpointItemInts T.envpoints).length : Nat) : Int))])

theorem sizePairs_fst (T : Teemap) :
    (sizePairs T).map Prod.fst = typeNamesOf T := by
  simp [sizePairs, typeNamesOf, List.map_map, Function.comp,
    List.map_const']

theorem sizePairs_snd (T : Teemap)
    (henv : ∀ e ∈ T.envelopes, envelopeOk e = true) :
    (sizePairs T).map Prod.snd = entSizesOf (entsOf T) := by
  rw [entSizesOf_entsOf T henv]
  simp [sizePairs, List.map_map, Function.comp, List.append_assoc]

theorem typeName_tile (t : TileLayer) : (Layer.tile t).typeName = "tile" :=
  rfl

theorem typeName_quad (q : QuadLayer) : (Layer.quad q).typeName = "quad" :=
  rfl

theorem sizePairs_adv (T : Teemap) :
    ∀ p ∈ (sizePairs T).dropLast, offsetAdvance p.1 = p.2 := by
  intro p hp
  rw [sizePairs] at hp
  rw [List.dropLast_cons_of_ne_nil (by simp)] at hp
  rcases List.mem_cons.mp hp with rfl | hp1
  · decide
  · rw [show T.images.map (fun _ => ("image", (24 : Int))) ++
        T.envelopes.map (fun _ => ("envelope", (56 : Int))) ++
        T.groups.map (fun _ => ("group", (52 : Int))) ++
        T.layers.map (fun l => (l.typeName ++ "_layer", layerSize l)) ++
        [("envpoint", ((4 * (envpointItemInts T.envpoints).length : Nat) :
          Int))] =
      (T.images.map (fun _ => ("image", (24 : Int))) ++
        T.envelopes.map (fun _ => ("envelope", (56 : Int))) ++
        T.groups.map (fun _ => ("group", (52 : Int))) ++
        T.layers.map (fun l => (l.typeName ++ "_layer", layerSize l))) ++
      [("envpoint", ((4 * (envpointItemInts T.envpoints).length : Nat) :
        Int))] from by simp [List.append_assoc]] at hp1
    rw [List.dropLast_concat] at hp1
    rcases List.mem_append.mp hp1 with hp2 | hp5
    · rcases List.mem_append.mp hp2 with hp3 | hp4
      · rcases List.mem_append.mp hp3 with hpi | hpe
        · obtain ⟨_, _, rfl⟩ := List.mem_map.mp hpi
          decide
        · obtain ⟨_, _, rfl⟩ := List.mem_map.mp hpe
          decide
      · obtain ⟨_, _, rfl⟩ := List.mem_map.mp hp4
        decide
    · obtain ⟨l, _, rfl⟩ := List.mem_map.mp hp5
      cases l with
      | tile t =>
        show offsetAdvance ((Layer.tile t).typeName ++ "_layer") =
          layerSize (Layer.tile t)
        rw [typeName_tile, layerSize_tile]
        decide
      | quad q =>
        show offsetAdvance ((Layer.quad q).typeName ++ "_layer") =
          layerSize (Layer.quad q)
        rw [typeName_quad, layerSize_quad]
        decide

theorem sizePairs_sum (T : Teemap) (cds : List (List Nat))
    (hp : ∀ p ∈ T.envpoints, p.values.length = 4) :
    ((sizePairs T).map Prod.snd).sum = (headerWrite T cds).item_size := by
  simp only [sizePairs, List.map_cons, List.map_append, List.map_map,
    List.sum_cons, List.sum_append, List.map_nil]
  rw [show (Prod.snd ∘ fun _ : Image => ("image", (24 : Int))) =
      (fun _ : Image => (24 : Int)) from rfl,
    show (Prod.snd ∘ fun _ : Envelope => ("envelope", (56 : Int))) =
      (fun _ : Envelope => (56 : Int)) from rfl,
    show (Prod.snd ∘ fun _ : Group => ("group", (52 : Int))) =
      (fun _ : Group => (52 : Int)) from rfl,
    show (Prod.snd ∘ fun l : Layer => (l.typeName ++ "_layer", layerSize l)) =
      layerSize from rfl]
  rw [sum_const_int, sum_const_int, sum_const_int]
  rw [envpointItemInts_length T.envpoints hp]
  simp only [headerWrite, List.sum_nil, Image.size, Envelope.size,
    Group.size, versionItemSize]
  push_cast
  ring

theorem sum_le_const_nat {α : Type} (l : List α) (f : α → Nat) (c : Nat)
    (h : ∀ a ∈ l, f a ≤ c) : (l.map f).sum ≤ l.length * c := by
  induction l with
  | nil => simp
  | cons a rest ih =>
    simp only [List.map_cons, List.sum_cons, List.length_cons]
    have h1 := h a (List.mem_cons_self _ _)
    have h2 := ih (fun x hx => h x (List.mem_cons_of_mem _ hx))
    calc f a + (rest.map f).sum ≤ c + rest.length * c := by omega
      _ = (rest.length + 1) * c := by ring

theorem imgBlobs_blob_le (imgs : List Image)
    (h : ∀ im ∈ imgs, imageOk im = true) :
    ∀ d ∈ imgBlobs imgs, d.length ≤ 40000 := by
  intro d hd
  rw [imgBlobs, List.mem_flatMap] at hd
  obtain ⟨im, him, hdm⟩ := hd
  have hok := h im him
  cases him2 : im.imagedata with
  | none => rw [him2] at hdm; simp at hdm
  | some blob =>
    rw [him2] at hdm
    simp only [Option.toList_some, List.mem_singleton] at hdm
    subst hdm
    simp only [imageOk, him2, Bool.and_eq_true, decide_eq_true_eq] at hok
    omega

theorem lyrBlobs_blob_le (ls : List Layer) (nimg : Nat)
    (h : ∀ l ∈ ls, layerOk nimg l = true) :
    ∀ d ∈ lyrBlobs ls, d.length ≤ 40000 := by
  intro d hd
  rw [lyrBlobs, List.mem_map] at hd
  obtain ⟨l, hl, rfl⟩ := hd
  have hok := h l hl
  cases l with
  | tile t =>
    simp only [layerOk, Bool.and_eq_true, decide_eq_true_eq] at hok
    show t.tiles.length ≤ 40000
    omega
  | quad q =>
    simp only [layerOk, Bool.and_eq_true, decide_eq_true_eq] at hok
    show (encInts q.quads).length ≤ 40000
    rw [encInts_length]
    omega

theorem datasOf_blob_le (T : Teemap) (h : validMap T = true) :
    ∀ d ∈ datasOf T, d.length ≤ 40000 := by
  simp only [validMap, Bool.and_eq_true, decide_eq_true_eq,
    List.all_eq_true] at h
  intro d hd
  rcases List.mem_append.mp hd with h1 | h2
  · exact imgBlobs_blob_le T.images h.1.1.1.1.1.2 d h1
  · exact lyrBlobs_blob_le T.layers T.images.length h.1.2 d h2

theorem datasOf_length_le (T : Teemap) (h : validMap T = true) :
    (datasOf T).length ≤ 20000 := by
  simp only [validMap, Bool.and_eq_true, decide_eq_true_eq,
    List.all_eq_true] at h
  have h1 := imgBlobs_length_le T.images
  have h2 : (lyrBlobs T.layers).length = T.layers.length := by
    simp [lyrBlobs]
  have h3 := h.1.1.1.1.1.1.1.1.1.1
  have h4 := h.1.1.1.1.1.1.1.2
  simp only [datasOf, List.length_append]
  omega

theorem cds_sum_le (T : Teemap) (h : validMap T = true) :
    ((((datasOf T).map compress).map List.length).sum) ≤ 800020000 := by
  have h1 : ∀ d ∈ (datasOf T).map compress, d.length ≤ 40001 := by
    intro d hd
    rw [List.mem_map] at hd
    obtain ⟨d0, hd0, rfl⟩ := hd
    have := datasOf_blob_le T h d0 hd0
    simp [compress]
    omega
  have h2 := sum_le_const_nat ((datasOf T).map compress) List.length 40001 h1
  have h3 : ((datasOf T).map compress).length = (datasOf T).length := by
    simp
  have h4 := datasOf_length_le T h
  calc (((datasOf T).map compress).map List.length).sum
      ≤ ((datasOf T).map compress).length * 40001 := h2
    _ ≤ 20000 * 40001 := by rw [h3]; exact Nat.mul_le_mul_right _ h4
    _ ≤ 800020000 := by norm_num

theorem sum_layerSize_bounds (ls : List Layer) :
    0 ≤ (ls.map layerSize).sum ∧
    (ls.map layerSize).sum ≤ (ls.length : Int) * 36 := by
  induction ls with
  | nil => simp
  | cons l rest ih =>
    simp only [List.map_cons, List.sum_cons, List.length_cons]
    have hl : 0 ≤ layerSize l ∧ layerSize l ≤ 36 := by
      cases l <;> simp [layerSize_tile, layerSize_quad]
    constructor
    · omega
    · have : ((rest.length + 1 : Nat) : Int) * 36 =
          (rest.length : Int) * 36 + 36 := by push_cast; ring
      rw [this]
      have := ih.2
      omega

theorem entsOf_length (T : Teemap) :
    (entsOf T).length = 1 + T.images.length + T.envelopes.length +
      T.groups.length + T.layers.length + 1 := by
  rw [entsOf_cons T]
  simp only [List.length_cons, List.length_append, imgEnts_length,
    envEnts_length, grpEnts_length, lyrEnts_length, List.length_singleton,
    List.length_nil]
  omega

theorem header_bounds (T : Teemap) (h : validMap T = true) :
    (2 ≤ (headerWrite T ((datasOf T).map compress)).num_item_types ∧
      (headerWrite T ((datasOf T).map compress)).num_item_types ≤ 6) ∧
    (headerWrite T ((datasOf T).map compress)).num_items =
      (((entsOf T).length : Nat) : Int) ∧
    (headerWrite T ((datasOf T).map compress)).num_raw_data =
      (((datasOf T).length : Nat) : Int) ∧
    (12 ≤ (headerWrite T ((datasOf T).map compress)).item_size ∧
      (headerWrite T ((datasOf T).map compress)).item_size ≤ 2000000) ∧
    (0 ≤ (headerWrite T ((datasOf T).map compress)).data_size ∧
      (headerWrite T ((datasOf T).map compress)).data_size ≤ 800020000) ∧
    (0 ≤ (headerWrite T ((datasOf T).map compress)).size ∧
      (headerWrite T ((datasOf T).map compress)).size ≤ 2147483647) ∧
    (0 ≤ (headerWrite T ((datasOf T).map compress)).swaplen ∧
      (headerWrite T ((datasOf T).map compress)).swaplen ≤ 2147483647) := by
  have hv := h
  simp only [validMap, Bool.and_eq_true, decide_eq_true_eq,
    List.all_eq_true] at hv
  have hc1 : T.images.length ≤ 10000 := hv.1.1.1.1.1.1.1.1.1.1
  have hc2 : T.envelopes.length ≤ 10000 := hv.1.1.1.1.1.1.1.1.1.2
  have hc3 : T.groups.length ≤ 10000 := hv.1.1.1.1.1.1.1.1.2
  have hc4 : T.layers.length ≤ 10000 := hv.1.1.1.1.1.1.1.2
  have hc5 : T.envpoints.length ≤ 10000 := hv.1.1.1.1.1.1.2
  have hlay := sum_layerSize_bounds T.layers
  have hsum := cds_sum_le T h
  have hdlen := datasOf_length_le T h
  have hmaplen : ((datasOf T).map compress).length = (datasOf T).length := by
    simp
  refine ⟨?_, ?_, ?_, ?_, ?_, ?_, ?_⟩
  · simp only [headerWrite]
    constructor <;> (split_ifs <;> norm_num)
  · simp only [headerWrite]
    rw [entsOf_length]
    push_cast
    ring
  · simp only [headerWrite, hmaplen]
  · simp only [headerWrite, versionItemSize, Image.size, Envelope.size,
      Group.size]
    constructor <;> omega
  · simp only [headerWrite, hmaplen]
    constructor
    · positivity
    · omega
  · simp only [headerWrite, hmaplen, versionItemSize, Image.size,
      Envelope.size, Group.size]
    constructor <;> (split_ifs <;> omega)
  · simp only [headerWrite, hmaplen, versionItemSize, Image.size,
      Envelope.size, Group.size]
    constructor <;> (split_ifs <;> omega)

/-- The eight header integers exactly as save packs them. -/
def headerInts (T : Teemap) : List Int :=
  [4, (headerWrite T ((datasOf T).map compress)).size,
   (headerWrite T ((datasOf T).map compress)).swaplen,
   (headerWrite T ((datasOf T).map compress)).num_item_types,
   (headerWrite T ((datasOf T).map compress)).num_items,
   (headerWrite T ((datasOf T).map compress)).num_raw_data,
   (headerWrite T ((datasOf T).map compress)).item_size,
   (headerWrite T ((datasOf T).map compress)).data_size]

/-- The flat integer list of the type directory as save packs it. -/
def dirInts (T : Teemap) : List Int :=
  (typeDirectory T).flatMap (fun e => [e.1, e.2.1, e.2.2])

/-- The item offset table integers of a saved map. -/
def itemOffs (T : Teemap) : List Int := itemOffsetsAux 0 (typeNamesOf T)

/-- The raw data offset table integers of a saved map. -/
def dataOffs (T : Teemap) : List Int :=
  dataOffsetsAux 0 ((datasOf T).map compress)

/-- The uncompressed size integers of a saved map. -/
def uncompInts (T : Teemap) : List Int :=
  (datasOf T).map (fun d => (d.length : Int))

/-- The byte string save produces for a valid map, section by section. -/
def savedBytes (T : Teemap) : List Nat :=
  dataSigBytes ++ encInts (headerInts T) ++ encInts (dirInts T) ++
    encInts (itemOffs T) ++ encInts (dataOffs T) ++
    encInts (uncompInts T) ++ encInts ((entsOf T).flatten) ++
    ((datasOf T).map compress).flatten

theorem count_bounds (T : Teemap) (h : validMap T = true) :
    T.images.length ≤ 10000 ∧ T.envelopes.length ≤ 10000 ∧
    T.groups.length ≤ 10000 ∧ T.layers.length ≤ 10000 ∧
    T.envpoints.length ≤ 10000 := by
  simp only [validMap, Bool.and_eq_true, decide_eq_true_eq,
    List.all_eq_true] at h
  exact ⟨h.1.1.1.1.1.1.1.1.1.1, h.1.1.1.1.1.1.1.1.1.2,
    h.1.1.1.1.1.1.1.1.2, h.1.1.1.1.1.1.1.2, h.1.1.1.1.1.1.2⟩

theorem headerInts_intOk (T : Teemap) (h : validMap T = true) :
    ∀ x ∈ headerInts T, intOk x = true := by
  have hb := header_bounds T h
  have hcnt := count_bounds T h
  have hni : (entsOf T).length ≤ 40002 := by
    rw [entsOf_length]
    omega
  intro x hx
  rw [headerInts] at hx
  rw [intOk_iff]
  rcases List.mem_cons.mp hx with rfl | hx1
  · omega
  rcases List.mem_cons.mp hx1 with rfl | hx2
  · have := hb.2.2.2.2.2.1
    omega
  rcases List.mem_cons.mp hx2 with rfl | hx3
  · have := hb.2.2.2.2.2.2
    omega
  rcases List.mem_cons.mp hx3 with rfl | hx4
  · have := hb.1
    omega
  rcases List.mem_cons.mp hx4 with rfl | hx5
  · have := hb.2.1
    omega
  rcases List.mem_cons.mp hx5 with rfl | hx6
  · have := hb.2.2.1
    have h2 := datasOf_length_le T h
    omega
  rcases List.mem_cons.mp hx6 with rfl | hx7
  · have := hb.2.2.2.1
    omega
  rcases List.mem_cons.mp hx7 with rfl | hx8
  · have := hb.2.2.2.2.1
    omega
  · simp at hx8

theorem dirInts_intOk (T : Teemap) (h : validMap T = true) :
    ∀ x ∈ dirInts T, intOk x = true := by
  have hcnt := count_bounds T h
  intro x hx
  rw [dirInts, List.mem_flatMap] at hx
  obtain ⟨e, he, hxe⟩ := hx
  simp only [typeDirectory, List.mem_append, List.mem_singleton] at he
  have hbnd : ∀ t s : Int, ∀ n : Nat, e = (t, s, (n : Int)) →
      0 ≤ t → t ≤ 6 → 0 ≤ s → s ≤ 40002 → n ≤ 10000 →
      intOk x = true := by
    intro t s n he2 h1 h2 h3 h4 h5
    subst he2
    rw [intOk_iff]
    simp only [List.mem_cons, List.not_mem_nil, or_false] at hxe
    rcases hxe with rfl | rfl | rfl
    · omega
    · omega
    · omega
  rcases he with ((((rfl | h2) | h3) | h4) | h5) | rfl
  · exact hbnd 0 0 1 rfl (by omega) (by omega) (by omega) (by omega)
      (by omega)
  · have := dirStep_mem h2
    exact hbnd 2 1 T.images.length this (by omega) (by omega) (by omega)
      (by omega) (by omega)
  · have := dirStep_mem h3
    rw [dirStep_snd] at this
    refine hbnd 3 (1 + (T.images.length : Int)) T.envelopes.length this
      (by omega) (by omega) (by omega) (by omega) (by omega)
  · have := dirStep_mem h4
    rw [dirStep_snd, dirStep_snd] at this
    refine hbnd 4 (1 + (T.images.length : Int) + (T.envelopes.length : Int))
      T.groups.length this (by omega) (by omega) (by omega) (by omega)
      (by omega)
  · have := dirStep_mem h5
    rw [dirStep_snd, dirStep_snd, dirStep_snd] at this
    refine hbnd 5 (1 + (T.images.length : Int) + (T.envelopes.length : Int) +
      (T.groups.length : Int)) T.layers.length this
      (by omega) (by omega) (by omega) (by omega) (by omega)
  · have hS : (dirStep 5 (dirStep 4 (dirStep 3
        (dirStep 2 1 T.images.length).2 T.envelopes.length).2
          T.groups.length).2 T.layers.length).2 =
        ((1 + T.images.length + T.envelopes.length + T.groups.length +
          T.layers.length : Nat) : Int) := by
      rw [dirStep_snd, dirStep_snd, dirStep_snd, dirStep_snd]
      push_cast
      ring
    refine hbnd 6 ((1 + T.images.length + T.envelopes.length +
        T.groups.length + T.layers.length : Nat) : Int) 1
      (by rw [hS]; norm_num)
      (by omega) (by omega) (by omega) (by omega) (by omega)

theorem valid_env_ok (T : Teemap) (h : validMap T = true) :
    ∀ e ∈ T.envelopes, envelopeOk e = true := by
  simp only [validMap, Bool.and_eq_true, List.all_eq_true] at h
  exact h.1.1.1.1.2

theorem valid_envpoint_values (T : Teemap) (h : validMap T = true) :
    ∀ p ∈ T.envpoints, p.values.length = 4 := by
  simp only [validMap, Bool.and_eq_true, List.all_eq_true] at h
  intro p hp
  have := h.1.1.2 p hp
  simp only [envpointOk, Bool.and_eq_true, decide_eq_true_eq] at this
  exact this.1.2

theorem entSizes_sum (T : Teemap) (h : validMap T = true) :
    (entSizesOf (entsOf T)).sum =
      (headerWrite T ((datasOf T).map compress)).item_size := by
  rw [← sizePairs_snd T (valid_env_ok T h),
    sizePairs_sum T _ (valid_envpoint_values T h)]

theorem itemOffs_cum (T : Teemap) (h : validMap T = true) :
    itemOffs T ++ [(headerWrite T ((datasOf T).map compress)).item_size] =
      0 :: cumFrom 0 (entSizesOf (entsOf T)) := by
  have h1 := itemOffsetsAux_cum (sizePairs T) 0 (sizePairs_adv T)
  rw [sizePairs_fst, zero_add,
    sizePairs_sum T ((datasOf T).map compress) (valid_envpoint_values T h),
    sizePairs_snd T (valid_env_ok T h)] at h1
  exact h1

theorem itemOffs_intOk (T : Teemap) (h : validMap T = true) :
    ∀ x ∈ itemOffs T, intOk x = true := by
  have hc := itemOffs_cum T h
  have hb := (header_bounds T h).2.2.2.1
  intro x hx
  have hx2 : x ∈ itemOffs T ++
      [(headerWrite T ((datasOf T).map compress)).item_size] :=
    List.mem_append_left _ hx
  rw [hc] at hx2
  rw [intOk_iff]
  rcases List.mem_cons.mp hx2 with rfl | hx3
  · omega
  · have := cumFrom_bounds (entSizesOf (entsOf T)) 0
      (fun s hs => le_of_lt (entSizesOf_pos T s hs)) x hx3
    rw [zero_add, entSizes_sum T h] at this
    omega

theorem dataOffs_cum (T : Teemap) :
    dataOffs T ++ [(headerWrite T ((datasOf T).map compress)).data_size] =
      0 :: cumFrom 0
        (((datasOf T).map compress).map (fun d => (d.length : Int))) := by
  have h1 := dataOffsetsAux_cum ((datasOf T).map compress) 0
  rw [zero_add] at h1
  have h2 : (headerWrite T ((datasOf T).map compress)).data_size =
      ((((datasOf T).map compress).map (fun d => (d.length : Int))).sum) := by
    show ((((((datasOf T).map compress).map List.length).sum : Nat)) : Int) =
      _
    exact cast_sum_lengths _
  rw [h2]
  exact h1

theorem dataOffs_intOk (T : Teemap) (h : validMap T = true) :
    ∀ x ∈ dataOffs T, intOk x = true := by
  have hc := dataOffs_cum T
  have hb := (header_bounds T h).2.2.2.2.1
  intro x hx
  have hx2 : x ∈ dataOffs T ++
      [(headerWrite T ((datasOf T).map compress)).data_size] :=
    List.mem_append_left _ hx
  rw [hc] at hx2
  rw [intOk_iff]
  rcases List.mem_cons.mp hx2 with rfl | hx3
  · omega
  · have := cumFrom_bounds
      (((datasOf T).map compress).map (fun d => (d.length : Int))) 0
      (fun s hs => by
        rw [List.mem_map] at hs
        obtain ⟨d, _, rfl⟩ := hs
        positivity) x hx3
    have h2 : (headerWrite T ((datasOf T).map compress)).data_size =
        ((((datasOf T).map compress).map (fun d => (d.length : Int))).sum) := by
      show ((((((datasOf T).map compress).map List.length).sum : Nat)) : Int) =
        _
      exact cast_sum_lengths _
    rw [zero_add, ← h2] at this
    omega

theorem uncompInts_intOk (T : Teemap) (h : validMap T = true) :
    ∀ x ∈ uncompInts T, intOk x = true := by
  intro x hx
  rw [uncompInts, List.mem_map] at hx
  obtain ⟨d, hd, rfl⟩ := hx
  have := datasOf_blob_le T h d hd
  rw [intOk_iff]
  omega

theorem entsOf_flatten_intOk (T : Teemap) (h : validMap T = true) :
    ∀ x ∈ (entsOf T).flatten, intOk x = true := by
  intro x hx
  rw [List.mem_flatten] at hx
  obtain ⟨e, he, hxe⟩ := hx
  exact entsOf_intOk T h e he x hxe

theorem saveBytes_spec (T : Teemap) (h : validMap T = true) :
    saveBytes T = .ok (savedBytes T) := by
  rw [saveBytes, saveItems_spec h]
  simp only [ok_bind]
  show (do
    let headerB ← packInts (headerInts T)
    let dirB ← packInts (dirInts T)
    let offB ← packInts (itemOffs T)
    let dataOffB ← packInts (dataOffs T)
    let uncompB ← packInts (uncompInts T)
    let itemB ← packItemInts ((entsOf T).flatten)
    Except.ok (dataSigBytes ++ headerB ++ dirB ++ offB ++ dataOffB ++
      uncompB ++ itemB ++ ((datasOf T).map compress).flatten) :
      Except Err (List Nat)) = .ok (savedBytes T)
  rw [packInts_of_all (headerInts_intOk T h)]
  simp only [ok_bind]
  rw [packInts_of_all (dirInts_intOk T h)]
  simp only [ok_bind]
  rw [packInts_of_all (itemOffs_intOk T h)]
  simp only [ok_bind]
  rw [packInts_of_all (dataOffs_intOk T h)]
  simp only [ok_bind]
  rw [packInts_of_all (uncompInts_intOk T h)]
  simp only [ok_bind]
  rw [packItemInts_of_all (entsOf_flatten_intOk T h)]
  simp only [ok_bind]
  rfl

theorem savedBytes_drop4 (T : Teemap) :
    (savedBytes T).drop 4 = encInts (headerInts T) ++
      (encInts (dirInts T) ++ (encInts (itemOffs T) ++
        (encInts (dataOffs T) ++ (encInts (uncompInts T) ++
          (encInts ((entsOf T).flatten) ++
            ((datasOf T).map compress).flatten))))) := by
  rw [savedBytes]
  simp only [List.append_assoc]
  exact List.drop_left' rfl

theorem readHeader_saved (T : Teemap) (h : validMap T = true) :
    readHeader (savedBytes T) =
      .ok (headerWrite T ((datasOf T).map compress),
        (headerWrite T ((datasOf T).map compress)).num_item_types * 12 +
        ((headerWrite T ((datasOf T).map compress)).num_items +
          (headerWrite T ((datasOf T).map compress)).num_raw_data) * 4 +
        (headerWrite T ((datasOf T).map compress)).num_raw_data * 4 +
        (headerWrite T ((datasOf T).map compress)).item_size + 36) := by
  have htake4 : (savedBytes T).take 4 = dataSigBytes := by
    rw [savedBytes]
    simp only [List.append_assoc]
    exact List.take_left' rfl
  have hints := headerInts_intOk T h
  unfold readHeader
  rw [htake4]
  rw [if_neg (by decide), if_neg (by decide)]
  rw [savedBytes_drop4 T]
  rw [List.take_left' (show (encInts (headerInts T)).length = 32 by
    rw [encInts_length]; rfl)]
  rw [decInts_encInts hints]
  rw [headerInts]
  dsimp only
  rw [if_neg (by decide)]
  rfl

theorem dirInts_length (T : Teemap) :
    (dirInts T).length = 3 * (typeDirectory T).length := by
  rw [dirInts]
  induction typeDirectory T with
  | nil => rfl
  | cons e rest ih =>
    simp only [List.flatMap_cons, List.length_append, List.length_cons,
      List.length_nil, ih, List.length_cons]
    ring

theorem typeDirectory_length_eq (T : Teemap) (cds : List (List Nat)) :
    ((typeDirectory T).length : Int) = (headerWrite T cds).num_item_types := by
  by_cases h2 : T.images = [] <;> by_cases h3 : T.envelopes = [] <;>
    by_cases h4 : T.groups = [] <;> by_cases h5 : T.layers = [] <;>
    simp [typeDirectory, dirStep, headerWrite, h2, h3, h4, h5,
      List.length_eq_zero]

theorem itemOffs_length (T : Teemap) :
    (itemOffs T).length = (entsOf T).length := by
  rw [itemOffs, itemOffsetsAux_length, typeNamesOf_length]

theorem dataOffs_length (T : Teemap) :
    (dataOffs T).length = (datasOf T).length := by
  rw [dataOffs, dataOffsetsAux_length, List.length_map]

theorem entSizesOf_sum (es : List (List Int)) :
    (entSizesOf es).sum = ((4 * (es.map List.length).sum : Nat) : Int) := by
  induction es with
  | nil => rfl
  | cons e rest ih =>
    rw [entSizesOf_cons, List.sum_cons, ih]
    simp only [List.map_cons, List.sum_cons]
    push_cast
    ring

theorem item_size_bytes (T : Teemap) (h : validMap T = true) :
    (headerWrite T ((datasOf T).map compress)).item_size =
      (((encInts ((entsOf T).flatten)).length : Nat) : Int) := by
  rw [← entSizes_sum T h, entSizesOf_sum, encInts_length,
    List.length_flatten]

theorem savedBytes_drop36 (T : Teemap) :
    (savedBytes T).drop 36 = encInts (dirInts T) ++
      (encInts (itemOffs T) ++ (encInts (dataOffs T) ++
        (encInts (uncompInts T) ++ (encInts ((entsOf T).flatten) ++
          ((datasOf T).map compress).flatten)))) := by
  have h := congrArg (List.drop 32) (savedBytes_drop4 T)
  rw [List.drop_drop,
    List.drop_left' (show (encInts (headerInts T)).length = 32 by
      rw [encInts_length]; rfl)] at h
  rw [show (36 : Nat) = 4 + 32 from rfl]
  exact h

theorem savedBytes_dropDir (T : Teemap) :
    (savedBytes T).drop (36 + 12 * (typeDirectory T).length) =
      encInts (itemOffs T) ++ (encInts (dataOffs T) ++
        (encInts (uncompInts T) ++ (encInts ((entsOf T).flatten) ++
          ((datasOf T).map compress).flatten))) := by
  have h := congrArg (List.drop (12 * (typeDirectory T).length))
    (savedBytes_drop36 T)
  rw [List.drop_drop,
    List.drop_left' (show (encInts (dirInts T)).length =
      12 * (typeDirectory T).length by
        rw [encInts_length, dirInts_length]; ring)] at h
  exact h

theorem savedBytes_dropOffs (T : Teemap) :
    (savedBytes T).drop (36 + 12 * (typeDirectory T).length +
      4 * (entsOf T).length) =
      encInts (dataOffs T) ++ (encInts (uncompInts T) ++
        (encInts ((entsOf T).flatten) ++
          ((datasOf T).map compress).flatten)) := by
  have h := congrArg (List.drop (4 * (entsOf T).length))
    (savedBytes_dropDir T)
  rw [List.drop_drop,
    List.drop_left' (show (encInts (itemOffs T)).length =
      4 * (entsOf T).length by
        rw [encInts_length, itemOffs_length])] at h
  exact h

theorem savedBytes_dropDataOffs (T : Teemap) :
    (savedBytes T).drop (36 + 12 * (typeDirectory T).length +
      4 * (entsOf T).length + 4 * (datasOf T).length) =
      encInts (uncompInts T) ++ (encInts ((entsOf T).flatten) ++
        ((datasOf T).map compress).flatten) := by
  have h := congrArg (List.drop (4 * (datasOf T).length))
    (savedBytes_dropOffs T)
  rw [List.drop_drop,
    List.drop_left' (show (encInts (dataOffs T)).length =
      4 * (datasOf T).length by
        rw [encInts_length, dataOffs_length])] at h
  exact h

theorem savedBytes_dropItems (T : Teemap) :
    (savedBytes T).drop (36 + 12 * (typeDirectory T).length +
      4 * (entsOf T).length + 4 * (datasOf T).length +
      4 * (datasOf T).length) =
      encInts ((entsOf T).flatten) ++
        ((datasOf T).map compress).flatten := by
  have h := congrArg (List.drop (4 * (datasOf T).length))
    (savedBytes_dropDataOffs T)
  rw [List.drop_drop,
    List.drop_left' (show (encInts (uncompInts T)).length =
      4 * (datasOf T).length by
        rw [encInts_length, uncompInts, List.length_map])] at h
  exact h

theorem savedBytes_dropData (T : Teemap) :
    (savedBytes T).drop (36 + 12 * (typeDirectory T).length +
      4 * (entsOf T).length + 4 * (datasOf T).length +
      4 * (datasOf T).length + 4 * ((entsOf T).map List.length).sum) =
      ((datasOf T).map compress).flatten := by
  have h := congrArg (List.drop (4 * ((entsOf T).map List.length).sum))
    (savedBytes_dropItems T)
  rw [List.drop_drop,
    List.drop_left' (show (encInts ((entsOf T).flatten)).length =
      4 * ((entsOf T).map List.length).sum by
        rw [encInts_length, List.length_flatten])] at h
  exact h

theorem loadBytes_saved (T : Teemap) (h : validMap T = true) :
    loadBytes (savedBytes T) = .ok T := by
  have hb := header_bounds T h
  have hTDi := typeDirectory_length_eq T ((datasOf T).map compress)
  have hTD : (headerWrite T ((datasOf T).map compress)).num_item_types.toNat
      = (typeDirectory T).length := by omega
  have hNE : (headerWrite T ((datasOf T).map compress)).num_items.toNat
      = (entsOf T).length := by
    have := hb.2.1
    omega
  have hND : (headerWrite T ((datasOf T).map compress)).num_raw_data.toNat
      = (datasOf T).length := by
    have := hb.2.2.1
    omega
  have hisz : (headerWrite T ((datasOf T).map compress)).item_size =
      ((4 * ((entsOf T).map List.length).sum : Nat) : Int) := by
    rw [item_size_bytes T h, encInts_length, List.length_flatten]
  rw [loadBytes, readHeader_saved T h]
  simp only [ok_bind]
  rw [if_neg (show ¬ ((headerWrite T ((datasOf T).map compress)).num_item_types
    < 0) from by omega)]
  rw [hTD, savedBytes_drop36 T,
    List.take_left' (show (encInts (dirInts T)).length =
      12 * (typeDirectory T).length from by
        rw [encInts_length, dirInts_length]; ring)]
  rw [if_neg (show ¬ ((encInts (dirInts T)).length ≠
    12 * (typeDirectory T).length) from by
      rw [encInts_length, dirInts_length]; omega)]
  rw [decInts_encInts (dirInts_intOk T h), dirInts, readTriples_flatMap]
  rw [if_neg (show ¬ ((headerWrite T ((datasOf T).map compress)).num_items
    < 0) from by have := hb.2.1; omega)]
  rw [hNE, savedBytes_dropDir T,
    List.take_left' (show (encInts (itemOffs T)).length =
      4 * (entsOf T).length from by rw [encInts_length, itemOffs_length])]
  rw [if_neg (show ¬ ((encInts (itemOffs T)).length ≠
    4 * (entsOf T).length) from by
      rw [encInts_length, itemOffs_length]; omega)]
  rw [decInts_encInts (itemOffs_intOk T h)]
  rw [if_neg (show ¬ ((headerWrite T ((datasOf T).map compress)).num_raw_data
    < 0) from by have := hb.2.2.1; omega)]
  rw [hND, savedBytes_dropOffs T,
    List.take_left' (show (encInts (dataOffs T)).length =
      4 * (datasOf T).length from by rw [encInts_length, dataOffs_length])]
  rw [if_neg (show ¬ ((encInts (dataOffs T)).length ≠
    4 * (datasOf T).length) from by
      rw [encInts_length, dataOffs_length]; omega)]
  rw [decInts_encInts (dataOffs_intOk T h)]
  simp only [pure_bind]
  rw [if_neg (show ¬ ((headerWrite T ((datasOf T).map compress)).num_item_types *
      12 + ((headerWrite T ((datasOf T).map compress)).num_items +
        (headerWrite T ((datasOf T).map compress)).num_raw_data) * 4 +
      (headerWrite T ((datasOf T).map compress)).num_raw_data * 4 +
      (headerWrite T ((datasOf T).map compress)).item_size + 36 < 0) from by
    have h1 := hb.1
    have h2 := hb.2.1
    have h3 := hb.2.2.1
    have h4 := hb.2.2.2.1
    omega)]
  rw [show ((headerWrite T ((datasOf T).map compress)).num_item_types * 12 +
      ((headerWrite T ((datasOf T).map compress)).num_items +
        (headerWrite T ((datasOf T).map compress)).num_raw_data) * 4 +
      (headerWrite T ((datasOf T).map compress)).num_raw_data * 4 +
      (headerWrite T ((datasOf T).map compress)).item_size + 36).toNat =
    36 + 12 * (typeDirectory T).length + 4 * (entsOf T).length +
      4 * (datasOf T).length + 4 * (datasOf T).length +
      4 * ((entsOf T).map List.length).sum from by
    have h2 := hb.2.1
    have h3 := hb.2.2.1
    omega]
  rw [dataOffs_cum T]
  have hslice : sliceData (savedBytes T)
      (36 + 12 * (typeDirectory T).length + 4 * (entsOf T).length +
        4 * (datasOf T).length + 4 * (datasOf T).length +
        4 * ((entsOf T).map List.length).sum) none
      (0 :: cumFrom 0 (((datasOf T).map compress).map
        (fun d => (d.length : Int)))) =
      .ok ((datasOf T).map compress,
        some (0 + (((datasOf T).map compress).map
          (fun d => (d.length : Int))).sum)) := by
    rw [show sliceData (savedBytes T)
        (36 + 12 * (typeDirectory T).length + 4 * (entsOf T).length +
          4 * (datasOf T).length + 4 * (datasOf T).length +
          4 * ((entsOf T).map List.length).sum) none
        (0 :: cumFrom 0 (((datasOf T).map compress).map
          (fun d => (d.length : Int)))) =
      sliceData (savedBytes T)
        (36 + 12 * (typeDirectory T).length + 4 * (entsOf T).length +
          4 * (datasOf T).length + 4 * (datasOf T).length +
          4 * ((entsOf T).map List.length).sum) (some 0)
        (cumFrom 0 (((datasOf T).map compress).map
          (fun d => (d.length : Int)))) from rfl]
    exact sliceData_cum ((datasOf T).map compress) 0 _ (savedBytes T)
      [] (le_refl 0)
      (fun d hd => by
        rw [List.mem_map] at hd
        obtain ⟨d0, _, rfl⟩ := hd
        exact compress_length_pos d0)
      (by rw [List.append_nil]; exact savedBytes_dropData T)
  rw [hslice]
  simp only [ok_bind]
  rw [itemOffs_cum T h]
  rw [show sizesFromOpt ((((datasOf T).map compress,
      some (0 + (((datasOf T).map compress).map
        (fun d => (d.length : Int))).sum)) :
      List (List Nat) × Option Int)).2
      (0 :: cumFrom 0 (entSizesOf (entsOf T))) =
    sizesFromOpt (some 0) (cumFrom 0 (entSizesOf (entsOf T))) from rfl]
  rw [sizesFromOpt_some,
    sizesFrom_cumFrom (entSizesOf (entsOf T)) 0 (entSizesOf_pos T)
      (le_refl 0)]
  simp only [ok_bind]
  rw [if_neg (show ¬ ((headerWrite T ((datasOf T).map compress)).num_item_types *
      12 + ((headerWrite T ((datasOf T).map compress)).num_items +
        (headerWrite T ((datasOf T).map compress)).num_raw_data) * 4 +
      (headerWrite T ((datasOf T).map compress)).num_raw_data * 4 +
      (headerWrite T ((datasOf T).map compress)).item_size + 36 -
      (headerWrite T ((datasOf T).map compress)).item_size < 0) from by
    have h1 := hb.1
    have h2 := hb.2.1
    have h3 := hb.2.2.1
    omega)]
  rw [show ((headerWrite T ((datasOf T).map compress)).num_item_types * 12 +
      ((headerWrite T ((datasOf T).map compress)).num_items +
        (headerWrite T ((datasOf T).map compress)).num_raw_data) * 4 +
      (headerWrite T ((datasOf T).map compress)).num_raw_data * 4 +
      (headerWrite T ((datasOf T).map compress)).item_size + 36 -
      (headerWrite T ((datasOf T).map compress)).item_size).toNat =
    36 + 12 * (typeDirectory T).length + 4 * (entsOf T).length +
      4 * (datasOf T).length + 4 * (datasOf T).length from by
    have h2 := hb.2.1
    have h3 := hb.2.2.1
    have h4 := hb.2.2.2.1
    omega]
  rw [readItems_all T (savedBytes T)
    (36 + 12 * (typeDirectory T).length + 4 * (entsOf T).length +
      4 * (datasOf T).length + 4 * (datasOf T).length)
    (((datasOf T).map compress).flatten)
    (entsOf_intOk T h)
    (by rw [flatten_map_encInts]; exact savedBytes_dropItems T)]
  simp only [ok_bind]
  have himgok : ∀ im ∈ T.images, imageOk im = true := by
    simp only [validMap, Bool.and_eq_true, List.all_eq_true] at h
    exact h.1.1.1.1.1.2
  have hlyok : ∀ l ∈ T.layers, layerOk T.images.length l = true := by
    simp only [validMap, Bool.and_eq_true, List.all_eq_true] at h
    exact h.1.2
  have hgrpok : ∀ g ∈ T.groups, groupOk g = true := by
    simp only [validMap, Bool.and_eq_true, List.all_eq_true] at h
    exact h.1.1.1.2
  have hstarts : startsCanonical 0 T.groups = true := by
    simp only [validMap, Bool.and_eq_true, List.all_eq_true] at h
    exact h.2
  rw [rawOfType_image T]
  have hdecImgs := decodeImages ((datasOf T).map compress) T.images 0 []
    ((lyrBlobs T.layers).map compress) himgok
    (by simp [datasOf, List.map_append])
  simp only [List.length_nil] at hdecImgs
  rw [hdecImgs]
  simp only [ok_bind]
  rw [rawOfType_envelope T, decodeEnvelopes T.envelopes 0 (valid_env_ok T h)]
  simp only [ok_bind]
  rw [rawOfType_group T, decodeGroups T.groups 0 0]
  simp only [ok_bind]
  rw [rawOfType_layer T]
  have hdecLyrs := decodeLayers ((datasOf T).map compress) T.images
    T.images.length rfl T.layers 0 ((imgBlobs T.images).map compress) []
    hlyok (by simp [datasOf, List.map_append])
  simp only [List.length_map] at hdecLyrs
  rw [hdecLyrs]
  simp only [ok_bind]
  rw [rawOfType_envpoint T]
  simp only [List.map_cons, List.map_nil, List.flatten_cons,
    List.flatten_nil, List.append_nil, RawItem.info_mk]
  rw [splitEnvpoints_envpointItemInts T.envpoints
    (valid_envpoint_values T h)]
  have hassign := assign_decoded T.groups []
    (fun g hg => by
      have := hgrpok g hg
      simp only [groupOk, Bool.and_eq_true, decide_eq_true_eq] at this
      exact this.2)
    (by simp only [List.length_nil, Nat.cast_zero]; exact hstarts)
  simp only [List.length_nil, Nat.cast_zero, List.nil_append] at hassign
  rw [show (T.groups.map Group.layers).flatten = T.layers from rfl] at hassign
  rw [hassign]

/-- Modelled from the spec: the default map of create_default (tml.py lines
381 to 398 with the item defaults of items.py, which is not in src): a
background group holding one quad layer with a single background quad, and
a game group holding one game tile layer; parallax defaults to 100 and the
stored layer ranges are the canonical ones the constructor produces. -/
def defaultMap : Teemap :=
  { images := [], envelopes := [],
    groups :=
      [{ offset_x := 0, offset_y := 0, parallax_x := 100, parallax_y := 100,
         start_layer := 0, num_layers := 1, use_clipping := 0, clip_x := 0,
         clip_y := 0, clip_w := 0, clip_h := 0,
         layers := [Layer.quad ⟨-1, [1, 2, 3, 4, 5, 6, 7, 8, 9, 10]⟩] },
       { offset_x := 0, offset_y := 0, parallax_x := 100, parallax_y := 100,
         start_layer := 1, num_layers := 1, use_clipping := 0, clip_x := 0,
         clip_y := 0, clip_w := 0, clip_h := 0,
         layers := [Layer.tile ⟨5, 5, 1, 0, -1, List.replicate 25 0⟩] }],
    envpoints := [] }

/-- C1: save followed by load is the identity on every valid map graph: for
any Teemap with bounded image, envelope, group, layer and envpoint counts,
in-range descriptor fields, consistent group layer ranges and well-formed
blobs, save succeeds and produces a byte string that load decodes back to a
graph field-for-field equal to the original, groups, layers, images,
envelopes and envpoints included. -/
theorem c1_save_load_roundtrip (T : Teemap) (h : validMap T = true) :
    ∃ bs : List Nat, saveBytes T = .ok bs ∧ loadBytes bs = .ok T :=
  ⟨savedBytes T, saveBytes_spec T h, loadBytes_saved T h⟩

/-- Witness for C1: the default map is valid and round-trips. -/
theorem c1_witness : validMap defaultMap = true ∧
    (∃ bs : List Nat, saveBytes defaultMap = .ok bs ∧
      loadBytes bs = .ok defaultMap) :=
  ⟨by decide, c1_save_load_roundtrip defaultMap (by decide)⟩

end Tml
